import Mathlib

/-!
# Manifest deployer: reconcile / health-check / delete state machine

Shallow embedding of `pkg/deployer/manifest/ensure.go`.

* Go pointers that the code mutates in place (`m.DeployItem`, the desired
  object `obj`, the fetched object `currObj`) become values that are passed in
  and returned.
* The remote cluster and the host cluster are an abstract state `σ` together
  with an `Env σ` of operations on it; every call the code makes to a client
  is appended, with its response, to the `calls` log of the `World`.
* A Go `error` is a `GoError`; `nil` is `none`.
* A nil-pointer dereference is the outcome `Outcome.panicked`.
* The goroutines of `cleanupOrphanedResources` advance as the scheduler `Env.Schedule`
  says, which is arbitrary: a statement about an `Env` is a statement about every schedule.
-/

namespace Landscaper

/-! ## Errors -/

/-- Go `error`: the text of `err.Error()` and whether `apierrors.IsNotFound(err)` holds. -/
structure GoError where
  msg : String
  notFound : Bool
deriving DecidableEq

/-- The check `apierrors.IsNotFound(err)`. -/
def IsNotFound (err : GoError) : Bool := err.notFound

/-- The call `errors.New(text)`. -/
def errorsNew (text : String) : GoError := ⟨text, false⟩

/-- The call `fmt.Errorf(pre ++ "%w", err)`: the message of `err` after the text `pre`. -/
def Errorf (pre : String) (err : GoError) : GoError := ⟨pre ++ err.msg, err.notFound⟩

/-! ## API types -/

/-- Type `manifest.ManifestPolicy`, a Go string type. -/
abbrev ManifestPolicy := String

/-- Modelled from the spec: the policy constants of `apis/deployer/manifest`
(`Manage`, `Ignore`, `Fallback`, `Keep`), whose declarations are not among the sources. -/
def ManagePolicy : ManifestPolicy := "manage"

/-- Modelled from the spec: policy `Ignore` (track identity only, never mutate or delete). -/
def IgnorePolicy : ManifestPolicy := "ignore"

/-- Modelled from the spec: policy `Fallback`. -/
def FallbackPolicy : ManifestPolicy := "fallback"

/-- Modelled from the spec: policy `Keep` (never delete on removal or teardown). -/
def KeepPolicy : ManifestPolicy := "keep"

/-- Type `manifest.UpdateStrategy`, a Go string type. -/
abbrev UpdateStrategy := String

/-- Modelled from the spec: strategy `Update` (full replace); the constant is not among the sources. -/
def UpdateStrategyUpdate : UpdateStrategy := "update"

/-- Modelled from the spec: strategy `Patch` (merge patch); the constant is not among the sources. -/
def UpdateStrategyPatch : UpdateStrategy := "patch"

/-- The label key `ManagedInstanceLabel` of `types_config.go`. -/
def ManagedInstanceLabel : String := "manifest.deployer.landscaper.gardener.cloud/instance"

/-- The label key `ManagedDeployItemLabel` of `types_config.go`. -/
def ManagedDeployItemLabel : String := "manifest.deployer.landscaper.gardener.cloud/deployitem"

/-- Modelled from the spec: the finalizer token `lsv1alpha1.LandscaperFinalizer`
("a marker string added to a deploy item"); the constant is not among the sources. -/
def LandscaperFinalizer : String := "finalizer.landscaper.gardener.cloud"

/-- Modelled from the spec: `Phase ∈ {Pending, Progressing, Succeeded, Failed, Deleting}`;
the type `lsv1alpha1.ExecutionPhase` is not among the sources. -/
inductive ExecutionPhase where
  | Pending
  | Progressing
  | Succeeded
  | Failed
  | Deleting
deriving DecidableEq

/-- Type `schema.GroupVersionKind`. -/
structure GroupVersionKind where
  Group : String
  Version : String
  Kind : String
deriving DecidableEq

/-- Type `schema.GroupKind`. -/
structure GroupKind where
  Group : String
  Kind : String
deriving DecidableEq

/-- Type `unstructured.Unstructured`: the accessors the code reads and writes
(`GetAPIVersion`, `GetKind`, `GetName`, `GetNamespace`, `GetUID`, `GetLabels`),
and every remaining field of the object as `Fields`. -/
structure Unstructured where
  APIVersion : String
  Kind : String
  Name : String
  Namespace : String
  UID : String
  Labels : List (String × String)
  Fields : List (String × String)
deriving DecidableEq

/-- The value `unstructured.Unstructured{}`. -/
def Unstructured.empty : Unstructured := ⟨"", "", "", "", "", [], []⟩

/-- The function `schema.ParseGroupVersion`: group and version of an `apiVersion`
string, `none` when it holds more than one slash. -/
def ParseGroupVersion (gv : String) : Option (String × String) :=
  let cs := gv.toList
  if cs = [] ∨ cs = ['/'] then some ("", "")
  else
    match cs.count '/' with
    | 0 => some ("", gv)
    | 1 => some (String.mk (cs.takeWhile (fun c => c != '/')),
                 String.mk ((cs.dropWhile (fun c => c != '/')).drop 1))
    | _ => none

/-- The method `(*Unstructured).GroupVersionKind`: the parsed `apiVersion` with the kind, the
empty value when the `apiVersion` does not parse. -/
def Unstructured.GroupVersionKind (u : Unstructured) : GroupVersionKind :=
  match ParseGroupVersion u.APIVersion with
  | some (g, v) => ⟨g, v, u.Kind⟩
  | none => ⟨"", "", ""⟩

/-- The method `GroupVersionKind.GroupKind`. -/
def GroupVersionKind.GroupKind (gvk : GroupVersionKind) : GroupKind := ⟨gvk.Group, gvk.Kind⟩

/-- The method `GroupVersion.String` applied to `gvk.GroupVersion()`. -/
def GroupVersionKind.GroupVersionString (gvk : GroupVersionKind) : String :=
  if gvk.Group.length > 0 then gvk.Group ++ "/" ++ gvk.Version else gvk.Version

/-- The method `(*Unstructured).SetGroupVersionKind`. -/
def Unstructured.SetGroupVersionKind (u : Unstructured) (gvk : Landscaper.GroupVersionKind) :
    Unstructured :=
  { u with APIVersion := gvk.GroupVersionString, Kind := gvk.Kind }

/-- Type `client.ObjectKey` (`types.NamespacedName`). -/
structure ObjectKey where
  Namespace : String
  Name : String
deriving DecidableEq

/-- Modelled from the spec: `kutil.ObjectKey(name, namespace)` ("fetch current object by
namespace+name"); `pkg/utils/kubernetes` is not among the sources. -/
def kutilObjectKey (name ns : String) : ObjectKey := ⟨ns, name⟩

/-- The method `NamespacedName.String`. -/
def ObjectKey.String (key : ObjectKey) : String := key.Namespace ++ "/" ++ key.Name

/-- Modelled from the spec: `kutil.SetMetaDataLabel(obj, lab, value)` ("stamp ... onto the
desired object (idempotent overwrite)"); `pkg/utils/kubernetes` is not among the sources. -/
def SetMetaDataLabel (obj : Unstructured) (lab value : String) : Unstructured :=
  { obj with Labels := obj.Labels.filter (fun p => p.1 != lab) ++ [(lab, value)] }

/-- Modelled from the spec: `kutil.HasLabelWithValue(obj, lab, value)` (the label is present
with that value); `pkg/utils/kubernetes` is not among the sources. -/
def HasLabelWithValue (obj : Unstructured) (lab value : String) : Bool :=
  obj.Labels.lookup lab == some value

/-- Type `lsv1alpha1.TypedObjectReference`. -/
structure TypedObjectReference where
  APIVersion : String
  Kind : String
  Name : String
  Namespace : String
deriving DecidableEq

/-- Modelled from the spec: `kutil.ObjectFromTypedObjectReference(ref)`, the empty object
addressed by the reference (`TypedReference{ APIVersion, Kind, Name, Namespace }`);
`pkg/utils/kubernetes` is not among the sources. -/
def ObjectFromTypedObjectReference (ref : TypedObjectReference) : Unstructured :=
  { Unstructured.empty with
    APIVersion := ref.APIVersion, Kind := ref.Kind, Name := ref.Name, Namespace := ref.Namespace }

/-- Type `manifest.ManagedResourceStatus`. -/
structure ManagedResourceStatus where
  Policy : ManifestPolicy
  Resource : TypedObjectReference
deriving DecidableEq

/-- The zero value of `manifest.ManagedResourceStatus`, as `make` fills a slice. -/
def ManagedResourceStatus.zero : ManagedResourceStatus := ⟨"", ⟨"", "", "", ""⟩⟩

/-- Type `metav1.TypeMeta`. -/
structure TypeMeta where
  APIVersion : String
  Kind : String
deriving DecidableEq

/-- Type `manifest.ProviderStatus`. -/
structure ProviderStatus where
  TypeMeta : TypeMeta
  ManagedResources : List ManagedResourceStatus
deriving DecidableEq

/-- Type `runtime.RawExtension`: serialized bytes (as text) and the in-memory object. -/
structure RawExtension where
  Raw : String
  Object : Option ProviderStatus
deriving DecidableEq

/-- Type `manifest.Manifest`: one entry of `ProviderConfiguration.Manifests`
(the field `Manifest` is a `*runtime.RawExtension`, of which only `Raw` is read). -/
structure ManifestEntry where
  Policy : ManifestPolicy
  Raw : String
deriving DecidableEq

/-- Type `manifest.ProviderConfiguration`. -/
structure ProviderConfiguration where
  UpdateStrategy : UpdateStrategy
  Manifests : List ManifestEntry
deriving DecidableEq

/-- Modelled from the spec: `LastError{operation, reason, message}` (type `lsv1alpha1.Error`,
not among the sources; its timestamps are left out). -/
structure LsError where
  Operation : String
  Reason : String
  Message : String
deriving DecidableEq

/-- Modelled from the spec: `lsv1alpha1helper.UpdatedError(lastError, operation, reason, message)`
builds the structured `LastError{operation, reason, message}`; the helper is not among the
sources, and the previous error only feeds the timestamps that are left out. -/
def UpdatedError (_lastError : Option LsError) (operation reason message : String) : Option LsError :=
  some ⟨operation, reason, message⟩

/-- Type `lsv1alpha1.DeployItemStatus`, the fields the code touches. -/
structure DeployItemStatus where
  Phase : ExecutionPhase
  ObservedGeneration : Int
  LastError : Option LsError
  ProviderStatus : Option RawExtension
deriving DecidableEq

/-- Type `lsv1alpha1.DeployItem`, the fields the code touches. -/
structure DeployItem where
  Name : String
  Generation : Int
  Finalizers : List String
  Status : DeployItemStatus
deriving DecidableEq

/-- The function `controllerutil.RemoveFinalizer`. -/
def RemoveFinalizer (di : DeployItem) (finalizer : String) : DeployItem :=
  { di with Finalizers := di.Finalizers.filter (fun f => f != finalizer) }

/-- The receiver `*Manifest`, the fields the code touches. -/
structure Manifest where
  DeployItem : DeployItem
  ProviderConfiguration : ProviderConfiguration
  ProviderStatus : Option ProviderStatus
deriving DecidableEq

/-- The assignment `m.DeployItem.Status.LastError = e`. -/
def Manifest.setLastError (m : Manifest) (e : Option LsError) : Manifest :=
  { m with DeployItem := { m.DeployItem with Status := { m.DeployItem.Status with LastError := e } } }

/-- The assignment `m.DeployItem.Status.Phase = p`. -/
def Manifest.setPhase (m : Manifest) (p : ExecutionPhase) : Manifest :=
  { m with DeployItem := { m.DeployItem with Status := { m.DeployItem.Status with Phase := p } } }

/-! ## The clients -/

deriving instance DecidableEq for Except

/-- One call made to a client, with its response. -/
inductive Call where
  | get (key : ObjectKey) (obj : Unstructured) (res : Except GoError Unstructured)
  | create (obj : Unstructured) (res : Except GoError Unstructured)
  | update (obj : Unstructured) (res : Except GoError Unstructured)
  | patch (obj : Unstructured) (mergeFrom : Unstructured) (res : Except GoError Unstructured)
  | delete (obj : Unstructured) (res : Option GoError)
  | statusUpdate (di : DeployItem) (res : Option GoError)
  | updateDeployItem (di : DeployItem) (res : Option GoError)
deriving DecidableEq

/-- The collaborators of the deployer, over a state `σ` of the clusters they talk to.
A write returns the object as the server answered it (the Go client decodes the answer
into the object passed in). `Get` reads only. -/
structure Env (σ : Type) where
  /-- The error of `m.TargetClient()`, if any. -/
  TargetClient : Option GoError
  /-- The call `manifestDecoder.Decode(raw, nil, obj)` into an `Unstructured`. -/
  DecodeManifest : String → Except GoError Unstructured
  /-- The call `manifestDecoder.Decode(raw, nil, status)` into a `ProviderStatus`. -/
  DecodeStatus : String → Except GoError ProviderStatus
  /-- The call `runtime.Convert_runtime_Object_To_runtime_RawExtension`. -/
  ConvertStatus : ProviderStatus → Except GoError RawExtension
  /-- The string `manifest.SchemeGroupVersion.String()`. -/
  SchemeGroupVersion : String
  /-- The call `kubeClient.Get(ctx, key, obj)` on the target cluster. -/
  Get : σ → ObjectKey → Unstructured → Except GoError Unstructured
  /-- The call `kubeClient.Create(ctx, obj)`. -/
  Create : σ → Unstructured → Except GoError Unstructured × σ
  /-- The call `kubeClient.Update(ctx, obj)`. -/
  Update : σ → Unstructured → Except GoError Unstructured × σ
  /-- The call `kubeClient.Patch(ctx, obj, client.MergeFrom(mergeFrom))`. -/
  Patch : σ → Unstructured → Unstructured → Except GoError Unstructured × σ
  /-- The call `kubeClient.Delete(ctx, obj)`. -/
  Delete : σ → Unstructured → Option GoError × σ
  /-- The bounded wait `wait.PollImmediateUntil` on `kutil.GenerateDeleteObjectConditionFunc`. -/
  PollDeleted : σ → Unstructured → Option GoError × σ
  /-- The helper `kutil.SetRequiredNestedFieldsFromObj(currObj, obj)`: the desired object
  with the required fields of the fetched one. -/
  SetRequiredNestedFieldsFromObj : Unstructured → Unstructured → Except GoError Unstructured
  /-- The call `m.kubeClient.Status().Update(ctx, m.DeployItem)` on the host cluster. -/
  StatusUpdate : σ → DeployItem → Option GoError × σ
  /-- The call `m.kubeClient.Update(ctx, m.DeployItem)` on the host cluster. -/
  UpdateDeployItem : σ → DeployItem → Option GoError × σ
  /-- The probe `kutil.WaitObjectsReady(ctx, backoff, m.log, m.kubeClient, objects)`. -/
  WaitObjectsReady : σ → List (Option Unstructured) → Option GoError × σ
  /-- The function `apimacherrors.NewAggregate` on a non-empty list. -/
  NewAggregate : List GoError → GoError
  /-- The Go scheduler during `cleanupOrphanedResources`: for each scheduling point in turn
  (before each get of the loop, and at `wg.Wait()`), the running goroutines, by their position
  among those still running, that take one step there, in order. -/
  Schedule : List (List Nat)

/-- The clusters and the log of the calls made so far. -/
structure World (σ : Type) where
  store : σ
  calls : List Call

/-- What an operation leaves behind: the returned error, the receiver and the world. -/
structure Result (σ : Type) where
  err : Option GoError
  m : Manifest
  w : World σ

/-- An operation either returns, or panics on a nil pointer in the world reached so far. -/
inductive Outcome (σ : Type) (α : Type) where
  | returned (a : α)
  | panicked (w : World σ)

/-! ## ApplyObject -/

/-- The fresh `currObj` of `ApplyObject`: an empty object with the group, version and kind of
the desired one. -/
abbrev currObjOf (obj : Unstructured) : Unstructured :=
  Unstructured.empty.SetGroupVersionKind obj.GroupVersionKind

/-- The `key` of `ApplyObject`. -/
abbrev keyOf (obj : Unstructured) : ObjectKey := kutilObjectKey obj.Name obj.Namespace

/-- The desired object with the deploy-item label of `m` injected. -/
abbrev stamped (m : Manifest) (obj : Unstructured) : Unstructured :=
  SetMetaDataLabel obj ManagedDeployItemLabel m.DeployItem.Name

/-- What `ApplyObject` leaves behind; `obj` is the desired object as mutated in place. -/
structure ApplyResult (σ : Type) where
  err : Option GoError
  m : Manifest
  w : World σ
  obj : Unstructured

/-- The method `(*Manifest).ApplyObject`. -/
def ApplyObject {σ : Type} (env : Env σ) (m : Manifest) (w : World σ)
    (policy : ManifestPolicy) (obj : Unstructured) : ApplyResult σ :=
  let currOp := "ApplyObjects"
  let currObj := currObjOf obj
  let key := keyOf obj
  let got := env.Get w.store key currObj
  let w := { w with calls := w.calls ++ [Call.get key currObj got] }
  match got with
  | .error err =>
    if !IsNotFound err then
      ⟨some err, m.setLastError (UpdatedError m.DeployItem.Status.LastError currOp "GetObject" err.msg), w, obj⟩
    else
      -- inject manifest specific labels
      let obj := stamped m obj
      let created := env.Create w.store obj
      let w := { store := created.2, calls := w.calls ++ [Call.create obj created.1] }
      match created.1 with
      | .error err =>
        let err := Errorf ("unable to create resource " ++ key.String ++ ": ") err
        ⟨some err, m.setLastError (UpdatedError m.DeployItem.Status.LastError currOp "CreateObject" err.msg), w, obj⟩
      | .ok obj => ⟨none, m, w, obj⟩
  | .ok currObj =>
    -- if fallback policy is set and the resource is already managed by another deployer
    -- we are not allowed to manage that resource
    if policy = FallbackPolicy ∧ !HasLabelWithValue obj ManagedDeployItemLabel m.DeployItem.Name then
      ⟨none, m, w, obj⟩
    else
      -- inject manifest specific labels
      let obj := stamped m obj
      match env.SetRequiredNestedFieldsFromObj currObj obj with
      | .error err => ⟨some err, m, w, obj⟩
      | .ok obj =>
        if m.ProviderConfiguration.UpdateStrategy = UpdateStrategyUpdate then
          let updated := env.Update w.store obj
          let w := { store := updated.2, calls := w.calls ++ [Call.update obj updated.1] }
          match updated.1 with
          | .error err =>
            let err := Errorf ("unable to update resource " ++ key.String ++ ": ") err
            ⟨some err, m.setLastError (UpdatedError m.DeployItem.Status.LastError currOp "ApplyObject" err.msg), w, obj⟩
          | .ok obj => ⟨none, m, w, obj⟩
        else if m.ProviderConfiguration.UpdateStrategy = UpdateStrategyPatch then
          let patched := env.Patch w.store currObj obj
          let w := { store := patched.2, calls := w.calls ++ [Call.patch currObj obj patched.1] }
          match patched.1 with
          | .error err =>
            let err := Errorf ("unable to patch resource " ++ key.String ++ ": ") err
            ⟨some err, m.setLastError (UpdatedError m.DeployItem.Status.LastError currOp "ApplyObject" err.msg), w, obj⟩
          | .ok _ => ⟨none, m, w, obj⟩
        else
          let err := errorsNew (m.ProviderConfiguration.UpdateStrategy ++ " is not a valid update strategy")
          ⟨some err, m.setLastError (UpdatedError m.DeployItem.Status.LastError currOp "ApplyObject" err.msg), w, obj⟩

/-! ## Orphan cleanup -/

/-- The method `GroupVersionKind.String`. -/
def GroupVersionKind.String (gvk : GroupVersionKind) : String :=
  gvk.Group ++ "/" ++ gvk.Version ++ ", Kind=" ++ gvk.Kind

/-- The function `containsUnstructuredObject`; `none` is the nil-pointer dereference of
`found.GetUID()` or `found.GetObjectKind().GroupVersionKind()` on a nil element. -/
def containsUnstructuredObject (obj : Unstructured) : List (Option Unstructured) → Option Bool
  | [] => some false
  | none :: _ => none
  | some found :: objects =>
    if obj.UID.length ≠ 0 ∧ found.UID.length ≠ 0 then
      if obj.UID = found.UID then some true
      else containsUnstructuredObject obj objects
    else if found.GroupVersionKind.GroupKind ≠ obj.GroupVersionKind.GroupKind then
      containsUnstructuredObject obj objects
    else if found.Name = obj.Name ∧ found.Namespace = obj.Namespace then some true
    else containsUnstructuredObject obj objects

/-- How the `for` loop of `cleanupOrphanedResources` ends. -/
inductive CleanupExit where
  | finished
  | failed (err : GoError)
  | nilDeref

/-- A goroutine that `cleanupOrphanedResources` started for the orphan `obj` and that has not
finished; `deleted` tells whether its delete has been issued, so that only the wait for the
removal is left. -/
structure Goroutine where
  obj : Unstructured
  deleted : Bool
deriving DecidableEq

/-- The state that the loop of `cleanupOrphanedResources` and its goroutines share: the world,
the slice `allErrs`, and the goroutines still running, in the order they were started. The
appends to `allErrs`, which the code does not guard by a lock, are taken one at a time. -/
structure Pool (σ : Type) where
  w : World σ
  allErrs : List GoError
  running : List Goroutine

/-- The first half of the body of a goroutine: the delete; its error is appended to
`allErrs`. -/
def deleteStep {σ : Type} (env : Env σ) (acc : World σ × List GoError) (obj : Unstructured) :
    World σ × List GoError :=
  let deleted := env.Delete acc.1.store obj
  ({ store := deleted.2, calls := acc.1.calls ++ [Call.delete obj deleted.1] },
   match deleted.1 with
   | some err =>
     acc.2 ++ [Errorf ("unable to delete " ++ obj.GroupVersionKind.String ++ " " ++ obj.Name
       ++ "/" ++ obj.Namespace ++ ": ") err]
   | none => acc.2)

/-- The second half of the body of a goroutine: the bounded wait for the removal; its error
is appended to `allErrs`. -/
def pollStep {σ : Type} (env : Env σ) (acc : World σ × List GoError) (obj : Unstructured) :
    World σ × List GoError :=
  let polled := env.PollDeleted acc.1.store obj
  ({ acc.1 with store := polled.2 },
   match polled.1 with
   | some err => acc.2 ++ [err]
   | none => acc.2)

/-- One step of the goroutine at position `i` among those running: its delete, or, when that
was issued, its wait, with which it finishes. A position beyond the running ones is no step. -/
def stepGoroutine {σ : Type} (env : Env σ) (p : Pool σ) (i : Nat) : Pool σ :=
  match p.running[i]? with
  | none => p
  | some g =>
    if g.deleted then
      let acc := pollStep env (p.w, p.allErrs) g.obj
      { w := acc.1, allErrs := acc.2, running := p.running.eraseIdx i }
    else
      let acc := deleteStep env (p.w, p.allErrs) g.obj
      { w := acc.1, allErrs := acc.2, running := p.running.set i { g with deleted := true } }

/-- The rest of the body of a goroutine, run to its end. -/
def finishGoroutine {σ : Type} (env : Env σ) (acc : World σ × List GoError) (g : Goroutine) :
    World σ × List GoError :=
  if g.deleted then pollStep env acc g.obj
  else pollStep env (deleteStep env acc g.obj) g.obj

/-- The state when the `for` loop of `cleanupOrphanedResources` ends, and what is left of the
schedule. -/
structure CleanupScan (σ : Type) where
  exit : CleanupExit
  pool : Pool σ
  sched : List (List Nat)

/-- The `for` loop of `cleanupOrphanedResources`. Before each get the goroutines that the
schedule names take their steps; `go func(obj)` adds a goroutine to those running. -/
def cleanupLoop {σ : Type} (env : Env σ) (currentObjects : List (Option Unstructured))
    (sched : List (List Nat)) (p : Pool σ) : List ManagedResourceStatus → CleanupScan σ
  | [] => ⟨.finished, p, sched⟩
  | mr :: oldObjects =>
    if mr.Policy = IgnorePolicy ∨ mr.Policy = KeepPolicy then
      cleanupLoop env currentObjects sched p oldObjects
    else
      let p := (sched.headD []).foldl (stepGoroutine env) p
      let sched := sched.tail
      let ref := mr.Resource
      let obj := ObjectFromTypedObjectReference ref
      let key := kutilObjectKey ref.Name ref.Namespace
      let got := env.Get p.w.store key obj
      let p := { p with w := { p.w with calls := p.w.calls ++ [Call.get key obj got] } }
      match got with
      | .error err =>
        if IsNotFound err then cleanupLoop env currentObjects sched p oldObjects
        else
          ⟨.failed (Errorf ("unable to get object " ++ obj.GroupVersionKind.String ++ " "
              ++ obj.Name ++ ": ") err), p, sched⟩
      | .ok obj =>
        match containsUnstructuredObject obj currentObjects with
        | none => ⟨.nilDeref, p, sched⟩
        | some true => cleanupLoop env currentObjects sched p oldObjects
        | some false =>
          cleanupLoop env currentObjects sched
            { p with running := p.running ++ [⟨obj, false⟩] } oldObjects

/-- The method `(*Manifest).cleanupOrphanedResources`. At `wg.Wait()` the goroutines that the
schedule names take their steps and then all that are still running run to their end. When the
loop returns early or panics, the world is the one reached at that moment; the goroutines still
running are left behind. -/
def cleanupOrphanedResources {σ : Type} (env : Env σ) (w : World σ)
    (oldObjects : List ManagedResourceStatus) (currentObjects : List (Option Unstructured)) :
    Outcome σ (Option GoError × World σ) :=
  let scan := cleanupLoop env currentObjects env.Schedule ⟨w, [], []⟩ oldObjects
  match scan.exit with
  | .nilDeref => .panicked scan.pool.w
  | .failed err => .returned (some err, scan.pool.w)
  | .finished =>
    let p := (scan.sched.headD []).foldl (stepGoroutine env) scan.pool
    let ran := p.running.foldl (finishGoroutine env) (p.w, p.allErrs)
    if ran.2.length = 0 then .returned (none, ran.1)
    else .returned (some (env.NewAggregate ran.2), ran.1)

/-! ## Reconcile -/

/-- The locals of `Reconcile` that its `for` loop updates. -/
structure ReconcileState (σ : Type) where
  m : Manifest
  w : World σ
  ManagedResources : List ManagedResourceStatus
  objects : List (Option Unstructured)

/-- The `for` loop of `Reconcile` from index `i` on: `Sum.inl` is a `return` from inside the
loop, `Sum.inr` its normal end. The slot `objects[i]` holds the pointer that `ApplyObject`
mutates, so it ends up with the object as `ApplyObject` left it. -/
def reconcileManifests {σ : Type} (env : Env σ) :
    Nat → List ManifestEntry → ReconcileState σ → Result σ ⊕ ReconcileState σ
  | _, [], st => .inr st
  | i, manifestData :: manifests, st =>
    match env.DecodeManifest manifestData.Raw with
    | .error err =>
      .inl ⟨some err, st.m.setLastError (UpdatedError st.m.DeployItem.Status.LastError
        "ReconcileManifests" "DecodeManifest"
        ("error while decoding manifest at index " ++ toString i ++ ": " ++ err.msg)), st.w⟩
    | .ok obj =>
      let entry : ManagedResourceStatus :=
        { Policy := manifestData.Policy,
          Resource := { APIVersion := obj.APIVersion, Kind := obj.Kind,
                        Name := obj.Name, Namespace := obj.Namespace } }
      let st := { st with ManagedResources := st.ManagedResources.set i entry }
      if manifestData.Policy = IgnorePolicy then
        reconcileManifests env (i + 1) manifests st
      else
        let r := ApplyObject env st.m st.w manifestData.Policy obj
        match r.err with
        | some err => .inl ⟨some err, r.m, r.w⟩
        | none =>
          reconcileManifests env (i + 1) manifests
            { st with m := r.m, w := r.w, objects := st.objects.set i (some r.obj) }

/-- The function `encodeStatus`. -/
def encodeStatus {σ : Type} (env : Env σ) (status : ProviderStatus) : Except GoError RawExtension :=
  let status := { status with TypeMeta := ⟨env.SchemeGroupVersion, "ProviderStatus"⟩ }
  env.ConvertStatus status

/-- The end of `Reconcile`, from `encodeStatus(status)` on. -/
def reconcilePersist {σ : Type} (env : Env σ) (m : Manifest) (w : World σ)
    (status : ProviderStatus) : Result σ :=
  match encodeStatus env status with
  | .error err =>
    ⟨some err, m.setLastError (UpdatedError m.DeployItem.Status.LastError
      "ReconcileManifests" "ProviderStatus" err.msg), w⟩
  | .ok statusData =>
    let m := { m with DeployItem := { m.DeployItem with
                Status := { m.DeployItem.Status with ProviderStatus := some statusData } } }
    let updated := env.StatusUpdate w.store m.DeployItem
    let w : World σ :=
      { store := updated.2, calls := w.calls ++ [Call.statusUpdate m.DeployItem updated.1] }
    match updated.1 with
    | some err =>
      ⟨some err, m.setLastError (UpdatedError m.DeployItem.Status.LastError
        "ReconcileManifests" "UpdateStatus" err.msg), w⟩
    | none => ⟨none, m, w⟩

/-- The method `(*Manifest).Reconcile`. -/
def Reconcile {σ : Type} (env : Env σ) (m : Manifest) (w : World σ) : Outcome σ (Result σ) :=
  let currOp := "ReconcileManifests"
  let m := m.setPhase ExecutionPhase.Progressing
  match env.TargetClient with
  | some err =>
    .returned ⟨some err, m.setLastError (UpdatedError m.DeployItem.Status.LastError
      currOp "TargetClusterClient" err.msg), w⟩
  | none =>
    let objects : List (Option Unstructured) :=
      List.replicate m.ProviderConfiguration.Manifests.length none
    let status : ProviderStatus :=
      { TypeMeta := ⟨env.SchemeGroupVersion, "ProviderStatus"⟩,
        ManagedResources := List.replicate objects.length ManagedResourceStatus.zero }
    match reconcileManifests env 0 m.ProviderConfiguration.Manifests
        ⟨m, w, status.ManagedResources, objects⟩ with
    | .inl r => .returned r
    | .inr st =>
      let status := { status with ManagedResources := st.ManagedResources }
      match st.m.ProviderStatus with
      | some old =>
        match cleanupOrphanedResources env st.w old.ManagedResources st.objects with
        | .panicked w => .panicked w
        | .returned (some err, w) =>
          .returned ⟨some (Errorf "unable to cleanup orphaned resources: " err),
            st.m.setLastError (UpdatedError st.m.DeployItem.Status.LastError
              currOp "CleanupOrphanedResources" err.msg), w⟩
        | .returned (none, w) => .returned (reconcilePersist env st.m w status)
      | none => .returned (reconcilePersist env st.m st.w status)

/-! ## CheckResourcesHealth -/

/-- The method `(*Manifest).CheckResourcesHealth`. Reading `.Raw` of a nil
`m.DeployItem.Status.ProviderStatus` panics. -/
def CheckResourcesHealth {σ : Type} (env : Env σ) (m : Manifest) (w : World σ) :
    Outcome σ (Result σ) :=
  let currOp := "CheckResourcesHealthManifests"
  match m.DeployItem.Status.ProviderStatus with
  | none => .panicked w
  | some providerStatus =>
    match env.DecodeStatus providerStatus.Raw with
    | .error err => .returned ⟨some err, m, w⟩
    | .ok status =>
      if status.ManagedResources.length = 0 then .returned ⟨none, m, w⟩
      else
        -- do not check ignored resources.
        let objects := status.ManagedResources.map (fun mr =>
          if mr.Policy = IgnorePolicy then none
          else some (ObjectFromTypedObjectReference mr.Resource))
        let probed := env.WaitObjectsReady w.store objects
        let w : World σ := { w with store := probed.2 }
        match probed.1 with
        | some err =>
          .returned ⟨some err, m.setLastError (UpdatedError m.DeployItem.Status.LastError
            currOp "CheckResourcesReadiness" err.msg), w⟩
        | none =>
          let m := { m with DeployItem := { m.DeployItem with
                      Status := { m.DeployItem.Status with
                        Phase := ExecutionPhase.Succeeded,
                        ObservedGeneration := m.DeployItem.Generation,
                        LastError := none } } }
          let updated := env.StatusUpdate w.store m.DeployItem
          .returned ⟨updated.1, m,
            { store := updated.2, calls := w.calls ++ [Call.statusUpdate m.DeployItem updated.1] }⟩

/-! ## Delete -/

/-- The two statements `controllerutil.RemoveFinalizer(m.DeployItem, ...)` and
`return m.kubeClient.Update(ctx, m.DeployItem)` of `Delete`. -/
def releaseFinalizer {σ : Type} (env : Env σ) (m : Manifest) (w : World σ) : Result σ :=
  let m := { m with DeployItem := RemoveFinalizer m.DeployItem LandscaperFinalizer }
  let updated := env.UpdateDeployItem w.store m.DeployItem
  ⟨updated.1, m,
    { store := updated.2, calls := w.calls ++ [Call.updateDeployItem m.DeployItem updated.1] }⟩

/-- The `for` loop of `Delete`: `Sum.inl` is the `return err` from inside the loop, `Sum.inr`
its normal end with the world and the flag `completed`. -/
def deleteLoop {σ : Type} (env : Env σ) (m : Manifest) :
    List ManagedResourceStatus → World σ → Bool → Result σ ⊕ (World σ × Bool)
  | [], w, completed => .inr (w, completed)
  | mr :: rest, w, completed =>
    if mr.Policy = IgnorePolicy ∨ mr.Policy = KeepPolicy then deleteLoop env m rest w completed
    else
      let ref := mr.Resource
      let obj := ObjectFromTypedObjectReference ref
      let deleted := env.Delete w.store obj
      let w : World σ := { store := deleted.2, calls := w.calls ++ [Call.delete obj deleted.1] }
      match deleted.1 with
      | some err =>
        if IsNotFound err then deleteLoop env m rest w completed
        else
          .inl ⟨some err, m.setLastError (UpdatedError m.DeployItem.Status.LastError
            "DeleteManifests" "DeleteManifest" err.msg), w⟩
      | none => deleteLoop env m rest w false

/-- The method `(*Manifest).Delete`. -/
def Delete {σ : Type} (env : Env σ) (m : Manifest) (w : World σ) : Result σ :=
  let currOp := "DeleteManifests"
  let m := m.setPhase ExecutionPhase.Deleting
  match m.ProviderStatus with
  | none => releaseFinalizer env m w
  | some providerStatus =>
    if providerStatus.ManagedResources.length = 0 then releaseFinalizer env m w
    else
      match env.TargetClient with
      | some err =>
        ⟨some err, m.setLastError (UpdatedError m.DeployItem.Status.LastError
          currOp "TargetClusterClient" err.msg), w⟩
      | none =>
        match deleteLoop env m providerStatus.ManagedResources w true with
        | .inl r => r
        | .inr (w, completed) =>
          if !completed then
            ⟨some (errorsNew "not all items are deleted"), m.setLastError none, w⟩
          else
            -- remove finalizer
            releaseFinalizer env m w

/-! ## An in-memory cluster

A concrete `Env` on which the operations can be evaluated: the target cluster is the list of
its objects, the decoders are lookup tables, and chosen calls can be made to fail. -/

/-- The configuration of the in-memory environment. -/
structure Fixture where
  /-- The manifests that decode, by their raw text. -/
  manifests : List (String × Unstructured)
  /-- The status blobs that decode, by their raw text. -/
  statuses : List (String × ProviderStatus)
  /-- The error of `TargetClient`, if any. -/
  targetClient : Option GoError
  /-- Names of objects whose `Get` fails with a server error. -/
  getFails : List String
  /-- Names of objects whose `Create` is rejected. -/
  createFails : List String
  /-- Names of objects whose `Delete` is rejected. -/
  deleteFails : List String
  /-- The result of the readiness probe. -/
  readiness : Option GoError
  /-- The result of the writes of the deploy item. -/
  hostUpdate : Option GoError
  /-- The schedule of the goroutines of `cleanupOrphanedResources`; when it is empty they all
  run at `wg.Wait()`, in the order they were started. -/
  schedule : List (List Nat)
  /-- Names of objects for which the merge of the required fields is rejected. -/
  mergeFails : List String

/-- A fixture in which nothing fails and nothing decodes. -/
def Fixture.plain : Fixture := ⟨[], [], none, [], [], [], none, none, [], []⟩

/-- Two objects address the same resource of the cluster. -/
def sameResource (a b : Unstructured) : Bool :=
  a.GroupVersionKind == b.GroupVersionKind && a.Namespace == b.Namespace && a.Name == b.Name

/-- The JSON merge patch that turns the map `original` into `modified`, applied to `target`:
keys that `modified` sets to another value are set, keys that `modified` drops are dropped. -/
def mergePatchMap (original modified target : List (String × String)) : List (String × String) :=
  let kept := target.filter (fun p =>
    !((original.lookup p.1).isSome && (modified.lookup p.1).isNone) &&
    !((modified.lookup p.1).isSome && modified.lookup p.1 != original.lookup p.1))
  kept ++ modified.filter (fun p => original.lookup p.1 != some p.2)

/-- The in-memory environment of a fixture; its state is the list of objects of the target
cluster. A created object gets the identifier `uid-` followed by its name. -/
def memEnv (fx : Fixture) : Env (List Unstructured) where
  TargetClient := fx.targetClient
  DecodeManifest := fun raw =>
    match fx.manifests.lookup raw with
    | some obj => .ok obj
    | none => .error ⟨"manifest does not decode", false⟩
  DecodeStatus := fun raw =>
    match fx.statuses.lookup raw with
    | some status => .ok status
    | none => .error ⟨"status does not decode", false⟩
  ConvertStatus := fun status => .ok ⟨"", some status⟩
  SchemeGroupVersion := "manifest.deployer.landscaper.gardener.cloud/__internal"
  Get := fun s key obj =>
    if fx.getFails.contains key.Name then .error ⟨"server error", false⟩
    else
      match s.find? (fun o => o.GroupVersionKind == obj.GroupVersionKind
          && o.Namespace == key.Namespace && o.Name == key.Name) with
      | some o => .ok o
      | none => .error ⟨"not found", true⟩
  Create := fun s obj =>
    if fx.createFails.contains obj.Name then (.error ⟨"create rejected", false⟩, s)
    else if s.any (sameResource obj) then (.error ⟨"already exists", false⟩, s)
    else
      let stored := { obj with UID := "uid-" ++ obj.Name }
      (.ok stored, s ++ [stored])
  Update := fun s obj =>
    match s.find? (sameResource obj) with
    | some o =>
      let stored := { obj with UID := o.UID }
      (.ok stored, s.map (fun x => if sameResource obj x then stored else x))
    | none => (.error ⟨"not found", true⟩, s)
  Patch := fun s obj mergeFrom =>
    match s.find? (sameResource obj) with
    | some o =>
      let stored := { o with
        Labels := mergePatchMap mergeFrom.Labels obj.Labels o.Labels,
        Fields := mergePatchMap mergeFrom.Fields obj.Fields o.Fields }
      (.ok stored, s.map (fun x => if sameResource obj x then stored else x))
    | none => (.error ⟨"not found", true⟩, s)
  Delete := fun s obj =>
    if fx.deleteFails.contains obj.Name then (some ⟨"delete rejected", false⟩, s)
    else if s.any (sameResource obj) then (none, s.filter (fun x => !sameResource obj x))
    else (some ⟨"not found", true⟩, s)
  PollDeleted := fun s _ => (none, s)
  SetRequiredNestedFieldsFromObj := fun currObj obj =>
    if fx.mergeFails.contains obj.Name then .error ⟨"merge rejected", false⟩
    else .ok { obj with UID := currObj.UID }
  StatusUpdate := fun s _ => (fx.hostUpdate, s)
  UpdateDeployItem := fun s _ => (fx.hostUpdate, s)
  WaitObjectsReady := fun s _ => (fx.readiness, s)
  NewAggregate := fun errs => ⟨String.intercalate ", " (errs.map (fun e => e.msg)), false⟩
  Schedule := fx.schedule

/-- A config map `name` of namespace `default` with the given identifier, labels and fields. -/
def configMap (name uid : String) (labels fields : List (String × String)) : Unstructured :=
  ⟨"v1", "ConfigMap", name, "default", uid, labels, fields⟩

/-- A deploy item named `di` that carries the finalizer, in phase `Pending`. -/
def sampleDeployItem : DeployItem :=
  ⟨"di", 2, [LandscaperFinalizer], ⟨ExecutionPhase.Pending, 1, none, none⟩⟩

/-- A receiver for `sampleDeployItem` with the given strategy, manifests and previous status. -/
def sampleManifest (strategy : UpdateStrategy) (manifests : List ManifestEntry)
    (old : Option ProviderStatus) : Manifest :=
  ⟨sampleDeployItem, ⟨strategy, manifests⟩, old⟩

/-- The world of a cluster with the given objects, before any call. -/
def worldOf (objects : List Unstructured) : World (List Unstructured) := ⟨objects, []⟩

/-! ## Reading the call log -/

/-- The objects for which a delete was issued, in order. -/
def deletesOf (calls : List Call) : List Unstructured :=
  calls.filterMap (fun c => match c with
    | Call.delete obj _ => some obj
    | _ => none)

/-- The responses to the deletes that were issued, in order. -/
def deleteResults (calls : List Call) : List (Option GoError) :=
  calls.filterMap (fun c => match c with
    | Call.delete _ res => some res
    | _ => none)

/-- The writes of the deploy item that were issued (`Status().Update` and `Update`). -/
def hostWritesOf (calls : List Call) : List Call :=
  calls.filter (fun c => match c with
    | Call.statusUpdate _ _ => true
    | Call.updateDeployItem _ _ => true
    | _ => false)

/-- One get of the call log: the key and the object passed, and the answer. -/
structure Fetch where
  key : ObjectKey
  obj : Unstructured
  res : Except GoError Unstructured
deriving DecidableEq

/-- The gets that were issued, in order. -/
def fetchesOf (calls : List Call) : List Fetch :=
  calls.filterMap (fun c => match c with
    | Call.get key obj res => some ⟨key, obj, res⟩
    | _ => none)

/-- The world in which an operation ended, by return or by panic. -/
def Outcome.world {σ : Type} : Outcome σ (Option GoError × World σ) → World σ
  | .returned a => a.2
  | .panicked w => w

/-! ## Vocabulary of the statements -/

/-- A response to a delete that reports the object as already gone. -/
def goneResponse (res : Option GoError) : Bool :=
  match res with
  | some e => IsNotFound e
  | none => false

/-- The get found the object or reported it as not found (it did not fail otherwise). -/
def foundOrGone (res : Except GoError Unstructured) : Bool :=
  match res with
  | .ok _ => true
  | .error err => IsNotFound err

/-- The entries that neither `Ignore` nor `Keep` protects. -/
def deletable (mr : ManagedResourceStatus) : Bool :=
  decide (mr.Policy ≠ IgnorePolicy ∧ mr.Policy ≠ KeepPolicy)

/-- The object that the cluster `s` answers for the entry `mr`, if it finds one. -/
def fetched {σ : Type} (env : Env σ) (s : σ) (mr : ManagedResourceStatus) : Option Unstructured :=
  match env.Get s (kutilObjectKey mr.Resource.Name mr.Resource.Namespace)
      (ObjectFromTypedObjectReference mr.Resource) with
  | .ok obj => some obj
  | .error _ => none

/-- The key and the object with which `cleanupOrphanedResources` fetches the entry `mr`. -/
def requestOf (mr : ManagedResourceStatus) : ObjectKey × Unstructured :=
  (kutilObjectKey mr.Resource.Name mr.Resource.Namespace,
   ObjectFromTypedObjectReference mr.Resource)

/-- The get that `cleanupOrphanedResources` issues for the entry `mr` when the cluster is `s`,
with its answer. -/
def fetchOf {σ : Type} (env : Env σ) (s : σ) (mr : ManagedResourceStatus) : Fetch :=
  ⟨kutilObjectKey mr.Resource.Name mr.Resource.Namespace,
   ObjectFromTypedObjectReference mr.Resource,
   env.Get s (kutilObjectKey mr.Resource.Name mr.Resource.Namespace)
     (ObjectFromTypedObjectReference mr.Resource)⟩

/-- The objects of the running goroutines whose delete has not been issued yet. -/
def waiting (running : List Goroutine) : List Unstructured :=
  (running.filter (fun g => !g.deleted)).map (fun g => g.obj)

/-- The objects that the gets `fetches` found. -/
def foundBy (fetches : List Fetch) : List Unstructured :=
  fetches.filterMap (fun f =>
    match f.res with
    | .ok obj => some obj
    | .error _ => none)

/-- The calls that were issued after the log `before`, in the log `after` that extends it. -/
def callsSince (before after : List Call) : List Call :=
  after.drop before.length

/-- The objects, among those that the gets `fetches` found, for which the membership test
against `current` answers false: the ones for which a goroutine is started. -/
def startedFor (current : List (Option Unstructured)) (fetches : List Fetch) :
    List Unstructured :=
  fetches.filterMap (fun f =>
    match f.res with
    | .ok obj => if containsUnstructuredObject obj current = some false then some obj else none
    | .error _ => none)

/-- The managed resources that the receiver recorded, none when it has no status. -/
def managedOf (m : Manifest) : List ManagedResourceStatus :=
  match m.ProviderStatus with
  | some providerStatus => providerStatus.ManagedResources
  | none => []

/-- The status entry that `Reconcile` records for a manifest that decodes to `obj`. -/
def entryFor (manifestData : ManifestEntry) (obj : Unstructured) : ManagedResourceStatus :=
  ⟨manifestData.Policy, ⟨obj.APIVersion, obj.Kind, obj.Name, obj.Namespace⟩⟩

/-- The locals of `Reconcile` when its loop starts: phase `Progressing`, and both slices
allocated with one zero slot per manifest. -/
def reconcileStart {σ : Type} (m : Manifest) (w : World σ) : ReconcileState σ :=
  ⟨m.setPhase ExecutionPhase.Progressing, w,
    List.replicate m.ProviderConfiguration.Manifests.length ManagedResourceStatus.zero,
    List.replicate m.ProviderConfiguration.Manifests.length none⟩

/-- The manifest `md` is the one at which the loop of `Reconcile`, having reached the state
`st`, returns `r`: it does not decode, or it decodes and `ApplyObject` fails on it. -/
def failsAt {σ : Type} (env : Env σ) (st : ReconcileState σ) (md : ManifestEntry)
    (r : Result σ) : Prop :=
  (∃ e, env.DecodeManifest md.Raw = .error e ∧ r.err = some e ∧ r.w = st.w) ∨
  (∃ obj e, env.DecodeManifest md.Raw = .ok obj ∧ md.Policy ≠ IgnorePolicy ∧
    (ApplyObject env st.m st.w md.Policy obj).err = some e ∧ r.err = some e ∧
    r.m = (ApplyObject env st.m st.w md.Policy obj).m ∧
    r.w = (ApplyObject env st.m st.w md.Policy obj).w)

/-! ## The orphan set as the specification words it -/

/-- The membership test as worded: both objects carry an identifier and the identifiers are
equal, or one of them carries none and group-kind, name and namespace are equal. -/
def matchesObject (fetched current : Unstructured) : Bool :=
  (fetched.UID != "" && current.UID != "" && fetched.UID == current.UID) ||
  ((fetched.UID == "" || current.UID == "") &&
    fetched.GroupVersionKind.GroupKind == current.GroupVersionKind.GroupKind &&
    fetched.Name == current.Name && fetched.Namespace == current.Namespace)

/-- The orphans among the answers of the gets `fetches`, as worded: the objects that were found
and match no current object. -/
def orphansFetched (current : List Unstructured) (fetches : List Fetch) : List Unstructured :=
  fetches.filterMap (fun f =>
    match f.res with
    | .ok obj => if current.any (matchesObject obj) then none else some obj
    | .error _ => none)

/-- The orphans as worded: the fetched objects of the previous entries whose policy is neither
`Ignore` nor `Keep`, that are found in the cluster and match no current object. -/
def orphansOf {σ : Type} (env : Env σ) (s : σ) (previous : List ManagedResourceStatus)
    (current : List Unstructured) : List Unstructured :=
  previous.filterMap (fun mr =>
    if mr.Policy = IgnorePolicy ∨ mr.Policy = KeepPolicy then none
    else
      match env.Get s (kutilObjectKey mr.Resource.Name mr.Resource.Namespace)
          (ObjectFromTypedObjectReference mr.Resource) with
      | .ok fetched => if current.any (matchesObject fetched) then none else some fetched
      | .error _ => none)

/-! ## Sample inputs -/

/-- A config map owned by the sample deploy item, as it lives in the cluster. -/
def liveOwned : Unstructured :=
  configMap "cm" "uid-cm" [(ManagedDeployItemLabel, "di")] [("data", "old")]

/-- A config map owned by another deploy item, as it lives in the cluster. -/
def liveForeign : Unstructured :=
  configMap "cm" "uid-cm" [(ManagedDeployItemLabel, "other")] [("data", "old")]

/-- The rendered manifest of the config map `cm`, without any label. -/
def desiredPlain : Unstructured := configMap "cm" "" [] [("data", "new")]

/-- The rendered manifest of the config map `cm` that already carries the deploy-item label
of the sample deploy item. -/
def desiredLabelled : Unstructured :=
  configMap "cm" "" [(ManagedDeployItemLabel, "di")] [("data", "new")]

/-- The config map `a` with identifier `1`. -/
def objA : Unstructured := configMap "a" "1" [] []

/-- The config map `b` with identifier `2`. -/
def objB : Unstructured := configMap "b" "2" [] []

/-- The status entry of the config map `name` under `policy`. -/
def entryOf (policy : ManifestPolicy) (name : String) : ManagedResourceStatus :=
  ⟨policy, ⟨"v1", "ConfigMap", name, "default"⟩⟩

/-- The recorded status with the given entries. -/
def statusOf (entries : List ManagedResourceStatus) : ProviderStatus :=
  ⟨⟨"manifest.deployer.landscaper.gardener.cloud/__internal", "ProviderStatus"⟩, entries⟩

/-- A fixture in which the get of the config map `a` fails with a server error. -/
def getOfAFails : Fixture := { Fixture.plain with getFails := ["a"] }

/-- A fixture in which the delete of the config map `b` is rejected. -/
def deleteOfBFails : Fixture := { Fixture.plain with deleteFails := ["b"] }

/-- The sample receiver that recorded the config maps `a` and `b`, both under `Manage`. -/
def managesAandB : Manifest :=
  sampleManifest UpdateStrategyUpdate []
    (some (statusOf [entryOf ManagePolicy "a", entryOf ManagePolicy "b"]))

/-- The sample receiver that recorded the config maps `a` and `b` under `Manage`, with an
earlier error recorded on its deploy item. -/
def managesAandBAfterError : Manifest :=
  managesAandB.setLastError (some ⟨"DeleteManifests", "DeleteManifest", "timeout"⟩)

/-- A fixture in which the raw texts `raw-a` and `raw-b` decode to the manifests of the config
maps `a` and `b`. -/
def decodesAandB : Fixture :=
  { Fixture.plain with
    manifests := [("raw-a", configMap "a" "" [] []), ("raw-b", configMap "b" "" [] [])] }

/-- The sample receiver whose configuration lists `raw-a` under `Ignore` and `raw-b` under
`Manage`, without a previous status. -/
def ignoresAManagesB : Manifest :=
  sampleManifest UpdateStrategyUpdate [⟨IgnorePolicy, "raw-a"⟩, ⟨ManagePolicy, "raw-b"⟩] none

/-- A fixture in which the raw texts `raw-a` and `raw-c` decode to the manifests of the config
maps `a` and `c`, and nothing else decodes. -/
def decodesAandC : Fixture :=
  { Fixture.plain with
    manifests := [("raw-a", configMap "a" "" [] []), ("raw-c", configMap "c" "" [] [])] }

/-- The sample receiver whose configuration lists `raw-a`, the malformed `raw-bad` and `raw-c`,
all under `Manage`, without a previous status. -/
def secondManifestMalformed : Manifest :=
  sampleManifest UpdateStrategyUpdate
    [⟨ManagePolicy, "raw-a"⟩, ⟨ManagePolicy, "raw-bad"⟩, ⟨ManagePolicy, "raw-c"⟩] none

/-- A fixture in which the raw text `no-resources` decodes to a status without managed
resources and `one-resource` to a status that lists the config map `a` under `Manage`. -/
def decodesStatuses : Fixture :=
  { Fixture.plain with
    statuses := [("no-resources", statusOf []),
                 ("one-resource", statusOf [entryOf ManagePolicy "a"])] }

/-- The sample receiver in phase `Progressing` at generation 2 (generation 1 observed), with an
earlier error recorded and the status blob `raw` persisted on its deploy item. -/
def progressingWith (raw : String) : Manifest :=
  ⟨⟨"di", 2, [LandscaperFinalizer],
    ⟨ExecutionPhase.Progressing, 1, some ⟨"ReconcileManifests", "UpdateStatus", "conflict"⟩,
      some ⟨raw, none⟩⟩⟩,
   ⟨UpdateStrategyUpdate, []⟩, none⟩

/-- A fixture in which the create of the config map `cm` and the delete of the config map `b`
are rejected and the readiness probe fails. -/
def failingCluster : Fixture :=
  { decodesStatuses with
    createFails := ["cm"], deleteFails := ["b"], readiness := some ⟨"not ready", false⟩ }

/-- The receiver `progressingWith "one-resource"` that recorded the config maps `a` and `b`
under `Manage`. -/
def progressingManagesAandB : Manifest :=
  { progressingWith "one-resource" with
    ProviderStatus := some (statusOf [entryOf ManagePolicy "a", entryOf ManagePolicy "b"]) }

/-- A config map without any label, as it lives in the cluster. -/
def liveUnlabelled : Unstructured := configMap "cm" "uid-cm" [] [("data", "old")]

/-- The config map `b` as a first reconcile of the sample deploy item left it in the cluster. -/
def liveB : Unstructured := configMap "b" "uid-b" [(ManagedDeployItemLabel, "di")] []

/-- The receiver `ignoresAManagesB` at its second reconcile: the previous status is the one
that the first reconcile persisted. -/
def ignoresAManagesBAgain : Manifest :=
  { ignoresAManagesB with
    ProviderStatus := some (statusOf [entryOf IgnorePolicy "a", entryOf ManagePolicy "b"]) }

/-- A fixture in which the merge of the required fields of the config map `cm` is rejected. -/
def mergeOfCmFails : Fixture := { Fixture.plain with mergeFails := ["cm"] }

/-- A fixture that decodes the statuses of `decodesStatuses` and in which every write of the
deploy item is rejected. -/
def hostUpdateFails : Fixture := { decodesStatuses with hostUpdate := some ⟨"conflict", false⟩ }

/-- A fixture whose schedule lets the first goroutine take a step before the second get of
`cleanupOrphanedResources`. -/
def deleteBeforeSecondGet : Fixture := { Fixture.plain with schedule := [[], [0]] }

/-! # Theorems -/

/-! ## Lemmas about the call log and the membership test -/

/-- The deletes of a concatenated log are the deletes of its parts. -/
theorem deletesOf_append (a b : List Call) : deletesOf (a ++ b) = deletesOf a ++ deletesOf b := by
  simp [deletesOf, List.filterMap_append]

/-- The delete responses of a concatenated log are those of its parts. -/
theorem deleteResults_append (a b : List Call) :
    deleteResults (a ++ b) = deleteResults a ++ deleteResults b := by
  simp [deleteResults, List.filterMap_append]

/-- The deploy-item writes of a concatenated log are those of its parts. -/
theorem hostWritesOf_append (a b : List Call) :
    hostWritesOf (a ++ b) = hostWritesOf a ++ hostWritesOf b := by
  simp [hostWritesOf, List.filter_append]

/-- A string of length zero is the empty string. -/
theorem string_eq_empty_of_length (s : String) (h : s.length = 0) : s = "" := by
  cases s with
  | mk d =>
    simp only [String.length, List.length_eq_zero] at h
    subst h
    rfl

/-- On a list without nil elements `containsUnstructuredObject` does not panic and decides
whether some current object matches, in the sense of `matchesObject`. -/
theorem containsUnstructuredObject_eq_any (obj : Unstructured) (current : List Unstructured) :
    containsUnstructuredObject obj (current.map some) = some (current.any (matchesObject obj)) := by
  induction current with
  | nil => simp [containsUnstructuredObject]
  | cons c rest ih =>
    simp only [List.map_cons, containsUnstructuredObject, List.any_cons]
    by_cases hu : obj.UID.length ≠ 0 ∧ c.UID.length ≠ 0
    · rw [if_pos hu]
      have h1 : obj.UID ≠ "" := by
        intro h; rw [h] at hu; simp at hu
      have h2 : c.UID ≠ "" := by
        intro h; rw [h] at hu; simp at hu
      by_cases he : obj.UID = c.UID
      · rw [if_pos he]
        simp [matchesObject, h1, h2, he]
      · rw [if_neg he, ih]
        simp [matchesObject, h1, h2, he]
    · rw [if_neg hu]
      have h3 : obj.UID = "" ∨ c.UID = "" := by
        by_contra hcon
        push_neg at hcon
        apply hu
        constructor
        · intro h; apply hcon.1; exact string_eq_empty_of_length _ h
        · intro h; apply hcon.2; exact string_eq_empty_of_length _ h
      by_cases hg : c.GroupVersionKind.GroupKind ≠ obj.GroupVersionKind.GroupKind
      · rw [if_pos hg, ih]
        have hg' : ¬ obj.GroupVersionKind.GroupKind = c.GroupVersionKind.GroupKind :=
          fun h => hg h.symm
        rcases h3 with h3 | h3 <;> simp [matchesObject, h3, hg']
      · rw [if_neg hg]
        have hg' : obj.GroupVersionKind.GroupKind = c.GroupVersionKind.GroupKind := by
          by_contra h; exact hg (fun h' => h h'.symm)
        by_cases hn : c.Name = obj.Name ∧ c.Namespace = obj.Namespace
        · rw [if_pos hn]
          rcases h3 with h3 | h3 <;> simp [matchesObject, h3, hg', hn.1, hn.2]
        · rw [if_neg hn, ih]
          have hn' : ¬ (obj.Name = c.Name ∧ obj.Namespace = c.Namespace) :=
            fun h => hn ⟨h.1.symm, h.2.symm⟩
          rcases h3 with h3 | h3 <;> simp [matchesObject, h3, hg'] <;> tauto

/-! ## ApplyObject -/

/-- The method `ApplyObject` changes nothing of the receiver but `LastError`, issues no write of the deploy
item, and leaves the receiver as it was when it returns no error. -/
theorem ApplyObject_frame {σ : Type} (env : Env σ) (m : Manifest) (w : World σ)
    (policy : ManifestPolicy) (obj : Unstructured) :
    (ApplyObject env m w policy obj).m.setLastError none = m.setLastError none ∧
    hostWritesOf (ApplyObject env m w policy obj).w.calls = hostWritesOf w.calls ∧
    ((ApplyObject env m w policy obj).err = none → (ApplyObject env m w policy obj).m = m) := by
  unfold ApplyObject
  simp only
  repeat' split
  all_goals simp [Manifest.setLastError, hostWritesOf_append, hostWritesOf]

/-- C3: for a policy other than `Ignore`, any update strategy and a desired object whose get
answers not-found, `ApplyObject` issues the get and then exactly one create of the labelled
object, and no update or patch; when the create succeeds `ApplyObject` returns no error and the
cluster is the one the create left, in which the target exists; when the create fails
`ApplyObject` returns the wrapped error. -/
theorem ApplyObject_creates_absent_target {σ : Type} (env : Env σ) (m : Manifest) (w : World σ)
    (policy : ManifestPolicy) (obj : Unstructured) (err : GoError)
    (_hpol : policy ≠ IgnorePolicy)
    (hget : env.Get w.store (keyOf obj) (currObjOf obj) = .error err)
    (hnf : IsNotFound err = true)
    (hstore : ∀ created, (env.Create w.store (stamped m obj)).1 = .ok created →
      ∃ live, env.Get (env.Create w.store (stamped m obj)).2 (keyOf obj) (currObjOf obj)
        = .ok live) :
    (ApplyObject env m w policy obj).w.calls = w.calls ++
      [Call.get (keyOf obj) (currObjOf obj) (.error err),
       Call.create (stamped m obj) (env.Create w.store (stamped m obj)).1] ∧
    (ApplyObject env m w policy obj).w.store = (env.Create w.store (stamped m obj)).2 ∧
    (∀ created, (env.Create w.store (stamped m obj)).1 = .ok created →
      (ApplyObject env m w policy obj).err = none ∧
      ∃ live, env.Get (ApplyObject env m w policy obj).w.store (keyOf obj) (currObjOf obj)
        = .ok live) ∧
    (∀ e, (env.Create w.store (stamped m obj)).1 = .error e →
      (ApplyObject env m w policy obj).err
        = some (Errorf ("unable to create resource " ++ (keyOf obj).String ++ ": ") e)) := by
  refine ⟨?_, ?_, ?_, ?_⟩
  · simp only [ApplyObject, hget, hnf]
    cases hc : (env.Create w.store (stamped m obj)).1 <;> simp
  · simp only [ApplyObject, hget, hnf]
    cases hc : (env.Create w.store (stamped m obj)).1 <;> simp
  · intro created hc
    have hlive := hstore created hc
    simp only [ApplyObject, hget, hnf, hc]
    simpa using hlive
  · intro e hc
    simp only [ApplyObject, hget, hnf, hc]
    simp

/-- Witness for C3: policy `Keep`, strategy `patch`, and the config map `cm` absent from an
empty cluster. -/
theorem ApplyObject_creates_absent_target_witness :
    KeepPolicy ≠ IgnorePolicy ∧
    (ApplyObject (memEnv Fixture.plain) (sampleManifest UpdateStrategyPatch [] none)
      (worldOf []) KeepPolicy desiredPlain).w.calls =
      [Call.get (keyOf desiredPlain) (currObjOf desiredPlain) (.error ⟨"not found", true⟩),
       Call.create (stamped (sampleManifest UpdateStrategyPatch [] none) desiredPlain)
        (.ok (configMap "cm" "uid-cm" [(ManagedDeployItemLabel, "di")] [("data", "new")]))] ∧
    (ApplyObject (memEnv Fixture.plain) (sampleManifest UpdateStrategyPatch [] none)
      (worldOf []) KeepPolicy desiredPlain).err = none :=
  have h := ApplyObject_creates_absent_target (memEnv Fixture.plain)
    (sampleManifest UpdateStrategyPatch [] none) (worldOf []) KeepPolicy desiredPlain
    ⟨"not found", true⟩ (by decide) (by decide) (by decide)
    (fun _ _ => ⟨configMap "cm" "uid-cm" [(ManagedDeployItemLabel, "di")] [("data", "new")],
      by decide⟩)
  ⟨by decide, h.1,
    (h.2.2.1 (configMap "cm" "uid-cm" [(ManagedDeployItemLabel, "di")] [("data", "new")])
      (by decide)).1⟩

/-- When the target exists, the policy is `Fallback` and the desired object lacks the
deploy-item label of `m`, `ApplyObject` only issues the get and changes nothing, whatever the
labels of the live object are. -/
theorem ApplyObject_fallback_skip {σ : Type} (env : Env σ) (m : Manifest) (w : World σ)
    (obj live : Unstructured)
    (hget : env.Get w.store (keyOf obj) (currObjOf obj) = .ok live)
    (hlab : HasLabelWithValue obj ManagedDeployItemLabel m.DeployItem.Name = false) :
    ApplyObject env m w FallbackPolicy obj =
      ⟨none, m, ⟨w.store, w.calls ++ [Call.get (keyOf obj) (currObjOf obj) (.ok live)]⟩, obj⟩ := by
  simp [ApplyObject, hget, hlab]

/-- C2: the `Fallback` check reads the labels of the desired manifest, not those of the live
object. With the live config map labelled with this deploy item's name and a manifest without
the label, `ApplyObject` issues the get only and leaves the cluster as it was; with the live
config map labelled with another deploy item's name and a manifest that carries this deploy
item's name, `ApplyObject` issues the update and the live object is replaced. -/
theorem ApplyObject_fallback_reads_desired_labels :
    (ApplyObject (memEnv Fixture.plain) (sampleManifest UpdateStrategyUpdate [] none)
        (worldOf [liveOwned]) FallbackPolicy desiredPlain).err = none ∧
    (ApplyObject (memEnv Fixture.plain) (sampleManifest UpdateStrategyUpdate [] none)
        (worldOf [liveOwned]) FallbackPolicy desiredPlain).w.calls =
      [Call.get (keyOf desiredPlain) (currObjOf desiredPlain) (.ok liveOwned)] ∧
    (ApplyObject (memEnv Fixture.plain) (sampleManifest UpdateStrategyUpdate [] none)
        (worldOf [liveOwned]) FallbackPolicy desiredPlain).w.store = [liveOwned] ∧
    (ApplyObject (memEnv Fixture.plain) (sampleManifest UpdateStrategyUpdate [] none)
        (worldOf [liveForeign]) FallbackPolicy desiredLabelled).err = none ∧
    (ApplyObject (memEnv Fixture.plain) (sampleManifest UpdateStrategyUpdate [] none)
        (worldOf [liveForeign]) FallbackPolicy desiredLabelled).w.calls =
      [Call.get (keyOf desiredLabelled) (currObjOf desiredLabelled) (.ok liveForeign),
       Call.update (configMap "cm" "uid-cm" [(ManagedDeployItemLabel, "di")] [("data", "new")])
        (.ok (configMap "cm" "uid-cm" [(ManagedDeployItemLabel, "di")] [("data", "new")]))] ∧
    (ApplyObject (memEnv Fixture.plain) (sampleManifest UpdateStrategyUpdate [] none)
        (worldOf [liveForeign]) FallbackPolicy desiredLabelled).w.store =
      [configMap "cm" "uid-cm" [(ManagedDeployItemLabel, "di")] [("data", "new")]] := by
  decide

/-- C9, as stated, fails: with the strategy `replace`, which is neither `update` nor `patch`,
and a target that does not exist, `ApplyObject` issues the create and returns no error. -/
theorem ApplyObject_invalid_strategy_still_creates :
    ¬ ("replace" = UpdateStrategyUpdate ∨ "replace" = UpdateStrategyPatch) ∧
    (ApplyObject (memEnv Fixture.plain) (sampleManifest "replace" [] none)
        (worldOf []) ManagePolicy desiredPlain).err = none ∧
    (ApplyObject (memEnv Fixture.plain) (sampleManifest "replace" [] none)
        (worldOf []) ManagePolicy desiredPlain).w.calls =
      [Call.get (keyOf desiredPlain) (currObjOf desiredPlain) (.error ⟨"not found", true⟩),
       Call.create (configMap "cm" "" [(ManagedDeployItemLabel, "di")] [("data", "new")])
        (.ok (configMap "cm" "uid-cm" [(ManagedDeployItemLabel, "di")] [("data", "new")]))] := by
  decide

/-- C9, amended: with a strategy that is neither `update` nor `patch`, a target that exists
and a policy that does not skip it, `ApplyObject` returns an error, issues the get only (no
create, update or patch) and leaves the cluster as it was; when the required fields merge,
the error is the one that names the invalid strategy. -/
theorem ApplyObject_invalid_strategy_on_existing {σ : Type} (env : Env σ) (m : Manifest)
    (w : World σ) (policy : ManifestPolicy) (obj live : Unstructured)
    (hu : m.ProviderConfiguration.UpdateStrategy ≠ UpdateStrategyUpdate)
    (hp : m.ProviderConfiguration.UpdateStrategy ≠ UpdateStrategyPatch)
    (hget : env.Get w.store (keyOf obj) (currObjOf obj) = .ok live)
    (happly : ¬ (policy = FallbackPolicy ∧
      HasLabelWithValue obj ManagedDeployItemLabel m.DeployItem.Name = false)) :
    (∃ err, (ApplyObject env m w policy obj).err = some err) ∧
    (∀ merged, env.SetRequiredNestedFieldsFromObj live (stamped m obj) = .ok merged →
      (ApplyObject env m w policy obj).err = some (errorsNew
        (m.ProviderConfiguration.UpdateStrategy ++ " is not a valid update strategy"))) ∧
    (ApplyObject env m w policy obj).w.calls =
      w.calls ++ [Call.get (keyOf obj) (currObjOf obj) (.ok live)] ∧
    (ApplyObject env m w policy obj).w.store = w.store := by
  have happly' : ¬ (policy = FallbackPolicy ∧
      (!HasLabelWithValue obj ManagedDeployItemLabel m.DeployItem.Name) = true) := by
    simpa using happly
  simp only [ApplyObject, hget, if_neg happly', if_neg hu, if_neg hp]
  cases hs : env.SetRequiredNestedFieldsFromObj live (stamped m obj) <;> simp

/-- Witness for C9, amended: the strategy `replace` and the config map `cm` present in the
cluster, under policy `Manage`. -/
theorem ApplyObject_invalid_strategy_on_existing_witness :
    "replace" ≠ UpdateStrategyUpdate ∧ "replace" ≠ UpdateStrategyPatch ∧
    (ApplyObject (memEnv Fixture.plain) (sampleManifest "replace" [] none)
        (worldOf [liveOwned]) ManagePolicy desiredPlain).err
      = some (errorsNew "replace is not a valid update strategy") ∧
    (ApplyObject (memEnv Fixture.plain) (sampleManifest "replace" [] none)
        (worldOf [liveOwned]) ManagePolicy desiredPlain).w.store = [liveOwned] :=
  have h := ApplyObject_invalid_strategy_on_existing (memEnv Fixture.plain)
    (sampleManifest "replace" [] none) (worldOf [liveOwned]) ManagePolicy desiredPlain liveOwned
    (by decide) (by decide) (by decide) (by decide)
  ⟨by decide, by decide, by decide, h.2.2.2⟩

/-! ## Delete -/

/-- When the loop of `Delete` runs to its end, every delete was answered with success or
not-found, `completed` stays true iff it was true and every answer was not-found, and the
deletes issued are exactly the objects of the `deletable` entries, in order. -/
theorem deleteLoop_inr {σ : Type} (env : Env σ) (m : Manifest) :
    ∀ (mrs : List ManagedResourceStatus) (w : World σ) (c : Bool) (w' : World σ) (c' : Bool),
    deleteLoop env m mrs w c = .inr (w', c') →
    ∃ new, w'.calls = w.calls ++ new ∧
      (∀ res ∈ deleteResults new, res = none ∨ goneResponse res = true) ∧
      (c' = true ↔ c = true ∧ ∀ res ∈ deleteResults new, goneResponse res = true) ∧
      deletesOf new = ((mrs.filter (fun mr => decide (mr.Policy ≠ IgnorePolicy ∧
        mr.Policy ≠ KeepPolicy))).map (fun mr => ObjectFromTypedObjectReference mr.Resource)) := by
  intro mrs
  induction mrs with
  | nil =>
    intro w c w' c' h
    simp only [deleteLoop, Sum.inr.injEq, Prod.mk.injEq] at h
    obtain ⟨rfl, rfl⟩ := h
    exact ⟨[], by simp, by simp [deleteResults], by simp [deleteResults], by simp [deletesOf]⟩
  | cons mr rest ih =>
    intro w c w' c' h
    unfold deleteLoop at h
    by_cases hp : mr.Policy = IgnorePolicy ∨ mr.Policy = KeepPolicy
    · rw [if_pos hp] at h
      obtain ⟨new, h1, h2, h3, h4⟩ := ih w c w' c' h
      refine ⟨new, h1, h2, h3, ?_⟩
      have : decide (mr.Policy ≠ IgnorePolicy ∧ mr.Policy ≠ KeepPolicy) = false := by
        simp only [decide_eq_false_iff_not]; tauto
      rw [h4, List.filter_cons_of_neg (by simp [this])]
    · rw [if_neg hp] at h
      have hd : decide (mr.Policy ≠ IgnorePolicy ∧ mr.Policy ≠ KeepPolicy) = true := by
        simp only [decide_eq_true_eq]; tauto
      simp only at h
      cases hres : (env.Delete w.store (ObjectFromTypedObjectReference mr.Resource)).1 with
      | none =>
        simp only [hres] at h
        obtain ⟨new, h1, h2, h3, h4⟩ := ih _ _ w' c' h
        refine ⟨Call.delete (ObjectFromTypedObjectReference mr.Resource) none :: new,
          by simp [h1], ?_, ?_, ?_⟩
        · intro res hr
          simp only [deleteResults, List.filterMap_cons, List.mem_cons] at hr
          rcases hr with hr | hr
          · exact Or.inl hr
          · exact h2 res hr
        · simp only [Bool.false_eq_true, false_and, iff_false] at h3
          constructor
          · intro hc; exact absurd hc h3
          · rintro ⟨_, hall⟩
            have := hall none (by simp [deleteResults])
            simp [goneResponse] at this
        · simp only [deletesOf, List.filterMap_cons]
          rw [List.filter_cons_of_pos (by simp [hd])]
          simp only [List.map_cons, List.cons.injEq, true_and]
          exact h4
      | some err =>
        simp only [hres] at h
        by_cases hnf : IsNotFound err = true
        · rw [if_pos hnf] at h
          obtain ⟨new, h1, h2, h3, h4⟩ := ih _ _ w' c' h
          refine ⟨Call.delete (ObjectFromTypedObjectReference mr.Resource) (some err) :: new,
            by simp [h1], ?_, ?_, ?_⟩
          · intro res hr
            simp only [deleteResults, List.filterMap_cons, List.mem_cons] at hr
            rcases hr with hr | hr
            · exact Or.inr (by rw [hr]; exact hnf)
            · exact h2 res hr
          · rw [h3]
            constructor
            · rintro ⟨hc, hall⟩
              refine ⟨hc, ?_⟩
              intro res hr
              simp only [deleteResults, List.filterMap_cons, List.mem_cons] at hr
              rcases hr with hr | hr
              · rw [hr]; exact hnf
              · exact hall res hr
            · rintro ⟨hc, hall⟩
              refine ⟨hc, ?_⟩
              intro res hr
              exact hall res (by
                simp only [deleteResults, List.filterMap_cons, List.mem_cons]
                exact Or.inr hr)
          · simp only [deletesOf, List.filterMap_cons]
            rw [List.filter_cons_of_pos (by simp [hd])]
            simp only [List.map_cons, List.cons.injEq, true_and]
            exact h4
        · rw [if_neg hnf] at h
          cases h

/-- When the loop of `Delete` returns from inside, it returns the error of the one delete that
failed with something other than not-found, records it in `LastError`, and the deletes issued
are the objects of the first `deletable` entries, in order. -/
theorem deleteLoop_inl {σ : Type} (env : Env σ) (m : Manifest) :
    ∀ (mrs : List ManagedResourceStatus) (w : World σ) (c : Bool) (r : Result σ),
    deleteLoop env m mrs w c = .inl r →
    ∃ new e, r.w.calls = w.calls ++ new ∧ r.err = some e ∧ IsNotFound e = false ∧
      r.m = m.setLastError (UpdatedError m.DeployItem.Status.LastError
        "DeleteManifests" "DeleteManifest" e.msg) ∧
      some e ∈ deleteResults new ∧
      (∀ e', some e' ∈ deleteResults new → IsNotFound e' = false → e' = e) ∧
      deletesOf new <+: ((mrs.filter (fun mr => decide (mr.Policy ≠ IgnorePolicy ∧
        mr.Policy ≠ KeepPolicy))).map (fun mr => ObjectFromTypedObjectReference mr.Resource)) := by
  intro mrs
  induction mrs with
  | nil =>
    intro w c r h
    simp [deleteLoop] at h
  | cons mr rest ih =>
    intro w c r h
    unfold deleteLoop at h
    by_cases hp : mr.Policy = IgnorePolicy ∨ mr.Policy = KeepPolicy
    · rw [if_pos hp] at h
      obtain ⟨new, e, h1, h2, h3, h4, h5, h6, h7⟩ := ih w c r h
      refine ⟨new, e, h1, h2, h3, h4, h5, h6, ?_⟩
      have : decide (mr.Policy ≠ IgnorePolicy ∧ mr.Policy ≠ KeepPolicy) = false := by
        simp only [decide_eq_false_iff_not]; tauto
      rw [List.filter_cons_of_neg (by simp [this])]
      exact h7
    · rw [if_neg hp] at h
      have hd : decide (mr.Policy ≠ IgnorePolicy ∧ mr.Policy ≠ KeepPolicy) = true := by
        simp only [decide_eq_true_eq]; tauto
      simp only at h
      rw [List.filter_cons_of_pos (by simp [hd])]
      cases hres : (env.Delete w.store (ObjectFromTypedObjectReference mr.Resource)).1 with
      | none =>
        simp only [hres] at h
        obtain ⟨new, e, h1, h2, h3, h4, h5, h6, h7⟩ := ih _ _ r h
        refine ⟨Call.delete (ObjectFromTypedObjectReference mr.Resource) none :: new, e,
          by simp [h1], h2, h3, h4, ?_, ?_, ?_⟩
        · simp only [deleteResults, List.filterMap_cons, List.mem_cons]
          exact Or.inr h5
        · intro e' he' hnf'
          simp only [deleteResults, List.filterMap_cons, List.mem_cons] at he'
          rcases he' with he' | he'
          · cases he'
          · exact h6 e' he' hnf'
        · simp only [deletesOf, List.filterMap_cons, List.map_cons]
          exact List.prefix_cons_inj _ |>.mpr h7
      | some err =>
        simp only [hres] at h
        by_cases hnf : IsNotFound err = true
        · rw [if_pos hnf] at h
          obtain ⟨new, e, h1, h2, h3, h4, h5, h6, h7⟩ := ih _ _ r h
          refine ⟨Call.delete (ObjectFromTypedObjectReference mr.Resource) (some err) :: new, e,
            by simp [h1], h2, h3, h4, ?_, ?_, ?_⟩
          · simp only [deleteResults, List.filterMap_cons, List.mem_cons]
            exact Or.inr h5
          · intro e' he' hnf'
            simp only [deleteResults, List.filterMap_cons, List.mem_cons] at he'
            rcases he' with he' | he'
            · cases he'
              rw [hnf] at hnf'
              cases hnf'
            · exact h6 e' he' hnf'
          · simp only [deletesOf, List.filterMap_cons, List.map_cons]
            exact List.prefix_cons_inj _ |>.mpr h7
        · rw [if_neg hnf] at h
          simp only [Sum.inl.injEq] at h
          subst h
          refine ⟨[Call.delete (ObjectFromTypedObjectReference mr.Resource) (some err)], err,
            rfl, rfl, by simpa using hnf, rfl, by simp [deleteResults], ?_, ?_⟩
          · intro e' he' _
            simpa [deleteResults] using he'
          · simp only [deletesOf, List.filterMap_cons, List.filterMap_nil, List.map_cons]
            exact List.prefix_cons_inj _ |>.mpr (List.nil_prefix)

/-- After `RemoveFinalizer` the finalizer is gone. -/
theorem RemoveFinalizer_not_mem (di : DeployItem) (f : String) :
    f ∉ (RemoveFinalizer di f).Finalizers := by
  simp [RemoveFinalizer, List.mem_filter]

/-- The helper `releaseFinalizer` issues no delete and leaves the deploy item without the finalizer. -/
theorem releaseFinalizer_calls {σ : Type} (env : Env σ) (m : Manifest) (w : World σ) :
    deletesOf (releaseFinalizer env m w).w.calls = deletesOf w.calls ∧
    deleteResults (releaseFinalizer env m w).w.calls = deleteResults w.calls ∧
    LandscaperFinalizer ∉ (releaseFinalizer env m w).m.DeployItem.Finalizers := by
  refine ⟨?_, ?_, ?_⟩
  · simp [releaseFinalizer, deletesOf_append, deletesOf]
  · simp [releaseFinalizer, deleteResults_append, deleteResults]
  · exact RemoveFinalizer_not_mem _ _

/-- A status whose `ManagedResources` has length zero records no managed resource. -/
theorem managedOf_eq_nil_of_length (m : Manifest) (ps : ProviderStatus)
    (hps : m.ProviderStatus = some ps) (hlen : ps.ManagedResources.length = 0) :
    managedOf m = [] := by
  simp only [managedOf, hps]
  exact List.length_eq_zero.mp hlen

/-- C6, as stated, fails: with the config maps `a` and `b` recorded under `Manage`, `a` still
in the cluster and the delete of `b` rejected, `a` is deleted in this pass and yet `Delete`
returns the error of the rejected delete, not "not all items are deleted". -/
theorem Delete_returns_other_error_after_a_delete :
    deleteResults (Delete (memEnv deleteOfBFails) managesAandB (worldOf [objA, objB])).w.calls
      = [none, some ⟨"delete rejected", false⟩] ∧
    (Delete (memEnv deleteOfBFails) managesAandB (worldOf [objA, objB])).w.store = [objB] ∧
    (Delete (memEnv deleteOfBFails) managesAandB (worldOf [objA, objB])).err
      = some ⟨"delete rejected", false⟩ ∧
    (Delete (memEnv deleteOfBFails) managesAandB (worldOf [objA, objB])).err
      ≠ some (errorsNew "not all items are deleted") := by
  decide

/-- C6, amended: for a deploy item that carries the finalizer, and when the target client is
obtained, `Delete` issues deletes only for managed resources under neither `Ignore` nor `Keep`
(none at all when the status is absent or empty), and it removes the finalizer iff the status
is absent or lists no managed resource, or every delete it issued was answered not-found. When
some delete succeeded and no delete failed with another error, `Delete` returns
"not all items are deleted" and the finalizer stays; when a delete fails with another error,
`Delete` returns that error and the finalizer stays. -/
theorem Delete_releases_finalizer_iff_all_gone {σ : Type} (env : Env σ) (m : Manifest)
    (w : World σ) (hfin : LandscaperFinalizer ∈ m.DeployItem.Finalizers)
    (htc : env.TargetClient = none) :
    ∃ new, (Delete env m w).w.calls = w.calls ++ new ∧
      (managedOf m = [] → deletesOf new = []) ∧
      deletesOf new <+: ((managedOf m).filter deletable).map
        (fun mr => ObjectFromTypedObjectReference mr.Resource) ∧
      (LandscaperFinalizer ∉ (Delete env m w).m.DeployItem.Finalizers ↔
        managedOf m = [] ∨ ∀ res ∈ deleteResults new, goneResponse res = true) ∧
      (none ∈ deleteResults new →
        (∀ res ∈ deleteResults new, res = none ∨ goneResponse res = true) →
        (Delete env m w).err = some (errorsNew "not all items are deleted") ∧
        LandscaperFinalizer ∈ (Delete env m w).m.DeployItem.Finalizers) ∧
      (∀ e, some e ∈ deleteResults new → IsNotFound e = false →
        (Delete env m w).err = some e ∧
        LandscaperFinalizer ∈ (Delete env m w).m.DeployItem.Finalizers) := by
  have hm : (m.setPhase ExecutionPhase.Deleting).ProviderStatus = m.ProviderStatus := rfl
  have hrel : ∀ w' : World σ, ∃ c, (releaseFinalizer env (m.setPhase ExecutionPhase.Deleting) w').w.calls
      = w'.calls ++ [c] ∧ deletesOf [c] = [] ∧ deleteResults [c] = [] := by
    intro w'
    exact ⟨_, rfl, rfl, rfl⟩
  unfold Delete
  simp only [hm]
  cases hps : m.ProviderStatus with
  | none =>
    have hmo : managedOf m = [] := by simp [managedOf, hps]
    obtain ⟨c, hc, hd, hr⟩ := hrel w
    refine ⟨[c], hc, fun _ => hd, by rw [hd]; exact List.nil_prefix, ?_, ?_, ?_⟩
    · simp [hmo, (releaseFinalizer_calls env _ w).2.2]
    · intro h; rw [hr] at h; cases h
    · intro e h; rw [hr] at h; cases h
  | some ps =>
    by_cases hlen : ps.ManagedResources.length = 0
    · simp only [if_pos hlen]
      have hmo : managedOf m = [] := managedOf_eq_nil_of_length m ps hps hlen
      obtain ⟨c, hc, hd, hr⟩ := hrel w
      refine ⟨[c], hc, fun _ => hd, by rw [hd]; exact List.nil_prefix, ?_, ?_, ?_⟩
      · simp [hmo, (releaseFinalizer_calls env _ w).2.2]
      · intro h; rw [hr] at h; cases h
      · intro e h; rw [hr] at h; cases h
    · simp only [if_neg hlen, htc]
      have hmo : managedOf m = ps.ManagedResources := by simp [managedOf, hps]
      have hne : managedOf m ≠ [] := by
        rw [hmo]; intro h; exact hlen (by simp [h])
      cases hloop : deleteLoop env (m.setPhase ExecutionPhase.Deleting)
          ps.ManagedResources w true with
      | inl r =>
        obtain ⟨new, e, h1, h2, h3, h4, h5, h6, h7⟩ := deleteLoop_inl env _ _ _ _ _ hloop
        have hfin' : LandscaperFinalizer ∈ r.m.DeployItem.Finalizers := by
          rw [h4]; exact hfin
        have hnot : ¬ ∀ res ∈ deleteResults new, goneResponse res = true := by
          intro hall
          have := hall _ h5
          simp [goneResponse, h3] at this
        refine ⟨new, h1, fun h => absurd h hne, by rw [hmo]; exact h7, ?_, ?_, ?_⟩
        · constructor
          · intro h; exact absurd hfin' h
          · rintro (h | h)
            · exact absurd h hne
            · exact absurd h hnot
        · intro _ hall
          rcases hall _ h5 with h | h
          · cases h
          · simp [goneResponse, h3] at h
        · intro e' he' hnf'
          rw [h6 e' he' hnf']
          exact ⟨h2, hfin'⟩
      | inr p =>
        obtain ⟨w', c'⟩ := p
        obtain ⟨new, h1, h2, h3, h4⟩ := deleteLoop_inr env _ _ _ _ _ _ hloop
        simp only [true_and] at h3
        have hpre : deletesOf new <+: ((managedOf m).filter deletable).map
            (fun mr => ObjectFromTypedObjectReference mr.Resource) := by
          rw [hmo, h4]; exact List.prefix_refl _
        have hno_hard : ∀ e, some e ∈ deleteResults new → IsNotFound e = false → False := by
          intro e he hnf
          rcases h2 _ he with h | h
          · cases h
          · simp [goneResponse, hnf] at h
        cases c' with
        | true =>
          have hall := h3.mp rfl
          obtain ⟨c, hc, hd, hr⟩ := hrel w'
          simp only [Bool.not_true, Bool.false_eq_true, if_false]
          refine ⟨new ++ [c], by simp only [hc, h1, List.append_assoc], fun h => absurd h hne,
            ?_, ?_, ?_, ?_⟩
          · rw [deletesOf_append, hd, List.append_nil]; exact hpre
          · rw [deleteResults_append, hr, List.append_nil]
            simp only [(releaseFinalizer_calls env _ w').2.2, not_false_eq_true, true_iff]
            exact Or.inr hall
          · rw [deleteResults_append, hr, List.append_nil]
            intro hnone _
            have := hall none hnone
            simp [goneResponse] at this
          · rw [deleteResults_append, hr, List.append_nil]
            intro e he hnf
            exact absurd (hno_hard e he hnf) id
        | false =>
          have hnall : ¬ ∀ res ∈ deleteResults new, goneResponse res = true := by
            intro h
            have := h3.mpr h
            cases this
          simp only [Bool.not_false, if_true]
          refine ⟨new, h1, fun h => absurd h hne, hpre, ?_, ?_, ?_⟩
          · constructor
            · intro h; exact absurd hfin h
            · rintro (h | h)
              · exact absurd h hne
              · exact absurd h hnall
          · intro _ _
            exact ⟨trivial, hfin⟩
          · intro e he hnf
            exact absurd (hno_hard e he hnf) id

/-- Witness for C6, amended: the config maps `a` and `b` recorded under `Manage`, of which `a`
alone is still in the cluster: the pass is incomplete and the finalizer stays. -/
theorem Delete_releases_finalizer_iff_all_gone_witness :
    LandscaperFinalizer ∈ managesAandB.DeployItem.Finalizers ∧
    (memEnv Fixture.plain).TargetClient = none ∧
    (Delete (memEnv Fixture.plain) managesAandB (worldOf [objA])).err
      = some (errorsNew "not all items are deleted") ∧
    LandscaperFinalizer ∈
      (Delete (memEnv Fixture.plain) managesAandB (worldOf [objA])).m.DeployItem.Finalizers := by
  obtain ⟨new, hnew, _, _, _, h, _⟩ := Delete_releases_finalizer_iff_all_gone
    (memEnv Fixture.plain) managesAandB (worldOf [objA]) (by decide) rfl
  have hn : (Delete (memEnv Fixture.plain) managesAandB (worldOf [objA])).w.calls = new := hnew
  exact ⟨by decide, rfl, h (hn ▸ by decide) (hn ▸ by decide)⟩

/-! ## Reconcile: the loop over the manifests -/

/-- When the loop of `Reconcile` runs to its end from index `i` on, the receiver is unchanged, no
write of the deploy item was issued, the status slice kept its length and its slots below `i`,
and slot `i + k` holds the entry of the `k`-th remaining manifest, which decodes. -/
theorem reconcileManifests_inr {σ : Type} (env : Env σ) :
    ∀ (ms : List ManifestEntry) (i : Nat) (st st' : ReconcileState σ),
    reconcileManifests env i ms st = .inr st' →
    st'.m = st.m ∧
    hostWritesOf st'.w.calls = hostWritesOf st.w.calls ∧
    st'.ManagedResources.length = st.ManagedResources.length ∧
    (∀ j, j < i → st'.ManagedResources[j]? = st.ManagedResources[j]?) ∧
    (∀ k md, ms[k]? = some md → i + k < st.ManagedResources.length →
      ∃ obj, env.DecodeManifest md.Raw = .ok obj ∧
        st'.ManagedResources[i + k]? = some (entryFor md obj)) := by
  intro ms
  induction ms with
  | nil =>
    intro i st st' h
    simp only [reconcileManifests, Sum.inr.injEq] at h
    subst h
    exact ⟨rfl, rfl, rfl, fun _ _ => rfl, by simp⟩
  | cons md rest ih =>
    intro i st st' h
    unfold reconcileManifests at h
    cases hdec : env.DecodeManifest md.Raw with
    | error err => simp [hdec] at h
    | ok obj =>
      simp only [hdec] at h
      -- the state after the entry of index `i` has been recorded
      have key : ∀ (st1 : ReconcileState σ),
          st1.ManagedResources = st.ManagedResources.set i (entryFor md obj) →
          st1.m = st.m → hostWritesOf st1.w.calls = hostWritesOf st.w.calls →
          reconcileManifests env (i + 1) rest st1 = .inr st' →
          st'.m = st.m ∧
          hostWritesOf st'.w.calls = hostWritesOf st.w.calls ∧
          st'.ManagedResources.length = st.ManagedResources.length ∧
          (∀ j, j < i → st'.ManagedResources[j]? = st.ManagedResources[j]?) ∧
          (∀ k md', (md :: rest)[k]? = some md' → i + k < st.ManagedResources.length →
            ∃ obj', env.DecodeManifest md'.Raw = .ok obj' ∧
              st'.ManagedResources[i + k]? = some (entryFor md' obj')) := by
        intro st1 hmr hm1 hw1 hloop
        obtain ⟨h1, h2, h3, h4, h5⟩ := ih (i + 1) st1 st' hloop
        refine ⟨h1.trans hm1, h2.trans hw1, ?_, ?_, ?_⟩
        · rw [h3, hmr, List.length_set]
        · intro j hj
          rw [h4 j (Nat.lt_succ_of_lt hj), hmr, List.getElem?_set_ne (Nat.ne_of_gt hj)]
        · intro k md' hk hlt
          cases k with
          | zero =>
            simp only [List.getElem?_cons_zero, Option.some.injEq] at hk
            subst hk
            refine ⟨obj, hdec, ?_⟩
            rw [Nat.add_zero] at hlt ⊢
            rw [h4 i (Nat.lt_succ_self i), hmr, List.getElem?_set_self hlt]
          | succ k =>
            simp only [List.getElem?_cons_succ] at hk
            have hlt' : i + 1 + k < st1.ManagedResources.length := by
              rw [hmr, List.length_set]; omega
            obtain ⟨obj', hd', he'⟩ := h5 k md' hk hlt'
            refine ⟨obj', hd', ?_⟩
            rw [show i + (k + 1) = i + 1 + k by omega]
            exact he'
      by_cases hpol : md.Policy = IgnorePolicy
      · rw [if_pos hpol] at h
        exact key { st with ManagedResources := st.ManagedResources.set i (entryFor md obj) }
          rfl rfl rfl h
      · rw [if_neg hpol] at h
        cases herr : (ApplyObject env st.m st.w md.Policy obj).err with
        | some e => simp [herr] at h
        | none =>
          simp only [herr] at h
          obtain ⟨_, hf2, hf3⟩ := ApplyObject_frame env st.m st.w md.Policy obj
          exact key { st with
            m := (ApplyObject env st.m st.w md.Policy obj).m,
            w := (ApplyObject env st.m st.w md.Policy obj).w,
            ManagedResources := st.ManagedResources.set i (entryFor md obj),
            objects := st.objects.set i (some (ApplyObject env st.m st.w md.Policy obj).obj) }
            rfl (hf3 herr) hf2 h

/-- When the loop of `Reconcile` returns from inside, it returns an error, nothing of the
receiver but `LastError` has changed, and no write of the deploy item was issued. -/
theorem reconcileManifests_inl {σ : Type} (env : Env σ) :
    ∀ (ms : List ManifestEntry) (i : Nat) (st : ReconcileState σ) (r : Result σ),
    reconcileManifests env i ms st = .inl r →
    r.m.setLastError none = st.m.setLastError none ∧
    hostWritesOf r.w.calls = hostWritesOf st.w.calls ∧
    (∃ e, r.err = some e) := by
  intro ms
  induction ms with
  | nil => intro i st r h; simp [reconcileManifests] at h
  | cons md rest ih =>
    intro i st r h
    unfold reconcileManifests at h
    cases hdec : env.DecodeManifest md.Raw with
    | error err =>
      simp only [hdec, Sum.inl.injEq] at h
      subst h
      exact ⟨rfl, rfl, _, rfl⟩
    | ok obj =>
      simp only [hdec] at h
      by_cases hpol : md.Policy = IgnorePolicy
      · rw [if_pos hpol] at h
        exact ih (i + 1)
          { st with ManagedResources := st.ManagedResources.set i (entryFor md obj) } r h
      · rw [if_neg hpol] at h
        obtain ⟨hf1, hf2, hf3⟩ := ApplyObject_frame env st.m st.w md.Policy obj
        cases herr : (ApplyObject env st.m st.w md.Policy obj).err with
        | some e =>
          simp only [herr, Sum.inl.injEq] at h
          subst h
          exact ⟨hf1, hf2, e, rfl⟩
        | none =>
          simp only [herr] at h
          obtain ⟨h1, h2, h3⟩ := ih (i + 1) { st with
            m := (ApplyObject env st.m st.w md.Policy obj).m,
            w := (ApplyObject env st.m st.w md.Policy obj).w,
            ManagedResources := st.ManagedResources.set i (entryFor md obj),
            objects := st.objects.set i (some (ApplyObject env st.m st.w md.Policy obj).obj) }
            r h
          exact ⟨h1.trans (by rw [hf3 herr]), h2.trans hf2, h3⟩

/-- When the loop of `Reconcile` returns from inside, there is a first failing manifest: the loop
over the manifests before it runs to its end, and the result is the one of the failing step. -/
theorem reconcileManifests_first_failure {σ : Type} (env : Env σ) :
    ∀ (ms : List ManifestEntry) (i : Nat) (st : ReconcileState σ) (r : Result σ),
    reconcileManifests env i ms st = .inl r →
    ∃ k md st', ms[k]? = some md ∧
      reconcileManifests env i (ms.take k) st = .inr st' ∧ failsAt env st' md r := by
  intro ms
  induction ms with
  | nil => intro i st r h; simp [reconcileManifests] at h
  | cons md rest ih =>
    intro i st r h
    unfold reconcileManifests at h
    cases hdec : env.DecodeManifest md.Raw with
    | error err =>
      simp only [hdec, Sum.inl.injEq] at h
      subst h
      exact ⟨0, md, st, by simp, by simp [reconcileManifests], Or.inl ⟨err, hdec, rfl, rfl⟩⟩
    | ok obj =>
      simp only [hdec] at h
      by_cases hpol : md.Policy = IgnorePolicy
      · rw [if_pos hpol] at h
        obtain ⟨k, md', st', hk, hpre, hf⟩ := ih (i + 1)
          { st with ManagedResources := st.ManagedResources.set i (entryFor md obj) } r h
        refine ⟨k + 1, md', st', by simpa using hk, ?_, hf⟩
        rw [List.take_succ_cons]
        unfold reconcileManifests
        simp only [hdec, if_pos hpol]
        exact hpre
      · rw [if_neg hpol] at h
        cases herr : (ApplyObject env st.m st.w md.Policy obj).err with
        | some e =>
          simp only [herr, Sum.inl.injEq] at h
          subst h
          exact ⟨0, md, st, by simp, by simp [reconcileManifests],
            Or.inr ⟨obj, e, hdec, hpol, herr, rfl, rfl, rfl⟩⟩
        | none =>
          simp only [herr] at h
          obtain ⟨k, md', st', hk, hpre, hf⟩ := ih (i + 1) { st with
            m := (ApplyObject env st.m st.w md.Policy obj).m,
            w := (ApplyObject env st.m st.w md.Policy obj).w,
            ManagedResources := st.ManagedResources.set i (entryFor md obj),
            objects := st.objects.set i (some (ApplyObject env st.m st.w md.Policy obj).obj) }
            r h
          refine ⟨k + 1, md', st', by simpa using hk, ?_, hf⟩
          rw [List.take_succ_cons]
          unfold reconcileManifests
          simp only [hdec, if_neg hpol, herr]
          exact hpre

/-- When the loop of `Reconcile` runs to its end from index `i` on, the slots of `objects`
below `i` and the slot of every manifest under `Ignore` are as they were. -/
theorem reconcileManifests_ignored_slot {σ : Type} (env : Env σ) :
    ∀ (ms : List ManifestEntry) (i : Nat) (st st' : ReconcileState σ),
    reconcileManifests env i ms st = .inr st' →
    (∀ j, j < i → st'.objects[j]? = st.objects[j]?) ∧
    (∀ k md, ms[k]? = some md → md.Policy = IgnorePolicy →
      st'.objects[i + k]? = st.objects[i + k]?) := by
  intro ms
  induction ms with
  | nil =>
    intro i st st' h
    simp only [reconcileManifests, Sum.inr.injEq] at h
    subst h
    exact ⟨fun _ _ => rfl, by simp⟩
  | cons md rest ih =>
    intro i st st' h
    unfold reconcileManifests at h
    cases hdec : env.DecodeManifest md.Raw with
    | error err => simp [hdec] at h
    | ok obj =>
      simp only [hdec] at h
      by_cases hpol : md.Policy = IgnorePolicy
      · rw [if_pos hpol] at h
        obtain ⟨h1, h2⟩ := ih (i + 1)
          { st with ManagedResources := st.ManagedResources.set i (entryFor md obj) } st' h
        refine ⟨fun j hj => h1 j (Nat.lt_succ_of_lt hj), ?_⟩
        intro k md' hk hig
        cases k with
        | zero => exact h1 i (Nat.lt_succ_self i)
        | succ k =>
          simp only [List.getElem?_cons_succ] at hk
          have := h2 k md' hk hig
          rw [show i + (k + 1) = i + 1 + k by omega]
          exact this
      · rw [if_neg hpol] at h
        cases herr : (ApplyObject env st.m st.w md.Policy obj).err with
        | some e => simp [herr] at h
        | none =>
          simp only [herr] at h
          obtain ⟨h1, h2⟩ := ih (i + 1) { st with
            m := (ApplyObject env st.m st.w md.Policy obj).m,
            w := (ApplyObject env st.m st.w md.Policy obj).w,
            ManagedResources := st.ManagedResources.set i (entryFor md obj),
            objects := st.objects.set i (some (ApplyObject env st.m st.w md.Policy obj).obj) }
            st' h
          refine ⟨?_, ?_⟩
          · intro j hj
            rw [h1 j (Nat.lt_succ_of_lt hj)]
            exact List.getElem?_set_ne (Nat.ne_of_gt hj)
          · intro k md' hk hig
            cases k with
            | zero =>
              simp only [List.getElem?_cons_zero, Option.some.injEq] at hk
              subst hk
              exact absurd hig hpol
            | succ k =>
              simp only [List.getElem?_cons_succ] at hk
              have := h2 k md' hk hig
              rw [show i + (k + 1) = i + 1 + k by omega, this]
              exact List.getElem?_set_ne (by omega)

/-- The list of current objects that `Reconcile` hands to `cleanupOrphanedResources` holds a nil
element at the index of every manifest under `Ignore`. -/
theorem Reconcile_passes_nil_for_ignored {σ : Type} (env : Env σ) (m : Manifest) (w : World σ)
    (st : ReconcileState σ)
    (h : reconcileManifests env 0 m.ProviderConfiguration.Manifests (reconcileStart m w)
      = .inr st)
    (k : Nat) (manifestData : ManifestEntry)
    (hk : m.ProviderConfiguration.Manifests[k]? = some manifestData)
    (hig : manifestData.Policy = IgnorePolicy) :
    st.objects[k]? = some none := by
  have := (reconcileManifests_ignored_slot env _ _ _ _ h).2 k manifestData hk hig
  rw [Nat.zero_add] at this
  rw [this]
  have hlt : k < m.ProviderConfiguration.Manifests.length :=
    (List.getElem?_eq_some_iff.mp hk).1
  simp [reconcileStart, hlt]

/-- A nil element that is reached before any match makes the membership test panic. -/
theorem containsUnstructuredObject_nil_head (obj : Unstructured)
    (objects : List (Option Unstructured)) :
    containsUnstructuredObject obj (none :: objects) = none := rfl

/-- When the end of `Reconcile` returns no error, the status was encoded, the blob is on the
deploy item, and the last call is the successful status update of that deploy item. -/
theorem reconcilePersist_ok {σ : Type} (env : Env σ) (m : Manifest) (w : World σ)
    (status : ProviderStatus) (hok : (reconcilePersist env m w status).err = none) :
    ∃ statusData, encodeStatus env status = .ok statusData ∧
      (reconcilePersist env m w status).m.DeployItem.Status.ProviderStatus = some statusData ∧
      (reconcilePersist env m w status).w.calls
        = w.calls ++ [Call.statusUpdate (reconcilePersist env m w status).m.DeployItem none] := by
  unfold reconcilePersist at hok ⊢
  cases henc : encodeStatus env status with
  | error err => simp [henc] at hok
  | ok statusData =>
    simp only [henc] at hok ⊢
    cases hupd : (env.StatusUpdate w.store { m.DeployItem with
        Status := { m.DeployItem.Status with ProviderStatus := some statusData } }).1 with
    | some err => simp [hupd] at hok
    | none => exact ⟨statusData, rfl, by simp [hupd], by simp [hupd]⟩

/-! ## CheckResourcesHealth -/

/-- C10: at the failing input. The persisted status decodes and lists no managed resource;
`CheckResourcesHealth` returns without error and leaves the deploy item as it was: the phase is
still `Progressing`, the observed generation is still 1 while the generation is 2, and the
earlier `LastError` is still recorded. -/
theorem CheckResourcesHealth_without_resources_keeps_phase :
    (memEnv decodesStatuses).DecodeStatus "no-resources" = .ok (statusOf []) ∧
    CheckResourcesHealth (memEnv decodesStatuses) (progressingWith "no-resources") (worldOf [])
      = .returned ⟨none, progressingWith "no-resources", worldOf []⟩ ∧
    (progressingWith "no-resources").DeployItem.Status.Phase = ExecutionPhase.Progressing ∧
    (progressingWith "no-resources").DeployItem.Status.ObservedGeneration = 1 ∧
    (progressingWith "no-resources").DeployItem.Generation = 2 ∧
    (progressingWith "no-resources").DeployItem.Status.LastError
      = some ⟨"ReconcileManifests", "UpdateStatus", "conflict"⟩ := by
  refine ⟨by decide, rfl, rfl, rfl, rfl, rfl⟩

/-- When the persisted status decodes and lists at least one managed resource,
`CheckResourcesHealth` returns; if it returns without error the phase is `Succeeded`, the
observed generation is the generation and `LastError` is nil; if the readiness probe fails the
phase is the one before the call and `LastError` records the failure. -/
theorem CheckResourcesHealth_on_managed_resources {σ : Type} (env : Env σ) (m : Manifest)
    (w : World σ) (raw : RawExtension) (status : ProviderStatus)
    (hraw : m.DeployItem.Status.ProviderStatus = some raw)
    (hdec : env.DecodeStatus raw.Raw = .ok status)
    (hne : status.ManagedResources ≠ []) :
    ∃ r, CheckResourcesHealth env m w = .returned r ∧
      (r.err = none →
        r.m.DeployItem.Status.Phase = ExecutionPhase.Succeeded ∧
        r.m.DeployItem.Status.ObservedGeneration = m.DeployItem.Generation ∧
        r.m.DeployItem.Generation = m.DeployItem.Generation ∧
        r.m.DeployItem.Status.LastError = none) ∧
      (∀ objects e, (env.WaitObjectsReady w.store objects).1 = some e →
        objects = status.ManagedResources.map (fun mr =>
          if mr.Policy = IgnorePolicy then none
          else some (ObjectFromTypedObjectReference mr.Resource)) →
        r.err = some e ∧
        r.m.DeployItem.Status.Phase = m.DeployItem.Status.Phase ∧
        r.m.DeployItem.Status.LastError
          = some ⟨"CheckResourcesHealthManifests", "CheckResourcesReadiness", e.msg⟩) := by
  have hlen : ¬ status.ManagedResources.length = 0 := by
    intro h; exact hne (List.length_eq_zero.mp h)
  unfold CheckResourcesHealth
  simp only [hraw, hdec, if_neg hlen]
  split
  · rename_i err hprobe
    refine ⟨_, rfl, ?_, ?_⟩
    · intro h; cases h
    · intro objects e he hobj
      subst hobj
      rw [hprobe] at he
      cases he
      exact ⟨rfl, rfl, rfl⟩
  · rename_i hprobe
    refine ⟨_, rfl, ?_, ?_⟩
    · intro _
      exact ⟨rfl, rfl, rfl, rfl⟩
    · intro objects e he hobj
      subst hobj
      rw [hprobe] at he
      cases he

/-! ## Identity labels -/

/-- The stamping of `ApplyObject` sets the deploy-item label to the name of the deploy item and
leaves the instance label as the manifest had it. -/
theorem stamped_labels (m : Manifest) (obj : Unstructured) :
    HasLabelWithValue (stamped m obj) ManagedDeployItemLabel m.DeployItem.Name = true ∧
    (stamped m obj).Labels.lookup ManagedInstanceLabel
      = obj.Labels.lookup ManagedInstanceLabel := by
  constructor
  · simp only [stamped, SetMetaDataLabel, HasLabelWithValue]
    induction obj.Labels with
    | nil => simp [List.lookup]
    | cons p rest ih =>
      by_cases hp : p.1 = ManagedDeployItemLabel
      · simpa [List.filter_cons, hp] using ih
      · have hp' : (ManagedDeployItemLabel == p.1) = false := by
          simpa using fun h => hp h.symm
        simpa [List.filter_cons, hp, List.lookup, hp'] using ih
  · simp only [stamped, SetMetaDataLabel]
    have hne : (ManagedInstanceLabel == ManagedDeployItemLabel) = false := by decide
    induction obj.Labels with
    | nil => simp [List.lookup, hne]
    | cons p rest ih =>
      by_cases hp : p.1 = ManagedDeployItemLabel
      · have : (ManagedInstanceLabel == p.1) = false := by rw [hp]; exact hne
        obtain ⟨k, v⟩ := p
        simp only at hp this
        simp only [List.filter_cons, hp, bne_self_eq_false, Bool.false_eq_true, if_false,
          List.lookup, this]
        simpa [hp] using ih
      · obtain ⟨k, v⟩ := p
        simp only at hp
        have hk : (k != ManagedDeployItemLabel) = true := by simpa using hp
        simp only [List.filter_cons, hk, if_true, List.cons_append, List.lookup]
        cases hkk : (ManagedInstanceLabel == k)
        · simpa using ih
        · rfl

/-- C11: at the failing inputs. On the create of an absent config map and on the update of an
existing one, the object submitted carries the deploy-item label `di` and no instance label; on
the patch of an existing, unlabelled config map the object submitted is the fetched live object,
which carries neither label. -/
theorem ApplyObject_never_sets_instance_label :
    (ApplyObject (memEnv Fixture.plain) (sampleManifest UpdateStrategyUpdate [] none)
        (worldOf []) ManagePolicy desiredPlain).w.calls =
      [Call.get (keyOf desiredPlain) (currObjOf desiredPlain) (.error ⟨"not found", true⟩),
       Call.create (configMap "cm" "" [(ManagedDeployItemLabel, "di")] [("data", "new")])
        (.ok (configMap "cm" "uid-cm" [(ManagedDeployItemLabel, "di")] [("data", "new")]))] ∧
    (configMap "cm" "" [(ManagedDeployItemLabel, "di")] [("data", "new")]).Labels.lookup
      ManagedInstanceLabel = none ∧
    (ApplyObject (memEnv Fixture.plain) (sampleManifest UpdateStrategyUpdate [] none)
        (worldOf [liveUnlabelled]) ManagePolicy desiredPlain).w.calls =
      [Call.get (keyOf desiredPlain) (currObjOf desiredPlain) (.ok liveUnlabelled),
       Call.update (configMap "cm" "uid-cm" [(ManagedDeployItemLabel, "di")] [("data", "new")])
        (.ok (configMap "cm" "uid-cm" [(ManagedDeployItemLabel, "di")] [("data", "new")]))] ∧
    (configMap "cm" "uid-cm" [(ManagedDeployItemLabel, "di")] [("data", "new")]).Labels.lookup
      ManagedInstanceLabel = none ∧
    (ApplyObject (memEnv Fixture.plain) (sampleManifest UpdateStrategyPatch [] none)
        (worldOf [liveUnlabelled]) ManagePolicy desiredPlain).w.calls =
      [Call.get (keyOf desiredPlain) (currObjOf desiredPlain) (.ok liveUnlabelled),
       Call.patch liveUnlabelled
        (configMap "cm" "uid-cm" [(ManagedDeployItemLabel, "di")] [("data", "new")])
        (.ok liveUnlabelled)] ∧
    liveUnlabelled.Labels.lookup ManagedDeployItemLabel = none ∧
    liveUnlabelled.Labels.lookup ManagedInstanceLabel = none := by
  decide

/-! ## The patch strategy -/

/-- With the strategy `patch`, a target that exists and is not skipped, and required fields that
merge, `ApplyObject` issues the get and then one patch whose object is the fetched live object
and whose base (`client.MergeFrom`) is the desired object; the cluster is left as that patch
left it. -/
theorem ApplyObject_patch_call {σ : Type} (env : Env σ) (m : Manifest) (w : World σ)
    (policy : ManifestPolicy) (obj live merged : Unstructured)
    (hs : m.ProviderConfiguration.UpdateStrategy = UpdateStrategyPatch)
    (hget : env.Get w.store (keyOf obj) (currObjOf obj) = .ok live)
    (happly : ¬ (policy = FallbackPolicy ∧
      HasLabelWithValue obj ManagedDeployItemLabel m.DeployItem.Name = false))
    (hmerge : env.SetRequiredNestedFieldsFromObj live (stamped m obj) = .ok merged) :
    (ApplyObject env m w policy obj).w.calls = w.calls ++
      [Call.get (keyOf obj) (currObjOf obj) (.ok live),
       Call.patch live merged (env.Patch w.store live merged).1] ∧
    (ApplyObject env m w policy obj).w.store = (env.Patch w.store live merged).2 ∧
    (∀ answer, (env.Patch w.store live merged).1 = .ok answer →
      (ApplyObject env m w policy obj).err = none) := by
  have happly' : ¬ (policy = FallbackPolicy ∧
      (!HasLabelWithValue obj ManagedDeployItemLabel m.DeployItem.Name) = true) := by
    simpa using happly
  have hu : ¬ m.ProviderConfiguration.UpdateStrategy = UpdateStrategyUpdate := by
    rw [hs]; decide
  simp only [ApplyObject, hget, if_neg happly', hmerge, if_neg hu, if_pos hs]
  cases hp : (env.Patch w.store live merged).1 <;> simp

/-- C12: at the failing input. For an existing config map with `data = old` and no label, and
the manifest with `data = new`, `ApplyObject` under the strategy `patch` returns no error after
one patch of the live object with the desired object as base; the stored object still has
`data = old` and no deploy-item label. The same client, called with the desired object and the
live object as base, stores `data = new` and the label. -/
theorem ApplyObject_patch_keeps_live_values :
    (ApplyObject (memEnv Fixture.plain) (sampleManifest UpdateStrategyPatch [] none)
        (worldOf [liveUnlabelled]) ManagePolicy desiredPlain).err = none ∧
    (ApplyObject (memEnv Fixture.plain) (sampleManifest UpdateStrategyPatch [] none)
        (worldOf [liveUnlabelled]) ManagePolicy desiredPlain).w.calls =
      [Call.get (keyOf desiredPlain) (currObjOf desiredPlain) (.ok liveUnlabelled),
       Call.patch liveUnlabelled
        (configMap "cm" "uid-cm" [(ManagedDeployItemLabel, "di")] [("data", "new")])
        (.ok liveUnlabelled)] ∧
    (ApplyObject (memEnv Fixture.plain) (sampleManifest UpdateStrategyPatch [] none)
        (worldOf [liveUnlabelled]) ManagePolicy desiredPlain).w.store
      = [configMap "cm" "uid-cm" [] [("data", "old")]] ∧
    desiredPlain.Fields.lookup "data" = some "new" ∧
    ((memEnv Fixture.plain).Patch [liveUnlabelled]
        (configMap "cm" "uid-cm" [(ManagedDeployItemLabel, "di")] [("data", "new")])
        liveUnlabelled).2
      = [configMap "cm" "uid-cm" [(ManagedDeployItemLabel, "di")] [("data", "new")]] := by
  decide

/-! ## Orphan cleanup -/

/-- The gets of a log that is the concatenation of two logs. -/
theorem fetchesOf_append (a b : List Call) :
    fetchesOf (a ++ b) = fetchesOf a ++ fetchesOf b := by
  simp [fetchesOf, List.filterMap_append]

/-- Issuing the delete of a running goroutine takes its object out of those waiting. -/
theorem waiting_set_deleted : ∀ (l : List Goroutine) (i : Nat) (g : Goroutine),
    l[i]? = some g → g.deleted = false →
    (g.obj :: waiting (l.set i { g with deleted := true })).Perm (waiting l) := by
  intro l
  induction l with
  | nil => intro i g h; simp at h
  | cons a rest ih =>
    intro i g h hd
    cases i with
    | zero =>
      simp only [List.getElem?_cons_zero, Option.some.injEq] at h
      subst h
      simp [waiting, List.set_cons_zero, hd]
    | succ j =>
      simp only [List.getElem?_cons_succ] at h
      have := ih j g h hd
      cases ha : a.deleted with
      | true => simpa [waiting, List.set_cons_succ, ha] using this
      | false =>
        simp only [waiting, List.set_cons_succ, List.filter_cons, ha, Bool.not_false, if_true,
          List.map_cons] at this ⊢
        exact (List.Perm.swap _ _ _).trans (this.cons _)

/-- A goroutine that finishes after its delete was issued was not among those waiting. -/
theorem waiting_eraseIdx : ∀ (l : List Goroutine) (i : Nat) (g : Goroutine),
    l[i]? = some g → g.deleted = true → waiting (l.eraseIdx i) = waiting l := by
  intro l
  induction l with
  | nil => intro i g h; simp at h
  | cons a rest ih =>
    intro i g h hd
    cases i with
    | zero =>
      simp only [List.getElem?_cons_zero, Option.some.injEq] at h
      subst h
      simp [waiting, hd]
    | succ j =>
      simp only [List.getElem?_cons_succ] at h
      have := ih j g h hd
      simp only [waiting, List.eraseIdx_cons_succ, List.filter_cons, List.map_cons] at this ⊢
      split <;> simp [this]

/-- One step of a goroutine issues no get and no write of the deploy item, and the delete it
issues, if any, is the one of a goroutine that was waiting. -/
theorem stepGoroutine_spec {σ : Type} (env : Env σ) (p : Pool σ) (i : Nat) :
    ∃ new, (stepGoroutine env p i).w.calls = p.w.calls ++ new ∧ fetchesOf new = [] ∧
      hostWritesOf new = [] ∧
      (deletesOf new ++ waiting (stepGoroutine env p i).running).Perm (waiting p.running) := by
  unfold stepGoroutine
  cases hg : p.running[i]? with
  | none => exact ⟨[], by simp, rfl, rfl, by simp [deletesOf]⟩
  | some g =>
    cases hd : g.deleted with
    | true =>
      simp only [hd, if_true]
      refine ⟨[], by simp [pollStep], rfl, rfl, ?_⟩
      simp [deletesOf, waiting_eraseIdx _ _ _ hg hd]
    | false =>
      simp only [hd, Bool.false_eq_true, if_false]
      refine ⟨[Call.delete g.obj (env.Delete p.w.store g.obj).1], by simp [deleteStep], rfl, rfl,
        ?_⟩
      simpa [deletesOf] using waiting_set_deleted _ _ _ hg hd

/-- The steps of a scheduling point issue no get and no write of the deploy item, and the
deletes they issue are those of goroutines that were waiting. -/
theorem foldl_stepGoroutine_spec {σ : Type} (env : Env σ) :
    ∀ (steps : List Nat) (p : Pool σ),
    ∃ new, (steps.foldl (stepGoroutine env) p).w.calls = p.w.calls ++ new ∧ fetchesOf new = [] ∧
      hostWritesOf new = [] ∧
      (deletesOf new ++ waiting (steps.foldl (stepGoroutine env) p).running).Perm
        (waiting p.running) := by
  intro steps
  induction steps with
  | nil => intro p; exact ⟨[], by simp, rfl, rfl, by simp [deletesOf]⟩
  | cons i rest ih =>
    intro p
    obtain ⟨n1, h1, h2, h3, h4⟩ := stepGoroutine_spec env p i
    obtain ⟨n2, k1, k2, k3, k4⟩ := ih (stepGoroutine env p i)
    refine ⟨n1 ++ n2, ?_, ?_, ?_, ?_⟩
    · rw [List.foldl_cons, k1, h1, List.append_assoc]
    · rw [fetchesOf_append, h2, k2]; rfl
    · rw [hostWritesOf_append, h3, k3]; rfl
    · rw [List.foldl_cons, deletesOf_append, List.append_assoc]
      exact (k4.append_left _).trans h4

/-- Running the goroutines to their end issues no get and no write of the deploy item, and
exactly the deletes of those that were waiting, in the order they were started. -/
theorem foldl_finishGoroutine_spec {σ : Type} (env : Env σ) :
    ∀ (running : List Goroutine) (acc : World σ × List GoError),
    ∃ new, (running.foldl (finishGoroutine env) acc).1.calls = acc.1.calls ++ new ∧
      fetchesOf new = [] ∧ hostWritesOf new = [] ∧ deletesOf new = waiting running := by
  intro running
  induction running with
  | nil => intro acc; exact ⟨[], by simp, rfl, rfl, rfl⟩
  | cons g rest ih =>
    intro acc
    obtain ⟨n2, k1, k2, k3, k4⟩ := ih (finishGoroutine env acc g)
    rw [List.foldl_cons, k1]
    cases hd : g.deleted with
    | true =>
      refine ⟨n2, by simp [finishGoroutine, hd, pollStep], k2, k3, ?_⟩
      rw [k4]; simp [waiting, hd]
    | false =>
      refine ⟨Call.delete g.obj (env.Delete acc.1.store g.obj).1 :: n2,
        by simp [finishGoroutine, hd, pollStep, deleteStep], ?_, ?_, ?_⟩
      · simpa [fetchesOf] using k2
      · simpa [hostWritesOf] using k3
      · simp [deletesOf, waiting, hd] at k4 ⊢
        exact k4

/-- The accounting of one round of the loop of `cleanupOrphanedResources`: the steps `n1` of
the goroutines, the get, and the rest `nr` of the loop. -/
theorem cleanup_round (current : List (Option Unstructured)) (n1 nr : List Call)
    (key : ObjectKey) (obj : Unstructured) (got : Except GoError Unstructured)
    (W0 W1 W2 W3 : List Unstructured)
    (s2 : fetchesOf n1 = []) (s3 : hostWritesOf n1 = [])
    (s4 : (deletesOf n1 ++ W1).Perm W0)
    (hW : W2 = W1 ++ startedFor current [⟨key, obj, got⟩])
    (h2 : hostWritesOf nr = [])
    (h3 : (deletesOf nr ++ W3).Perm (W2 ++ startedFor current (fetchesOf nr))) :
    hostWritesOf (n1 ++ Call.get key obj got :: nr) = [] ∧
    fetchesOf (n1 ++ Call.get key obj got :: nr) = ⟨key, obj, got⟩ :: fetchesOf nr ∧
    (deletesOf (n1 ++ Call.get key obj got :: nr) ++ W3).Perm
      (W0 ++ startedFor current (fetchesOf (n1 ++ Call.get key obj got :: nr))) := by
  have hf : fetchesOf (n1 ++ Call.get key obj got :: nr) = ⟨key, obj, got⟩ :: fetchesOf nr := by
    rw [fetchesOf_append, s2]; simp [fetchesOf]
  refine ⟨?_, hf, ?_⟩
  · rw [hostWritesOf_append, s3]; simpa [hostWritesOf] using h2
  · rw [hf]
    have hd : deletesOf (n1 ++ Call.get key obj got :: nr) = deletesOf n1 ++ deletesOf nr := by
      rw [deletesOf_append]; simp [deletesOf]
    have hs : startedFor current (⟨key, obj, got⟩ :: fetchesOf nr)
        = startedFor current [⟨key, obj, got⟩] ++ startedFor current (fetchesOf nr) := by
      simp only [startedFor]
      rw [← List.filterMap_append]; rfl
    rw [hd, hs]
    subst hW
    rw [List.perm_iff_count] at s4 h3 ⊢
    intro a
    have := s4 a
    have := h3 a
    simp only [List.count_append] at *
    omega

/-- The loop of `cleanupOrphanedResources`, under every schedule: it issues no write of the
deploy item; the deletes issued and the goroutines still waiting are together those that
waited before and those started for the answers of its gets; its gets are, in order, those of
the entries that are `deletable`, up to the one at which it stops. -/
theorem cleanupLoop_spec {σ : Type} (env : Env σ) (current : List (Option Unstructured)) :
    ∀ (old : List ManagedResourceStatus) (sched : List (List Nat)) (p : Pool σ),
    ∃ new, (cleanupLoop env current sched p old).pool.w.calls = p.w.calls ++ new ∧
      hostWritesOf new = [] ∧
      (deletesOf new ++ waiting (cleanupLoop env current sched p old).pool.running).Perm
        (waiting p.running ++ startedFor current (fetchesOf new)) ∧
      (fetchesOf new).map (fun f => (f.key, f.obj)) <+: (old.filter deletable).map requestOf ∧
      ((cleanupLoop env current sched p old).exit = CleanupExit.finished →
        (fetchesOf new).map (fun f => (f.key, f.obj)) = (old.filter deletable).map requestOf) ∧
      (∀ err, (cleanupLoop env current sched p old).exit = CleanupExit.failed err →
        ∃ f ∈ fetchesOf new, foundOrGone f.res = false) ∧
      ((cleanupLoop env current sched p old).exit = CleanupExit.nilDeref →
        ∃ f ∈ fetchesOf new, ∃ o, f.res = .ok o ∧
          containsUnstructuredObject o current = none) := by
  intro old
  induction old with
  | nil =>
    intro sched p
    exact ⟨[], by simp [cleanupLoop], rfl, by simp [cleanupLoop, deletesOf, fetchesOf, startedFor],
      by simp [fetchesOf], by simp [fetchesOf], by simp [cleanupLoop], by simp [cleanupLoop]⟩
  | cons mr rest ih =>
    intro sched p
    unfold cleanupLoop
    by_cases hp : mr.Policy = IgnorePolicy ∨ mr.Policy = KeepPolicy
    · rw [if_pos hp]
      have hd : deletable mr = false := by
        simp only [deletable, decide_eq_false_iff_not]; tauto
      rw [List.filter_cons_of_neg (by simp [hd])]
      exact ih sched p
    · rw [if_neg hp]
      have hd : deletable mr = true := by
        simp only [deletable, decide_eq_true_eq]; tauto
      rw [List.filter_cons_of_pos hd]
      obtain ⟨n1, s1, s2, s3, s4⟩ := foldl_stepGoroutine_spec env (sched.headD []) p
      generalize (sched.headD []).foldl (stepGoroutine env) p = p1 at s1 s4 ⊢
      simp only
      cases hg : env.Get p1.w.store (kutilObjectKey mr.Resource.Name mr.Resource.Namespace)
          (ObjectFromTypedObjectReference mr.Resource) with
      | error err =>
        by_cases hnf : IsNotFound err = true
        · simp only [if_pos hnf]
          obtain ⟨nr, h1, h2, h3, h4, h5, h6, h7⟩ := ih sched.tail
            { p1 with w := { p1.w with calls := p1.w.calls ++ [Call.get
              (kutilObjectKey mr.Resource.Name mr.Resource.Namespace)
              (ObjectFromTypedObjectReference mr.Resource) (.error err)] } }
          obtain ⟨r1, r2, r3⟩ := cleanup_round current n1 nr
            (kutilObjectKey mr.Resource.Name mr.Resource.Namespace)
            (ObjectFromTypedObjectReference mr.Resource) (.error err)
            (waiting p.running) (waiting p1.running) (waiting p1.running) _ s2 s3 s4
            (by simp [startedFor]) h2 h3
          refine ⟨_, ?_, r1, r3, ?_, ?_, ?_, ?_⟩
          · rw [h1, s1]; simp
          · rw [r2]; simpa [requestOf, List.prefix_cons_inj] using h4
          · intro he; rw [r2]; simpa [requestOf] using h5 he
          · intro e he
            obtain ⟨f, hf, hh⟩ := h6 e he
            exact ⟨f, by rw [r2]; exact List.mem_cons_of_mem _ hf, hh⟩
          · intro he
            obtain ⟨f, hf, hh⟩ := h7 he
            exact ⟨f, by rw [r2]; exact List.mem_cons_of_mem _ hf, hh⟩
        · simp only [if_neg hnf]
          obtain ⟨r1, r2, r3⟩ := cleanup_round current n1 []
            (kutilObjectKey mr.Resource.Name mr.Resource.Namespace)
            (ObjectFromTypedObjectReference mr.Resource) (.error err)
            (waiting p.running) (waiting p1.running) (waiting p1.running) (waiting p1.running)
            s2 s3 s4
            (by simp [startedFor]) rfl (by simp [deletesOf, fetchesOf, startedFor])
          refine ⟨_, ?_, r1, r3, ?_, ?_, ?_, ?_⟩
          · rw [s1]; simp
          · rw [r2]; simp [requestOf, fetchesOf]
          · intro he; cases he
          · intro e _
            exact ⟨_, by rw [r2]; exact List.mem_cons_self _ _, by simpa [foundOrGone] using hnf⟩
          · intro he; cases he
      | ok obj =>
        simp only
        cases hc : containsUnstructuredObject obj current with
        | none =>
          obtain ⟨r1, r2, r3⟩ := cleanup_round current n1 []
            (kutilObjectKey mr.Resource.Name mr.Resource.Namespace)
            (ObjectFromTypedObjectReference mr.Resource) (.ok obj)
            (waiting p.running) (waiting p1.running) (waiting p1.running) (waiting p1.running)
            s2 s3 s4
            (by simp [startedFor, hc]) rfl (by simp [deletesOf, fetchesOf, startedFor])
          refine ⟨_, ?_, r1, r3, ?_, ?_, ?_, ?_⟩
          · rw [s1]; simp
          · rw [r2]; simp [requestOf, fetchesOf]
          · intro he; cases he
          · intro e he; cases he
          · intro _
            exact ⟨_, by rw [r2]; exact List.mem_cons_self _ _, obj, rfl, hc⟩
        | some b =>
          cases b with
          | true =>
            obtain ⟨nr, h1, h2, h3, h4, h5, h6, h7⟩ := ih sched.tail
              { p1 with w := { p1.w with calls := p1.w.calls ++ [Call.get
                (kutilObjectKey mr.Resource.Name mr.Resource.Namespace)
                (ObjectFromTypedObjectReference mr.Resource) (.ok obj)] } }
            obtain ⟨r1, r2, r3⟩ := cleanup_round current n1 nr
              (kutilObjectKey mr.Resource.Name mr.Resource.Namespace)
              (ObjectFromTypedObjectReference mr.Resource) (.ok obj)
              (waiting p.running) (waiting p1.running) (waiting p1.running) _ s2 s3 s4
              (by simp [startedFor, hc]) h2 h3
            refine ⟨_, ?_, r1, r3, ?_, ?_, ?_, ?_⟩
            · rw [h1, s1]; simp
            · rw [r2]; simpa [requestOf, List.prefix_cons_inj] using h4
            · intro he; rw [r2]; simpa [requestOf] using h5 he
            · intro e he
              obtain ⟨f, hf, hh⟩ := h6 e he
              exact ⟨f, by rw [r2]; exact List.mem_cons_of_mem _ hf, hh⟩
            · intro he
              obtain ⟨f, hf, hh⟩ := h7 he
              exact ⟨f, by rw [r2]; exact List.mem_cons_of_mem _ hf, hh⟩
          | false =>
            obtain ⟨nr, h1, h2, h3, h4, h5, h6, h7⟩ := ih sched.tail
              { w := { p1.w with calls := p1.w.calls ++ [Call.get
                  (kutilObjectKey mr.Resource.Name mr.Resource.Namespace)
                  (ObjectFromTypedObjectReference mr.Resource) (.ok obj)] },
                allErrs := p1.allErrs,
                running := p1.running ++ [⟨obj, false⟩] }
            obtain ⟨r1, r2, r3⟩ := cleanup_round current n1 nr
              (kutilObjectKey mr.Resource.Name mr.Resource.Namespace)
              (ObjectFromTypedObjectReference mr.Resource) (.ok obj)
              (waiting p.running) (waiting p1.running) (waiting (p1.running ++ [⟨obj, false⟩])) _
              s2 s3 s4
              (by simp [startedFor, hc, waiting]) h2 h3
            refine ⟨_, ?_, r1, r3, ?_, ?_, ?_, ?_⟩
            · rw [h1, s1]; simp
            · rw [r2]; simpa [requestOf, List.prefix_cons_inj] using h4
            · intro he; rw [r2]; simpa [requestOf] using h5 he
            · intro e he
              obtain ⟨f, hf, hh⟩ := h6 e he
              exact ⟨f, by rw [r2]; exact List.mem_cons_of_mem _ hf, hh⟩
            · intro he
              obtain ⟨f, hf, hh⟩ := h7 he
              exact ⟨f, by rw [r2]; exact List.mem_cons_of_mem _ hf, hh⟩

/-- The loop of `cleanupOrphanedResources` when no goroutine takes a step before the join: the
cluster stays as it was, every get reads it, no delete is issued, and the goroutines started
are, in order, those for the answers of the gets. -/
theorem cleanupLoop_unscheduled {σ : Type} (env : Env σ)
    (current : List (Option Unstructured)) :
    ∀ (old : List ManagedResourceStatus) (p : Pool σ),
    (cleanupLoop env current [] p old).pool.w.store = p.w.store ∧
    (cleanupLoop env current [] p old).sched = [] ∧
    (cleanupLoop env current [] p old).pool.allErrs = p.allErrs ∧
    ∃ new, (cleanupLoop env current [] p old).pool.w.calls = p.w.calls ++ new ∧
      deletesOf new = [] ∧
      fetchesOf new <+: (old.filter deletable).map (fetchOf env p.w.store) ∧
      (cleanupLoop env current [] p old).pool.running
        = p.running ++ (startedFor current (fetchesOf new)).map (fun o => ⟨o, false⟩) := by
  intro old
  induction old with
  | nil =>
    intro p
    exact ⟨rfl, rfl, rfl, [], by simp [cleanupLoop], rfl, by simp [fetchesOf],
      by simp [cleanupLoop, fetchesOf, startedFor]⟩
  | cons mr rest ih =>
    intro p
    unfold cleanupLoop
    by_cases hp : mr.Policy = IgnorePolicy ∨ mr.Policy = KeepPolicy
    · rw [if_pos hp]
      have hd : deletable mr = false := by
        simp only [deletable, decide_eq_false_iff_not]; tauto
      rw [List.filter_cons_of_neg (by simp [hd])]
      exact ih p
    · rw [if_neg hp]
      have hd : deletable mr = true := by
        simp only [deletable, decide_eq_true_eq]; tauto
      rw [List.filter_cons_of_pos hd]
      simp only [List.headD_nil, List.foldl_nil, List.tail_nil]
      cases hg : env.Get p.w.store (kutilObjectKey mr.Resource.Name mr.Resource.Namespace)
          (ObjectFromTypedObjectReference mr.Resource) with
      | error err =>
        by_cases hnf : IsNotFound err = true
        · simp only [if_pos hnf]
          obtain ⟨h1, h2, h3, nr, h4, h5, h6, h7⟩ := ih
            { p with w := { p.w with calls := p.w.calls ++ [Call.get
              (kutilObjectKey mr.Resource.Name mr.Resource.Namespace)
              (ObjectFromTypedObjectReference mr.Resource) (.error err)] } }
          refine ⟨h1, h2, h3, Call.get (kutilObjectKey mr.Resource.Name mr.Resource.Namespace)
              (ObjectFromTypedObjectReference mr.Resource) (.error err) :: nr, ?_, ?_, ?_, ?_⟩
          · rw [h4]; simp
          · simpa [deletesOf] using h5
          · simpa [fetchesOf, fetchOf, hg, List.prefix_cons_inj] using h6
          · rw [h7]; simp [fetchesOf, startedFor]
        · simp only [if_neg hnf]
          refine ⟨trivial, trivial, trivial, [Call.get (kutilObjectKey mr.Resource.Name mr.Resource.Namespace)
              (ObjectFromTypedObjectReference mr.Resource) (.error err)], rfl, rfl, ?_, ?_⟩
          · simp [fetchesOf, fetchOf, hg, List.prefix_cons_inj]
          · simp [fetchesOf, startedFor]
      | ok obj =>
        simp only
        cases hc : containsUnstructuredObject obj current with
        | none =>
          refine ⟨rfl, rfl, rfl, [Call.get (kutilObjectKey mr.Resource.Name mr.Resource.Namespace)
              (ObjectFromTypedObjectReference mr.Resource) (.ok obj)], rfl, rfl, ?_, ?_⟩
          · simp [fetchesOf, fetchOf, hg, List.prefix_cons_inj]
          · simp [fetchesOf, startedFor, hc]
        | some b =>
          cases b with
          | true =>
            obtain ⟨h1, h2, h3, nr, h4, h5, h6, h7⟩ := ih
              { p with w := { p.w with calls := p.w.calls ++ [Call.get
                (kutilObjectKey mr.Resource.Name mr.Resource.Namespace)
                (ObjectFromTypedObjectReference mr.Resource) (.ok obj)] } }
            refine ⟨h1, h2, h3, Call.get (kutilObjectKey mr.Resource.Name mr.Resource.Namespace)
                (ObjectFromTypedObjectReference mr.Resource) (.ok obj) :: nr, ?_, ?_, ?_, ?_⟩
            · rw [h4]; simp
            · simpa [deletesOf] using h5
            · simpa [fetchesOf, fetchOf, hg, List.prefix_cons_inj] using h6
            · rw [h7]; simp [fetchesOf, startedFor, hc]
          | false =>
            obtain ⟨h1, h2, h3, nr, h4, h5, h6, h7⟩ := ih
              { w := { p.w with calls := p.w.calls ++ [Call.get
                  (kutilObjectKey mr.Resource.Name mr.Resource.Namespace)
                  (ObjectFromTypedObjectReference mr.Resource) (.ok obj)] },
                allErrs := p.allErrs,
                running := p.running ++ [⟨obj, false⟩] }
            refine ⟨h1, h2, h3, Call.get (kutilObjectKey mr.Resource.Name mr.Resource.Namespace)
                (ObjectFromTypedObjectReference mr.Resource) (.ok obj) :: nr, ?_, ?_, ?_, ?_⟩
            · rw [h4]; simp
            · simpa [deletesOf] using h5
            · simpa [fetchesOf, fetchOf, hg, List.prefix_cons_inj] using h6
            · rw [h7]; simp [fetchesOf, startedFor, hc]

/-- The method `cleanupOrphanedResources`, under every schedule and for every outcome: it issues
no write of the deploy item; every delete is the one of a goroutine started for the answer of
one of its gets, each goroutine deleting at most once; its gets are, in order, those of the
entries that are `deletable`, up to the one at which it stops. When every get finds the object
or reports not-found and no membership test meets a nil element, it returns, every goroutine
has issued its delete, and every `deletable` entry was fetched. -/
theorem cleanupOrphanedResources_spec {σ : Type} (env : Env σ) (w : World σ)
    (old : List ManagedResourceStatus) (current : List (Option Unstructured)) :
    ∃ new, (cleanupOrphanedResources env w old current).world.calls = w.calls ++ new ∧
      hostWritesOf new = [] ∧
      (deletesOf new).Subperm (startedFor current (fetchesOf new)) ∧
      (fetchesOf new).map (fun f => (f.key, f.obj)) <+: (old.filter deletable).map requestOf ∧
      ((∀ f ∈ fetchesOf new, foundOrGone f.res = true) →
        (∀ f ∈ fetchesOf new, ∀ o, f.res = .ok o →
          containsUnstructuredObject o current ≠ none) →
        (∃ res w', cleanupOrphanedResources env w old current = .returned (res, w')) ∧
        (deletesOf new).Perm (startedFor current (fetchesOf new)) ∧
        (fetchesOf new).map (fun f => (f.key, f.obj))
          = (old.filter deletable).map requestOf) := by
  obtain ⟨n0, h1, h2, h3, h4, h5, h6, h7⟩ :=
    cleanupLoop_spec env current old env.Schedule ⟨w, [], []⟩
  have h3' : (deletesOf n0 ++
      waiting (cleanupLoop env current env.Schedule ⟨w, [], []⟩ old).pool.running).Perm
      (startedFor current (fetchesOf n0)) := by simpa [waiting] using h3
  have hsub : (deletesOf n0).Subperm (startedFor current (fetchesOf n0)) :=
    (List.sublist_append_left _ _).subperm.trans h3'.subperm
  unfold cleanupOrphanedResources
  simp only
  cases hexit : (cleanupLoop env current env.Schedule ⟨w, [], []⟩ old).exit with
  | nilDeref =>
    refine ⟨n0, h1, h2, hsub, h4, ?_⟩
    intro _ hnil
    obtain ⟨f, hf, o, ho, hc⟩ := h7 hexit
    exact absurd hc (hnil f hf o ho)
  | failed err =>
    refine ⟨n0, h1, h2, hsub, h4, ?_⟩
    intro hget _
    obtain ⟨f, hf, hh⟩ := h6 err hexit
    rw [hget f hf] at hh
    cases hh
  | finished =>
    dsimp only
    obtain ⟨n2, k1, k2, k3, k4⟩ := foldl_stepGoroutine_spec env
      ((cleanupLoop env current env.Schedule ⟨w, [], []⟩ old).sched.headD [])
      (cleanupLoop env current env.Schedule ⟨w, [], []⟩ old).pool
    generalize ((cleanupLoop env current env.Schedule ⟨w, [], []⟩ old).sched.headD []).foldl
      (stepGoroutine env) (cleanupLoop env current env.Schedule ⟨w, [], []⟩ old).pool = p2
      at k1 k4 ⊢
    obtain ⟨n3, l1, l2, l3, l4⟩ := foldl_finishGoroutine_spec env p2.running (p2.w, p2.allErrs)
    have hf : fetchesOf (n0 ++ (n2 ++ n3)) = fetchesOf n0 := by
      simp [fetchesOf_append, k2, l2]
    have hperm : (deletesOf (n0 ++ (n2 ++ n3))).Perm
        (startedFor current (fetchesOf (n0 ++ (n2 ++ n3)))) := by
      rw [hf, deletesOf_append, deletesOf_append, l4]
      exact (k4.append_left _).trans h3'
    have hcalls : (p2.running.foldl (finishGoroutine env) (p2.w, p2.allErrs)).1.calls
        = w.calls ++ (n0 ++ (n2 ++ n3)) := by
      rw [l1, k1, h1]; simp
    have hall : ∃ new, (p2.running.foldl (finishGoroutine env) (p2.w, p2.allErrs)).1.calls
          = w.calls ++ new ∧
        hostWritesOf new = [] ∧
        (deletesOf new).Subperm (startedFor current (fetchesOf new)) ∧
        (fetchesOf new).map (fun f => (f.key, f.obj))
          <+: (old.filter deletable).map requestOf ∧
        (deletesOf new).Perm (startedFor current (fetchesOf new)) ∧
        (fetchesOf new).map (fun f => (f.key, f.obj))
          = (old.filter deletable).map requestOf :=
      ⟨_, hcalls, by simp [hostWritesOf_append, h2, k3, l3], hperm.subperm,
        by rw [hf]; exact h4, hperm, by rw [hf]; exact h5 hexit⟩
    obtain ⟨new, a1, a2, a3, a4, a5, a6⟩ := hall
    split
    · exact ⟨new, a1, a2, a3, a4, fun _ _ => ⟨⟨_, _, rfl⟩, a5, a6⟩⟩
    · exact ⟨new, a1, a2, a3, a4, fun _ _ => ⟨⟨_, _, rfl⟩, a5, a6⟩⟩

/-- The method `cleanupOrphanedResources` issues no write of the deploy item. -/
theorem cleanupOrphanedResources_hostWrites {σ : Type} (env : Env σ) (w : World σ)
    (old : List ManagedResourceStatus) (current : List (Option Unstructured)) :
    hostWritesOf (cleanupOrphanedResources env w old current).world.calls
      = hostWritesOf w.calls := by
  obtain ⟨new, h1, h2, _⟩ := cleanupOrphanedResources_spec env w old current
  rw [h1, hostWritesOf_append, h2, List.append_nil]

/-- The method `cleanupOrphanedResources` when no goroutine takes a step before the join:
every get reads the cluster as it was at the call, and the deletes are none, when the loop
returns early or panics, or else, in order, those for the answers of the gets. -/
theorem cleanupOrphanedResources_unscheduled {σ : Type} (env : Env σ) (w : World σ)
    (old : List ManagedResourceStatus) (current : List (Option Unstructured))
    (hs : env.Schedule = []) :
    ∃ new, (cleanupOrphanedResources env w old current).world.calls = w.calls ++ new ∧
      fetchesOf new <+: (old.filter deletable).map (fetchOf env w.store) ∧
      (deletesOf new = [] ∨ deletesOf new = startedFor current (fetchesOf new)) := by
  obtain ⟨h1, h2, h3, n0, h4, h5, h6, h7⟩ := cleanupLoop_unscheduled env current old ⟨w, [], []⟩
  unfold cleanupOrphanedResources
  simp only [hs]
  cases hexit : (cleanupLoop env current [] ⟨w, [], []⟩ old).exit with
  | nilDeref => exact ⟨n0, h4, h6, Or.inl h5⟩
  | failed err => exact ⟨n0, h4, h6, Or.inl h5⟩
  | finished =>
    simp only [h2, List.headD_nil, List.foldl_nil]
    obtain ⟨n3, l1, l2, l3, l4⟩ := foldl_finishGoroutine_spec env
      (cleanupLoop env current [] ⟨w, [], []⟩ old).pool.running
      ((cleanupLoop env current [] ⟨w, [], []⟩ old).pool.w,
       (cleanupLoop env current [] ⟨w, [], []⟩ old).pool.allErrs)
    have hcalls : ((cleanupLoop env current [] ⟨w, [], []⟩ old).pool.running.foldl
        (finishGoroutine env) ((cleanupLoop env current [] ⟨w, [], []⟩ old).pool.w,
          (cleanupLoop env current [] ⟨w, [], []⟩ old).pool.allErrs)).1.calls
        = w.calls ++ (n0 ++ n3) := by
      rw [l1, h4]; simp
    have hf : fetchesOf (n0 ++ n3) = fetchesOf n0 := by simp [fetchesOf_append, l2]
    have hd : deletesOf (n0 ++ n3) = startedFor current (fetchesOf (n0 ++ n3)) := by
      rw [hf, deletesOf_append, h5, l4, h7]
      simp [waiting, List.filter_map, Function.comp_def]
    split
    · exact ⟨_, hcalls, by rw [hf]; exact h6, Or.inr hd⟩
    · exact ⟨_, hcalls, by rw [hf]; exact h6, Or.inr hd⟩

/-- An entry under `Ignore` or `Keep` adds no orphan. -/
theorem orphansOf_cons_protected {σ : Type} (env : Env σ) (s : σ) (mr : ManagedResourceStatus)
    (rest : List ManagedResourceStatus) (current : List Unstructured)
    (hp : mr.Policy = IgnorePolicy ∨ mr.Policy = KeepPolicy) :
    orphansOf env s (mr :: rest) current = orphansOf env s rest current := by
  unfold orphansOf
  exact List.filterMap_cons_none (by simp only [if_pos hp])
/-- An entry whose get fails adds no orphan. -/
theorem orphansOf_cons_error {σ : Type} (env : Env σ) (s : σ) (mr : ManagedResourceStatus)
    (rest : List ManagedResourceStatus) (current : List Unstructured) (err : GoError)
    (hg : env.Get s (kutilObjectKey mr.Resource.Name mr.Resource.Namespace)
      (ObjectFromTypedObjectReference mr.Resource) = .error err) :
    orphansOf env s (mr :: rest) current = orphansOf env s rest current := by
  unfold orphansOf
  exact List.filterMap_cons_none (by simp only [hg, ite_self])
/-- An entry under neither `Ignore` nor `Keep` whose get finds `obj` adds `obj` to the orphans
iff no current object matches it. -/
theorem orphansOf_cons_found {σ : Type} (env : Env σ) (s : σ) (mr : ManagedResourceStatus)
    (rest : List ManagedResourceStatus) (current : List Unstructured) (obj : Unstructured)
    (hp : ¬ (mr.Policy = IgnorePolicy ∨ mr.Policy = KeepPolicy))
    (hg : env.Get s (kutilObjectKey mr.Resource.Name mr.Resource.Namespace)
      (ObjectFromTypedObjectReference mr.Resource) = .ok obj) :
    orphansOf env s (mr :: rest) current =
      if current.any (matchesObject obj) then orphansOf env s rest current
      else obj :: orphansOf env s rest current := by
  unfold orphansOf
  by_cases hm : current.any (matchesObject obj) = true
  · rw [if_pos hm]
    exact List.filterMap_cons_none (by simp only [hg, if_neg hp, if_pos hm])
  · rw [if_neg hm]
    exact List.filterMap_cons_some (by simp only [hg, if_neg hp, if_neg hm])

/-- On a list without nil elements the goroutines are started for exactly the orphans among
the answers of the gets. -/
theorem startedFor_map_some (current : List Unstructured) (fetches : List Fetch) :
    startedFor (current.map some) fetches = orphansFetched current fetches := by
  unfold startedFor orphansFetched
  congr 1
  funext f
  cases f.res with
  | error e => rfl
  | ok obj =>
    simp only [containsUnstructuredObject_eq_any, Option.some.injEq]
    cases current.any (matchesObject obj) <;> simp

/-- The orphans among the answers that the cluster `s` gives for the `deletable` entries are
the orphans of `s`. -/
theorem orphansFetched_fetchOf {σ : Type} (env : Env σ) (s : σ) (current : List Unstructured) :
    ∀ old : List ManagedResourceStatus,
    orphansFetched current ((old.filter deletable).map (fetchOf env s))
      = orphansOf env s old current := by
  intro old
  induction old with
  | nil => rfl
  | cons mr rest ih =>
    by_cases hp : mr.Policy = IgnorePolicy ∨ mr.Policy = KeepPolicy
    · have hd : deletable mr = false := by
        simp only [deletable, decide_eq_false_iff_not]; tauto
      rw [List.filter_cons_of_neg (by simp [hd]), ih,
        orphansOf_cons_protected env s mr rest current hp]
    · have hd : deletable mr = true := by
        simp only [deletable, decide_eq_true_eq]; tauto
      rw [List.filter_cons_of_pos hd, List.map_cons]
      cases hg : env.Get s (kutilObjectKey mr.Resource.Name mr.Resource.Namespace)
          (ObjectFromTypedObjectReference mr.Resource) with
      | error err =>
        rw [orphansOf_cons_error env s mr rest current err hg, ← ih]
        unfold orphansFetched
        exact List.filterMap_cons_none (by simp [fetchOf, hg])
      | ok obj =>
        rw [orphansOf_cons_found env s mr rest current obj hp hg, ← ih]
        unfold orphansFetched
        cases hm : current.any (matchesObject obj) with
        | true =>
          simp only [if_true, List.nil_append]
          exact List.filterMap_cons_none (by simp [fetchOf, hg, hm])
        | false =>
          simp only [Bool.false_eq_true, if_false, List.singleton_append]
          exact List.filterMap_cons_some (by simp [fetchOf, hg, hm])

/-- The objects that the cluster `s` answers for the `deletable` entries. -/
theorem foundBy_fetchOf {σ : Type} (env : Env σ) (s : σ) (l : List ManagedResourceStatus) :
    foundBy (l.map (fetchOf env s)) = l.filterMap (fetched env s) := by
  unfold foundBy
  rw [List.filterMap_map]
  congr 1

/-- A goroutine is started only for an object that a get found. -/
theorem startedFor_sublist_foundBy (current : List (Option Unstructured)) :
    ∀ fetches : List Fetch, (startedFor current fetches).Sublist (foundBy fetches) := by
  intro fetches
  induction fetches with
  | nil => exact List.Sublist.slnil
  | cons f rest ih =>
    cases hf : f.res with
    | error e =>
      have h1 : startedFor current (f :: rest) = startedFor current rest :=
        List.filterMap_cons_none (by simp [hf])
      have h2 : foundBy (f :: rest) = foundBy rest :=
        List.filterMap_cons_none (by simp [hf])
      rw [h1, h2]
      exact ih
    | ok obj =>
      have h2 : foundBy (f :: rest) = obj :: foundBy rest :=
        List.filterMap_cons_some (by simp [hf])
      rw [h2]
      by_cases hc : containsUnstructuredObject obj current = some false
      · have h1 : startedFor current (f :: rest) = obj :: startedFor current rest :=
          List.filterMap_cons_some (by simp [hf, hc])
        rw [h1]
        exact ih.cons₂ _
      · have h1 : startedFor current (f :: rest) = startedFor current rest :=
          List.filterMap_cons_none (by simp [hf, hc])
        rw [h1]
        exact ih.cons _

/-- C4, as stated, fails, in two ways. When the get of the previous entry `a` fails with a
server error, `cleanupOrphanedResources` returns at once; the entry `b` is under `Manage`, is
found in the cluster and matches no current object, and yet no delete is issued for it. And
when the list of current objects holds a nil element before `a`, the membership test for the
fetched `a` dereferences it: the call panics, again with no delete issued for `b`. -/
theorem cleanup_aborts_on_get_error :
    (orphansOf (memEnv getOfAFails) [objA, objB]
        [entryOf ManagePolicy "a", entryOf ManagePolicy "b"] [] = [objB] ∧
      deletesOf (cleanupOrphanedResources (memEnv getOfAFails) (worldOf [objA, objB])
        [entryOf ManagePolicy "a", entryOf ManagePolicy "b"] []).world.calls = [] ∧
      (cleanupOrphanedResources (memEnv getOfAFails) (worldOf [objA, objB])
        [entryOf ManagePolicy "a", entryOf ManagePolicy "b"] []).world.store = [objA, objB]) ∧
    (orphansOf (memEnv Fixture.plain) [objA, objB]
        [entryOf ManagePolicy "a", entryOf ManagePolicy "b"] [objA] = [objB] ∧
      (∃ w, cleanupOrphanedResources (memEnv Fixture.plain) (worldOf [objA, objB])
        [entryOf ManagePolicy "a", entryOf ManagePolicy "b"] [none, some objA]
        = .panicked w) ∧
      deletesOf (cleanupOrphanedResources (memEnv Fixture.plain) (worldOf [objA, objB])
        [entryOf ManagePolicy "a", entryOf ManagePolicy "b"] [none, some objA]).world.calls
        = []) :=
  ⟨by decide, by decide, ⟨_, rfl⟩, by decide⟩

/-- C4, amended: for a list of current objects without nil elements, under every schedule of
the goroutines, when every get that `cleanupOrphanedResources` issues finds the object or
reports not-found, it returns; its gets are, in order, those of the previous entries whose
policy is neither `Ignore` nor `Keep`; and the deletes it issues are, up to their order, exactly
the fetched objects that match no current object, one delete for each. When no goroutine takes
a step before the join, the gets read the cluster as it was at the call and the deletes are in
the order of the entries. A fetched object matches a current one iff both carry an identifier
and the identifiers are equal, or one of them carries none and group-kind, name and namespace
are equal. -/
theorem cleanup_deletes_exactly_orphans {σ : Type} (env : Env σ) (w : World σ)
    (old : List ManagedResourceStatus) (current : List Unstructured)
    (hget : ∀ f ∈ fetchesOf (callsSince w.calls
        (cleanupOrphanedResources env w old (current.map some)).world.calls),
      foundOrGone f.res = true) :
    (∃ res w' new,
      cleanupOrphanedResources env w old (current.map some) = .returned (res, w') ∧
      w'.calls = w.calls ++ new ∧
      (fetchesOf new).map (fun f => (f.key, f.obj)) = (old.filter deletable).map requestOf ∧
      (deletesOf new).Perm (orphansFetched current (fetchesOf new)) ∧
      (env.Schedule = [] →
        fetchesOf new = (old.filter deletable).map (fetchOf env w.store) ∧
        deletesOf new = orphansOf env w.store old current)) ∧
    (∀ fetched, containsUnstructuredObject fetched (current.map some) = some true ↔
      ∃ c ∈ current,
        (fetched.UID ≠ "" ∧ c.UID ≠ "" ∧ fetched.UID = c.UID) ∨
        ((fetched.UID = "" ∨ c.UID = "") ∧
          fetched.GroupVersionKind.GroupKind = c.GroupVersionKind.GroupKind ∧
          fetched.Name = c.Name ∧ fetched.Namespace = c.Namespace)) := by
  constructor
  · obtain ⟨new, h1, _, _, _, h5⟩ :=
      cleanupOrphanedResources_spec env w old (current.map some)
    have hget' : ∀ f ∈ fetchesOf new, foundOrGone f.res = true := by
      intro f hf
      apply hget f
      rw [h1]
      simpa [callsSince] using hf
    have hnil : ∀ f ∈ fetchesOf new, ∀ o, f.res = .ok o →
        containsUnstructuredObject o (current.map some) ≠ none := by
      intro f _ o _
      rw [containsUnstructuredObject_eq_any]
      exact Option.some_ne_none _
    obtain ⟨⟨res, w', hret⟩, hperm, hreq⟩ := h5 hget' hnil
    rw [hret] at h1
    refine ⟨res, w', new, hret, h1, hreq, ?_, ?_⟩
    · rw [← startedFor_map_some]; exact hperm
    · intro hs
      obtain ⟨new', k1, k2, k3⟩ :=
        cleanupOrphanedResources_unscheduled env w old (current.map some) hs
      rw [hret] at k1
      have hnew : new' = new := List.append_cancel_left (k1.symm.trans h1)
      subst hnew
      have hlen : (fetchesOf new').length
          = ((old.filter deletable).map (fetchOf env w.store)).length := by
        have := congrArg List.length hreq
        simpa using this
      have hfe : fetchesOf new' = (old.filter deletable).map (fetchOf env w.store) :=
        k2.eq_of_length hlen
      refine ⟨hfe, ?_⟩
      have hst : startedFor (current.map some) (fetchesOf new')
          = orphansOf env w.store old current := by
        rw [startedFor_map_some, hfe, orphansFetched_fetchOf]
      cases k3 with
      | inr h => rw [h, hst]
      | inl h =>
        rw [h] at hperm
        rw [h, ← hst]
        exact (List.perm_nil.mp hperm.symm).symm
  · intro fetched
    rw [containsUnstructuredObject_eq_any]
    simp only [Option.some.injEq, List.any_eq_true, matchesObject, Bool.or_eq_true,
      Bool.and_eq_true, bne_iff_ne, ne_eq, beq_iff_eq]
    constructor
    · rintro ⟨c, hc, h⟩
      exact ⟨c, hc, by tauto⟩
    · rintro ⟨c, hc, h⟩
      exact ⟨c, hc, by tauto⟩

/-- Witness for C4, amended: previous entries `a` (identifier 1) and `b` (identifier 2), both
in the cluster, and the current render `a` (identifier 1): both are fetched and found, and
exactly `b` is deleted. -/
theorem cleanup_deletes_exactly_orphans_witness :
    (∀ f ∈ fetchesOf (callsSince (worldOf [objA, objB]).calls
        (cleanupOrphanedResources (memEnv Fixture.plain) (worldOf [objA, objB])
          [entryOf ManagePolicy "a", entryOf ManagePolicy "b"] ([objA].map some)).world.calls),
      foundOrGone f.res = true) ∧
    (∃ res w' new,
      cleanupOrphanedResources (memEnv Fixture.plain) (worldOf [objA, objB])
        [entryOf ManagePolicy "a", entryOf ManagePolicy "b"] ([objA].map some)
        = .returned (res, w') ∧
      w'.calls = (worldOf [objA, objB]).calls ++ new ∧
      (fetchesOf new).map (fun f => (f.key, f.obj))
        = ([entryOf ManagePolicy "a", entryOf ManagePolicy "b"].filter deletable).map
            requestOf ∧
      (deletesOf new).Perm (orphansFetched [objA] (fetchesOf new)) ∧
      ((memEnv Fixture.plain).Schedule = [] →
        fetchesOf new = ([entryOf ManagePolicy "a", entryOf ManagePolicy "b"].filter
            deletable).map (fetchOf (memEnv Fixture.plain) (worldOf [objA, objB]).store) ∧
        deletesOf new = orphansOf (memEnv Fixture.plain) (worldOf [objA, objB]).store
          [entryOf ManagePolicy "a", entryOf ManagePolicy "b"] [objA])) ∧
    deletesOf (cleanupOrphanedResources (memEnv Fixture.plain) (worldOf [objA, objB])
      [entryOf ManagePolicy "a", entryOf ManagePolicy "b"] ([objA].map some)).world.calls
      = [objB] :=
  ⟨by decide,
   (cleanup_deletes_exactly_orphans (memEnv Fixture.plain) (worldOf [objA, objB])
      [entryOf ManagePolicy "a", entryOf ManagePolicy "b"] [objA] (by decide)).1,
   by decide⟩

/-- The schedule matters: two previous entries record the same config map `b`, which is in the
cluster and not rendered any more. When the goroutines run at the join, both gets find `b` and
a delete is issued for each; when the goroutine of the first entry issues its delete before the
second get, that get reports not-found and one delete is issued. -/
theorem cleanup_depends_on_schedule :
    deletesOf (cleanupOrphanedResources (memEnv Fixture.plain) (worldOf [objB])
      [entryOf ManagePolicy "b", entryOf ManagePolicy "b"] []).world.calls = [objB, objB] ∧
    deletesOf (cleanupOrphanedResources (memEnv deleteBeforeSecondGet) (worldOf [objB])
      [entryOf ManagePolicy "b", entryOf ManagePolicy "b"] []).world.calls = [objB] ∧
    (fetchesOf (cleanupOrphanedResources (memEnv deleteBeforeSecondGet) (worldOf [objB])
      [entryOf ManagePolicy "b", entryOf ManagePolicy "b"] []).world.calls).map (fun f => f.res)
      = [.ok objB, .error ⟨"not found", true⟩] := by
  decide

/-! ## Deletes never touch `Keep` and `Ignore` -/

/-- C5: under every schedule of the goroutines, whatever the current render and the cluster
are and whether it returns or panics, every delete that `cleanupOrphanedResources` issues is
the delete of an object that one of its gets found, no two deletes for the same get, and its
gets are, in order, gets of recorded entries whose policy is neither `Keep` nor `Ignore`; when
no goroutine takes a step before the join, the deletes are, in order, fetched objects of
distinct such entries, as the cluster answers at the call. The deletes that `Delete` issues
are, in order, the objects of distinct recorded entries whose policy is neither `Keep` nor
`Ignore`. When every recorded entry is under `Keep` or `Ignore`, neither issues any delete. -/
theorem deletes_spare_keep_and_ignore {σ : Type} (env : Env σ) (m : Manifest) (w : World σ)
    (old : List ManagedResourceStatus) (current : List (Option Unstructured)) :
    (∃ ds, deletesOf (cleanupOrphanedResources env w old current).world.calls
        = deletesOf w.calls ++ ds ∧
      (∃ new, (cleanupOrphanedResources env w old current).world.calls = w.calls ++ new ∧
        ds = deletesOf new ∧
        ds.Subperm (foundBy (fetchesOf new)) ∧
        (fetchesOf new).map (fun f => (f.key, f.obj))
          <+: (old.filter deletable).map requestOf) ∧
      (env.Schedule = [] →
        ds.Sublist ((old.filter deletable).filterMap (fetched env w.store))) ∧
      ((∀ mr ∈ old, mr.Policy = IgnorePolicy ∨ mr.Policy = KeepPolicy) → ds = [])) ∧
    (∃ ds, deletesOf (Delete env m w).w.calls = deletesOf w.calls ++ ds ∧
      ds.Sublist (((managedOf m).filter deletable).map
        (fun mr => ObjectFromTypedObjectReference mr.Resource)) ∧
      ((∀ mr ∈ managedOf m, mr.Policy = IgnorePolicy ∨ mr.Policy = KeepPolicy) → ds = [])) := by
  have hnone : ∀ l : List ManagedResourceStatus,
      (∀ mr ∈ l, mr.Policy = IgnorePolicy ∨ mr.Policy = KeepPolicy) → l.filter deletable = [] := by
    intro l hl
    rw [List.filter_eq_nil_iff]
    intro mr hm
    have := hl mr hm
    simp only [deletable, decide_eq_true_eq]
    tauto
  constructor
  · obtain ⟨new, h1, _, h3, h4, _⟩ := cleanupOrphanedResources_spec env w old current
    have hsub : (deletesOf new).Subperm (foundBy (fetchesOf new)) :=
      h3.trans (startedFor_sublist_foundBy current (fetchesOf new)).subperm
    refine ⟨deletesOf new, by rw [h1, deletesOf_append], ⟨new, h1, rfl, hsub, h4⟩, ?_, ?_⟩
    · intro hs
      obtain ⟨new', k1, k2, k3⟩ := cleanupOrphanedResources_unscheduled env w old current hs
      have hnew : new' = new := List.append_cancel_left (k1.symm.trans h1)
      subst hnew
      have hfound : (foundBy (fetchesOf new')).Sublist
          ((old.filter deletable).filterMap (fetched env w.store)) := by
        rw [← foundBy_fetchOf]
        exact k2.sublist.filterMap _
      cases k3 with
      | inl h => rw [h]; exact List.nil_sublist _
      | inr h =>
        rw [h]
        exact (startedFor_sublist_foundBy current (fetchesOf new')).trans hfound
    · intro hall
      rw [hnone old hall] at h4
      have hf : fetchesOf new = [] := by simpa using h4
      rw [hf] at hsub
      simpa [foundBy] using hsub
  · have hm : (m.setPhase ExecutionPhase.Deleting).ProviderStatus = m.ProviderStatus := rfl
    unfold Delete
    simp only [hm]
    cases hps : m.ProviderStatus with
    | none =>
      exact ⟨[], by simp [(releaseFinalizer_calls env _ w).1], by simp, fun _ => rfl⟩
    | some ps =>
      simp only [managedOf, hps]
      by_cases hlen : ps.ManagedResources.length = 0
      · rw [if_pos hlen]
        exact ⟨[], by simp [(releaseFinalizer_calls env _ w).1], by simp, fun _ => rfl⟩
      · rw [if_neg hlen]
        cases htc : env.TargetClient with
        | some err => exact ⟨[], by simp, by simp, fun _ => rfl⟩
        | none =>
          simp only
          cases hloop : deleteLoop env (m.setPhase ExecutionPhase.Deleting)
              ps.ManagedResources w true with
          | inl r =>
            obtain ⟨new, e, h1, _, _, _, _, _, h7⟩ := deleteLoop_inl env _ _ _ _ _ hloop
            refine ⟨deletesOf new, by simp [h1, deletesOf_append], h7.sublist, ?_⟩
            intro hall
            have h7' := h7
            rw [show (fun mr : ManagedResourceStatus => decide (mr.Policy ≠ IgnorePolicy ∧
              mr.Policy ≠ KeepPolicy)) = deletable from rfl, hnone _ hall] at h7'
            simpa using h7'
          | inr p =>
            obtain ⟨w', c'⟩ := p
            obtain ⟨new, h1, _, _, h4⟩ := deleteLoop_inr env _ _ _ _ _ _ hloop
            have h4' : deletesOf new = (ps.ManagedResources.filter deletable).map
                (fun mr => ObjectFromTypedObjectReference mr.Resource) := h4
            simp only
            have hall : ((∀ mr ∈ ps.ManagedResources,
                mr.Policy = IgnorePolicy ∨ mr.Policy = KeepPolicy) → deletesOf new = []) := by
              intro hall
              rw [h4', hnone _ hall]; rfl
            cases c' with
            | true =>
              refine ⟨deletesOf new, ?_, by rw [h4'], hall⟩
              simp [(releaseFinalizer_calls env _ w').1, h1, deletesOf_append]
            | false =>
              refine ⟨deletesOf new, ?_, by rw [h4'], hall⟩
              simp [h1, deletesOf_append]

/-! ## Reconcile: the persisted status -/

/-- C1: when the conversion to a `RawExtension` puts the object it is given into the blob, as
`Convert_runtime_Object_To_runtime_RawExtension` does, then, whenever `Reconcile` returns
without error, the status blob on the deploy item holds a `ProviderStatus` of the deployer's
group-version with exactly one `ManagedResources` entry per manifest, the deploy item with that
blob is what the last call, a successful status update, persisted, and for every index `i` the
`i`-th manifest decodes and the `i`-th entry holds its policy and the `APIVersion`, `Kind`,
`Name` and `Namespace` of the decoded object, whatever the policy is. -/
theorem Reconcile_records_every_manifest {σ : Type} (env : Env σ) (m : Manifest) (w : World σ)
    (r : Result σ)
    (hconv : ∀ status blob, env.ConvertStatus status = .ok blob → blob.Object = some status)
    (h : Reconcile env m w = .returned r) (hok : r.err = none) :
    ∃ status statusData,
      encodeStatus env status = .ok statusData ∧
      r.m.DeployItem.Status.ProviderStatus = some statusData ∧
      statusData.Object = some status ∧
      status.TypeMeta = ⟨env.SchemeGroupVersion, "ProviderStatus"⟩ ∧
      (∃ calls, r.w.calls = calls ++ [Call.statusUpdate r.m.DeployItem none]) ∧
      status.ManagedResources.length = m.ProviderConfiguration.Manifests.length ∧
      ∀ (i : Nat) (manifestData : ManifestEntry),
        m.ProviderConfiguration.Manifests[i]? = some manifestData →
        ∃ obj, env.DecodeManifest manifestData.Raw = .ok obj ∧
          status.ManagedResources[i]? = some
            ({ Policy := manifestData.Policy,
               Resource := { APIVersion := obj.APIVersion, Kind := obj.Kind,
                             Name := obj.Name, Namespace := obj.Namespace } } :
              ManagedResourceStatus) := by
  unfold Reconcile at h
  cases htc : env.TargetClient with
  | some err =>
    simp only [htc, Outcome.returned.injEq] at h
    subst h
    simp at hok
  | none =>
    simp only [htc] at h
    cases hloop : reconcileManifests env 0 (m.setPhase ExecutionPhase.Progressing).ProviderConfiguration.Manifests
        ⟨m.setPhase ExecutionPhase.Progressing, w,
          List.replicate (List.replicate
            (m.setPhase ExecutionPhase.Progressing).ProviderConfiguration.Manifests.length
            (none : Option Unstructured)).length ManagedResourceStatus.zero,
          List.replicate (m.setPhase ExecutionPhase.Progressing).ProviderConfiguration.Manifests.length
            none⟩ with
    | inl r' =>
      simp only [hloop, Outcome.returned.injEq] at h
      subst h
      obtain ⟨_, _, e, he⟩ := reconcileManifests_inl env _ _ _ _ hloop
      rw [he] at hok
      cases hok
    | inr st =>
      simp only [hloop] at h
      obtain ⟨h1, h2, h3, h4, h5⟩ := reconcileManifests_inr env _ _ _ _ hloop
      simp only [List.length_replicate] at h3 h5
      have hn : (m.setPhase ExecutionPhase.Progressing).ProviderConfiguration.Manifests
          = m.ProviderConfiguration.Manifests := rfl
      -- once the status is persisted
      have fin : ∀ w1 : World σ,
          r = reconcilePersist env st.m w1
            ⟨⟨env.SchemeGroupVersion, "ProviderStatus"⟩, st.ManagedResources⟩ →
          ∃ status statusData,
            encodeStatus env status = .ok statusData ∧
            r.m.DeployItem.Status.ProviderStatus = some statusData ∧
            statusData.Object = some status ∧
            status.TypeMeta = ⟨env.SchemeGroupVersion, "ProviderStatus"⟩ ∧
            (∃ calls, r.w.calls = calls ++ [Call.statusUpdate r.m.DeployItem none]) ∧
            status.ManagedResources.length = m.ProviderConfiguration.Manifests.length ∧
            ∀ (i : Nat) (manifestData : ManifestEntry),
        m.ProviderConfiguration.Manifests[i]? = some manifestData →
              ∃ obj, env.DecodeManifest manifestData.Raw = .ok obj ∧
                status.ManagedResources[i]? = some
                  ({ Policy := manifestData.Policy,
                     Resource := { APIVersion := obj.APIVersion, Kind := obj.Kind,
                                   Name := obj.Name, Namespace := obj.Namespace } } :
                    ManagedResourceStatus) := by
        intro w1 hr
        subst hr
        obtain ⟨statusData, he1, he2, he3⟩ := reconcilePersist_ok env st.m w1 _ hok
        refine ⟨_, statusData, he1, he2, hconv _ _ he1, rfl, ⟨_, he3⟩, h3, ?_⟩
        intro i md hi
        have hlt : i < m.ProviderConfiguration.Manifests.length := by
          rcases List.getElem?_eq_some_iff.mp hi with ⟨hlt, _⟩
          exact hlt
        have := h5 i md hi (by rw [hn]; omega)
        simpa [entryFor] using this
      cases hps : st.m.ProviderStatus with
      | none =>
        simp only [hps, Outcome.returned.injEq] at h
        exact fin st.w h.symm
      | some old =>
        simp only [hps] at h
        cases hcl : cleanupOrphanedResources env st.w old.ManagedResources st.objects with
        | panicked w1 => simp [hcl] at h
        | returned p =>
          obtain ⟨res, w1⟩ := p
          cases res with
          | some err =>
            simp only [hcl, Outcome.returned.injEq] at h
            subst h
            simp at hok
          | none =>
            simp only [hcl, Outcome.returned.injEq] at h
            exact fin w1 h.symm

/-- Witness for C1: the manifests `a` under `Ignore` and `b` under `Manage` on an empty
cluster; the status that the persisted blob holds lists both, in order. -/
theorem Reconcile_records_every_manifest_witness :
    (∀ status blob, (memEnv decodesAandB).ConvertStatus status = .ok blob →
      blob.Object = some status) ∧
    ∃ r, Reconcile (memEnv decodesAandB) ignoresAManagesB (worldOf []) = .returned r ∧
      r.err = none ∧
      ∃ status statusData,
        r.m.DeployItem.Status.ProviderStatus = some statusData ∧
        statusData.Object = some status ∧
        status = statusOf [entryOf IgnorePolicy "a", entryOf ManagePolicy "b"] := by
  have hconv : ∀ status blob, (memEnv decodesAandB).ConvertStatus status = .ok blob →
      blob.Object = some status := by
    intro status blob hb
    cases hb
    rfl
  have hrun : ∃ r, Reconcile (memEnv decodesAandB) ignoresAManagesB (worldOf []) = .returned r ∧
      r.err = none ∧
      (r.m.DeployItem.Status.ProviderStatus.bind (fun blob => blob.Object))
        = some (statusOf [entryOf IgnorePolicy "a", entryOf ManagePolicy "b"]) :=
    ⟨_, rfl, by decide, by decide⟩
  obtain ⟨r, hr, hok, hval⟩ := hrun
  obtain ⟨status, statusData, _, h2, h3, _⟩ :=
    Reconcile_records_every_manifest (memEnv decodesAandB) ignoresAManagesB (worldOf []) r
      hconv hr hok
  refine ⟨hconv, r, hr, hok, status, statusData, h2, h3, ?_⟩
  rw [h2] at hval
  change statusData.Object = _ at hval
  rw [h3] at hval
  exact Option.some.inj hval

/-! ## Reconcile: failures commit nothing -/

/-- C7: when the target client is obtained and the loop of `Reconcile` returns from inside
(a manifest does not decode, or `ApplyObject` fails on it), `Reconcile` returns that error, the
status blob of the deploy item is the one it had before the call, no write of the deploy item
was issued, and the world at return is the one reached at the failing manifest: the manifests
before it were processed, and nothing after it was touched. When the loop ends and orphan
cleanup fails, `Reconcile` returns the wrapped error, again with the status blob unchanged and
no write of the deploy item issued. -/
theorem Reconcile_failure_commits_nothing {σ : Type} (env : Env σ) (m : Manifest) (w : World σ)
    (htc : env.TargetClient = none) :
    (∀ r, reconcileManifests env 0 m.ProviderConfiguration.Manifests (reconcileStart m w) = .inl r →
      Reconcile env m w = .returned r ∧ (∃ e, r.err = some e) ∧
      r.m.DeployItem.Status.ProviderStatus = m.DeployItem.Status.ProviderStatus ∧
      hostWritesOf r.w.calls = hostWritesOf w.calls ∧
      ∃ k manifestData st, m.ProviderConfiguration.Manifests[k]? = some manifestData ∧
        reconcileManifests env 0 (m.ProviderConfiguration.Manifests.take k) (reconcileStart m w)
          = .inr st ∧
        failsAt env st manifestData r) ∧
    (∀ st old err w',
      reconcileManifests env 0 m.ProviderConfiguration.Manifests (reconcileStart m w) = .inr st →
      m.ProviderStatus = some old →
      cleanupOrphanedResources env st.w old.ManagedResources st.objects
        = .returned (some err, w') →
      ∃ r, Reconcile env m w = .returned r ∧
        r.err = some (Errorf "unable to cleanup orphaned resources: " err) ∧
        r.m.DeployItem.Status.ProviderStatus = m.DeployItem.Status.ProviderStatus ∧
        hostWritesOf r.w.calls = hostWritesOf w.calls) := by
  constructor
  · intro r hloop
    obtain ⟨h1, h2, h3⟩ := reconcileManifests_inl env _ _ _ _ hloop
    refine ⟨?_, h3, ?_, h2, reconcileManifests_first_failure env _ _ _ _ hloop⟩
    · unfold Reconcile
      simp only [htc]
      unfold reconcileStart at hloop
      simp only [List.length_replicate]
      rw [show (m.setPhase ExecutionPhase.Progressing).ProviderConfiguration
        = m.ProviderConfiguration from rfl, hloop]
    · have := congrArg (fun x : Manifest => x.DeployItem.Status.ProviderStatus) h1
      exact this
  · intro st old err w' hloop hps hcl
    obtain ⟨h1, h2, _⟩ := reconcileManifests_inr env _ _ _ _ hloop
    have hps' : st.m.ProviderStatus = some old := by rw [h1]; exact hps
    have hcw := cleanupOrphanedResources_hostWrites env st.w old.ManagedResources st.objects
    rw [hcl] at hcw
    refine ⟨⟨some (Errorf "unable to cleanup orphaned resources: " err),
      st.m.setLastError (UpdatedError st.m.DeployItem.Status.LastError
        "ReconcileManifests" "CleanupOrphanedResources" err.msg), w'⟩, ?_, rfl, ?_,
      hcw.trans h2⟩
    · unfold Reconcile
      simp only [htc]
      unfold reconcileStart at hloop
      simp only [List.length_replicate]
      rw [show (m.setPhase ExecutionPhase.Progressing).ProviderConfiguration
        = m.ProviderConfiguration from rfl, hloop]
      simp only [hps', hcl]
    · rw [h1]; rfl
/-- Witness for C7: of three manifests the second does not decode; `Reconcile` returns the
decode error, the status blob is the one before the call, the deploy item was never written,
and the cluster holds the first config map only. -/
theorem Reconcile_failure_commits_nothing_witness :
    (memEnv decodesAandC).TargetClient = none ∧
    ∃ r, Reconcile (memEnv decodesAandC) secondManifestMalformed (worldOf []) = .returned r ∧
      r.err = some ⟨"manifest does not decode", false⟩ ∧
      r.m.DeployItem.Status.ProviderStatus
        = secondManifestMalformed.DeployItem.Status.ProviderStatus ∧
      hostWritesOf r.w.calls = [] ∧
      r.w.store = [configMap "a" "uid-a" [(ManagedDeployItemLabel, "di")] []] := by
  have hloop : ∃ r, reconcileManifests (memEnv decodesAandC) 0
      secondManifestMalformed.ProviderConfiguration.Manifests
      (reconcileStart secondManifestMalformed (worldOf [])) = .inl r ∧
      r.err = some ⟨"manifest does not decode", false⟩ ∧
      r.w.store = [configMap "a" "uid-a" [(ManagedDeployItemLabel, "di")] []] :=
    ⟨_, rfl, by decide, by decide⟩
  obtain ⟨r, hr, he, hs⟩ := hloop
  obtain ⟨h1, _, h3, h4, _⟩ := (Reconcile_failure_commits_nothing (memEnv decodesAandC)
    secondManifestMalformed (worldOf []) rfl).1 r hr
  exact ⟨rfl, r, h1, he, h3, h4, hs⟩

/-! ## Reconcile: nil elements among the current objects -/

/-- C13: at the failing input. At the second reconcile of a configuration that lists `a` under
`Ignore` before `b` under `Manage`, the loop leaves the slot of `a` nil, the list passed to
`cleanupOrphanedResources` is `[nil, b]`, the membership test for the fetched `b` dereferences
the nil element, and `Reconcile` panics. -/
theorem Reconcile_panics_on_ignored_manifest :
    (∃ st, reconcileManifests (memEnv decodesAandB) 0
        ignoresAManagesBAgain.ProviderConfiguration.Manifests
        (reconcileStart ignoresAManagesBAgain (worldOf [liveB])) = .inr st ∧
      st.objects = [none, some liveB] ∧
      containsUnstructuredObject liveB st.objects = none) ∧
    ∃ w, Reconcile (memEnv decodesAandB) ignoresAManagesBAgain (worldOf [liveB])
      = .panicked w :=
  ⟨⟨_, rfl, by decide, by decide⟩, ⟨_, rfl⟩⟩

/-! ## Error paths and `LastError` -/

/-- Every error that `ApplyObject` returns, by the step that failed: the get (with anything
but not-found), the create, the update, the patch, or the check of the update strategy, each
recorded in `LastError` under the operation `ApplyObjects` with its reason and the message of
the returned error; or the merge of the required fields, after which the receiver is
unchanged. -/
theorem ApplyObject_error_paths {σ : Type} (env : Env σ) (m : Manifest) (w : World σ)
    (policy : ManifestPolicy) (obj : Unstructured) (e : GoError)
    (herr : (ApplyObject env m w policy obj).err = some e) :
    (env.Get w.store (keyOf obj) (currObjOf obj) = .error e ∧ IsNotFound e = false ∧
      (ApplyObject env m w policy obj).m.DeployItem.Status.LastError
        = some ⟨"ApplyObjects", "GetObject", e.msg⟩) ∨
    (∃ nf cause, env.Get w.store (keyOf obj) (currObjOf obj) = .error nf ∧
      IsNotFound nf = true ∧
      (env.Create w.store (stamped m obj)).1 = .error cause ∧
      e = Errorf ("unable to create resource " ++ (keyOf obj).String ++ ": ") cause ∧
      (ApplyObject env m w policy obj).m.DeployItem.Status.LastError
        = some ⟨"ApplyObjects", "CreateObject", e.msg⟩) ∨
    (∃ live merged, env.Get w.store (keyOf obj) (currObjOf obj) = .ok live ∧
      env.SetRequiredNestedFieldsFromObj live (stamped m obj) = .ok merged ∧
      ((m.ProviderConfiguration.UpdateStrategy = UpdateStrategyUpdate ∧
          ∃ cause, (env.Update w.store merged).1 = .error cause ∧
            e = Errorf ("unable to update resource " ++ (keyOf obj).String ++ ": ") cause) ∨
        (m.ProviderConfiguration.UpdateStrategy = UpdateStrategyPatch ∧
          ∃ cause, (env.Patch w.store live merged).1 = .error cause ∧
            e = Errorf ("unable to patch resource " ++ (keyOf obj).String ++ ": ") cause) ∨
        (m.ProviderConfiguration.UpdateStrategy ≠ UpdateStrategyUpdate ∧
          m.ProviderConfiguration.UpdateStrategy ≠ UpdateStrategyPatch ∧
          e = errorsNew (m.ProviderConfiguration.UpdateStrategy
            ++ " is not a valid update strategy"))) ∧
      (ApplyObject env m w policy obj).m.DeployItem.Status.LastError
        = some ⟨"ApplyObjects", "ApplyObject", e.msg⟩) ∨
    (∃ live, env.Get w.store (keyOf obj) (currObjOf obj) = .ok live ∧
      env.SetRequiredNestedFieldsFromObj live (stamped m obj) = .error e ∧
      (ApplyObject env m w policy obj).m = m) := by
  unfold ApplyObject at herr ⊢
  simp only at herr ⊢
  cases hg : env.Get w.store (keyOf obj) (currObjOf obj) with
  | error err =>
    simp only [hg] at herr ⊢
    cases hnf : IsNotFound err with
    | false =>
      simp only [hnf, Bool.not_false, if_true, Option.some.injEq] at herr ⊢
      subst herr
      exact Or.inl ⟨rfl, hnf, rfl⟩
    | true =>
      simp only [hnf, Bool.not_true, Bool.false_eq_true, if_false] at herr ⊢
      cases hc : (env.Create w.store (stamped m obj)).1 with
      | error cause =>
        simp only [hc, Option.some.injEq] at herr ⊢
        subst herr
        exact Or.inr (Or.inl ⟨err, cause, rfl, hnf, rfl, rfl, rfl⟩)
      | ok created =>
        simp only [hc] at herr
        cases herr
  | ok live =>
    simp only [hg] at herr ⊢
    by_cases hfb : policy = FallbackPolicy ∧
        (!HasLabelWithValue obj ManagedDeployItemLabel m.DeployItem.Name) = true
    · simp only [if_pos hfb] at herr
      cases herr
    · simp only [if_neg hfb] at herr ⊢
      cases hm : env.SetRequiredNestedFieldsFromObj live (stamped m obj) with
      | error err =>
        simp only [hm, Option.some.injEq] at herr ⊢
        subst herr
        exact Or.inr (Or.inr (Or.inr ⟨live, rfl, hm, trivial⟩))
      | ok merged =>
        simp only [hm] at herr ⊢
        by_cases hu : m.ProviderConfiguration.UpdateStrategy = UpdateStrategyUpdate
        · simp only [if_pos hu] at herr ⊢
          cases hupd : (env.Update w.store merged).1 with
          | error cause =>
            simp only [hupd, Option.some.injEq] at herr ⊢
            subst herr
            exact Or.inr (Or.inr (Or.inl ⟨live, merged, rfl, hm,
              Or.inl ⟨hu, cause, hupd, rfl⟩, rfl⟩))
          | ok updated =>
            simp only [hupd] at herr
            cases herr
        · simp only [if_neg hu] at herr ⊢
          by_cases hp : m.ProviderConfiguration.UpdateStrategy = UpdateStrategyPatch
          · simp only [if_pos hp] at herr ⊢
            cases hpat : (env.Patch w.store live merged).1 with
            | error cause =>
              simp only [hpat, Option.some.injEq] at herr ⊢
              subst herr
              exact Or.inr (Or.inr (Or.inl ⟨live, merged, rfl, hm,
                Or.inr (Or.inl ⟨hp, cause, hpat, rfl⟩), rfl⟩))
            | ok patched =>
              simp only [hpat] at herr
              cases herr
          · simp only [if_neg hp, Option.some.injEq] at herr ⊢
            subst herr
            exact Or.inr (Or.inr (Or.inl ⟨live, merged, rfl, hm,
              Or.inr (Or.inr ⟨hu, hp, rfl⟩), rfl⟩))

/-- When the loop of `Reconcile` returns from inside, there is a first failing manifest: the
loop over the manifests before it runs to its end, and either that manifest does not decode,
which is recorded in `LastError` with its index, or `ApplyObject` fails on it and the loop
returns what `ApplyObject` left. -/
theorem reconcileManifests_failure_paths {σ : Type} (env : Env σ) :
    ∀ (ms : List ManifestEntry) (i : Nat) (st : ReconcileState σ) (r : Result σ),
    reconcileManifests env i ms st = .inl r →
    ∃ k md st', ms[k]? = some md ∧
      reconcileManifests env i (ms.take k) st = .inr st' ∧
      ((∃ e, env.DecodeManifest md.Raw = .error e ∧ r.err = some e ∧
          r.m.DeployItem.Status.LastError = some ⟨"ReconcileManifests", "DecodeManifest",
            "error while decoding manifest at index " ++ toString (i + k) ++ ": " ++ e.msg⟩) ∨
        (∃ obj e, env.DecodeManifest md.Raw = .ok obj ∧ md.Policy ≠ IgnorePolicy ∧
          (ApplyObject env st'.m st'.w md.Policy obj).err = some e ∧ r.err = some e ∧
          r.m = (ApplyObject env st'.m st'.w md.Policy obj).m)) := by
  intro ms
  induction ms with
  | nil => intro i st r h; simp [reconcileManifests] at h
  | cons md rest ih =>
    intro i st r h
    unfold reconcileManifests at h
    cases hdec : env.DecodeManifest md.Raw with
    | error err =>
      simp only [hdec, Sum.inl.injEq] at h
      subst h
      exact ⟨0, md, st, by simp, by simp [reconcileManifests], Or.inl ⟨err, hdec, rfl, rfl⟩⟩
    | ok obj =>
      simp only [hdec] at h
      by_cases hpol : md.Policy = IgnorePolicy
      · rw [if_pos hpol] at h
        obtain ⟨k, md', st', hk, hpre, hf⟩ := ih (i + 1)
          { st with ManagedResources := st.ManagedResources.set i (entryFor md obj) } r h
        rw [show i + 1 + k = i + (k + 1) by omega] at hf
        refine ⟨k + 1, md', st', by simpa using hk, ?_, hf⟩
        rw [List.take_succ_cons]
        unfold reconcileManifests
        simp only [hdec, if_pos hpol]
        exact hpre
      · rw [if_neg hpol] at h
        cases herr : (ApplyObject env st.m st.w md.Policy obj).err with
        | some e =>
          simp only [herr, Sum.inl.injEq] at h
          subst h
          exact ⟨0, md, st, by simp, by simp [reconcileManifests],
            Or.inr ⟨obj, e, hdec, hpol, herr, rfl, rfl⟩⟩
        | none =>
          simp only [herr] at h
          obtain ⟨k, md', st', hk, hpre, hf⟩ := ih (i + 1) { st with
            m := (ApplyObject env st.m st.w md.Policy obj).m,
            w := (ApplyObject env st.m st.w md.Policy obj).w,
            ManagedResources := st.ManagedResources.set i (entryFor md obj),
            objects := st.objects.set i (some (ApplyObject env st.m st.w md.Policy obj).obj) }
            r h
          rw [show i + 1 + k = i + (k + 1) by omega] at hf
          refine ⟨k + 1, md', st', by simpa using hk, ?_, hf⟩
          rw [List.take_succ_cons]
          unfold reconcileManifests
          simp only [hdec, if_neg hpol, herr]
          exact hpre

/-- Every error that the end of `Reconcile` returns: the one of the encoding of the status, or
the one of the status update, which is the last call; each is recorded in `LastError` under
the operation `ReconcileManifests` with its reason and its message. -/
theorem reconcilePersist_error_paths {σ : Type} (env : Env σ) (m : Manifest) (w : World σ)
    (status : ProviderStatus) (e : GoError)
    (he : (reconcilePersist env m w status).err = some e) :
    (encodeStatus env status = .error e ∧
      (reconcilePersist env m w status).m.DeployItem.Status.LastError
        = some ⟨"ReconcileManifests", "ProviderStatus", e.msg⟩) ∨
    (∃ blob di, encodeStatus env status = .ok blob ∧
      di.Status.ProviderStatus = some blob ∧
      (reconcilePersist env m w status).w.calls = w.calls ++ [Call.statusUpdate di (some e)] ∧
      (reconcilePersist env m w status).m.DeployItem.Status.LastError
        = some ⟨"ReconcileManifests", "UpdateStatus", e.msg⟩) := by
  unfold reconcilePersist at he ⊢
  cases henc : encodeStatus env status with
  | error err =>
    simp only [henc, Option.some.injEq] at he ⊢
    subst he
    exact Or.inl ⟨rfl, rfl⟩
  | ok blob =>
    simp only [henc] at he ⊢
    cases hupd : (env.StatusUpdate w.store { m.DeployItem with
        Status := { m.DeployItem.Status with ProviderStatus := some blob } }).1 with
    | none => simp [hupd] at he
    | some err =>
      simp only [hupd, Option.some.injEq] at he ⊢
      subst he
      exact Or.inr ⟨blob, _, rfl, rfl, rfl, rfl⟩

/-- Every error that `Reconcile` returns, by the step that failed: obtaining the target
client, the decoding of a manifest, `ApplyObject` on a manifest (then `Reconcile` returns what
`ApplyObject` left), the orphan cleanup, the encoding of the status, or the status update. But
for `ApplyObject`, each is recorded in `LastError` under the operation `ReconcileManifests`
with its reason and a message: the message of the returned error, or, for a manifest that does
not decode, that message after the index of the manifest, or, for the cleanup, the message of
the error of the cleanup, which is returned wrapped. -/
theorem Reconcile_error_paths {σ : Type} (env : Env σ) (m : Manifest) (w : World σ)
    (r : Result σ) (e : GoError)
    (h : Reconcile env m w = .returned r) (he : r.err = some e) :
    (env.TargetClient = some e ∧
      r.m.DeployItem.Status.LastError
        = some ⟨"ReconcileManifests", "TargetClusterClient", e.msg⟩) ∨
    (env.TargetClient = none ∧
      ((∃ k md st, m.ProviderConfiguration.Manifests[k]? = some md ∧
          reconcileManifests env 0 (m.ProviderConfiguration.Manifests.take k)
            (reconcileStart m w) = .inr st ∧
          ((env.DecodeManifest md.Raw = .error e ∧
              r.m.DeployItem.Status.LastError = some ⟨"ReconcileManifests", "DecodeManifest",
                "error while decoding manifest at index " ++ toString k ++ ": " ++ e.msg⟩) ∨
            (∃ obj, env.DecodeManifest md.Raw = .ok obj ∧ md.Policy ≠ IgnorePolicy ∧
              (ApplyObject env st.m st.w md.Policy obj).err = some e ∧
              r.m = (ApplyObject env st.m st.w md.Policy obj).m))) ∨
        (∃ st, reconcileManifests env 0 m.ProviderConfiguration.Manifests
            (reconcileStart m w) = .inr st ∧
          ((∃ old cause w', m.ProviderStatus = some old ∧
              cleanupOrphanedResources env st.w old.ManagedResources st.objects
                = .returned (some cause, w') ∧
              e = Errorf "unable to cleanup orphaned resources: " cause ∧
              r.m.DeployItem.Status.LastError
                = some ⟨"ReconcileManifests", "CleanupOrphanedResources", cause.msg⟩) ∨
            (encodeStatus env ⟨⟨env.SchemeGroupVersion, "ProviderStatus"⟩, st.ManagedResources⟩
                = .error e ∧
              r.m.DeployItem.Status.LastError
                = some ⟨"ReconcileManifests", "ProviderStatus", e.msg⟩) ∨
            (∃ blob di calls,
              encodeStatus env ⟨⟨env.SchemeGroupVersion, "ProviderStatus"⟩, st.ManagedResources⟩
                = .ok blob ∧
              di.Status.ProviderStatus = some blob ∧
              r.w.calls = calls ++ [Call.statusUpdate di (some e)] ∧
              r.m.DeployItem.Status.LastError
                = some ⟨"ReconcileManifests", "UpdateStatus", e.msg⟩))))) := by
  unfold Reconcile at h
  cases htc : env.TargetClient with
  | some err =>
    simp only [htc, Outcome.returned.injEq] at h
    subst h
    simp only [Option.some.injEq] at he
    subst he
    exact Or.inl ⟨rfl, rfl⟩
  | none =>
    refine Or.inr ⟨rfl, ?_⟩
    simp only [htc, List.length_replicate] at h
    have hn : (m.setPhase ExecutionPhase.Progressing).ProviderConfiguration
        = m.ProviderConfiguration := rfl
    rw [hn] at h
    have hstart : (⟨m.setPhase ExecutionPhase.Progressing, w,
        List.replicate m.ProviderConfiguration.Manifests.length ManagedResourceStatus.zero,
        List.replicate m.ProviderConfiguration.Manifests.length none⟩ : ReconcileState σ)
        = reconcileStart m w := rfl
    rw [hstart] at h
    have persist : ∀ (st : ReconcileState σ) (w1 : World σ),
        r = reconcilePersist env st.m w1
          ⟨⟨env.SchemeGroupVersion, "ProviderStatus"⟩, st.ManagedResources⟩ →
        (encodeStatus env ⟨⟨env.SchemeGroupVersion, "ProviderStatus"⟩, st.ManagedResources⟩
            = .error e ∧
          r.m.DeployItem.Status.LastError
            = some ⟨"ReconcileManifests", "ProviderStatus", e.msg⟩) ∨
        (∃ blob di calls,
          encodeStatus env ⟨⟨env.SchemeGroupVersion, "ProviderStatus"⟩, st.ManagedResources⟩
            = .ok blob ∧
          di.Status.ProviderStatus = some blob ∧
          r.w.calls = calls ++ [Call.statusUpdate di (some e)] ∧
          r.m.DeployItem.Status.LastError
            = some ⟨"ReconcileManifests", "UpdateStatus", e.msg⟩) := by
      intro st w1 hr
      subst hr
      rcases reconcilePersist_error_paths env st.m w1 _ e he with ⟨h1, h2⟩ | ⟨b, di, h1, h2, h3, h4⟩
      · exact Or.inl ⟨h1, h2⟩
      · exact Or.inr ⟨b, di, _, h1, h2, h3, h4⟩
    cases hloop : reconcileManifests env 0 m.ProviderConfiguration.Manifests
        (reconcileStart m w) with
    | inl r' =>
      simp only [hloop, Outcome.returned.injEq] at h
      subst h
      obtain ⟨k, md, st, hk, hpre, hf⟩ := reconcileManifests_failure_paths env _ _ _ _ hloop
      refine Or.inl ⟨k, md, st, hk, hpre, ?_⟩
      rw [Nat.zero_add] at hf
      rcases hf with ⟨e', hd, he', hle⟩ | ⟨obj, e', hd, hpol, ha, he', hm⟩
      · rw [he] at he'
        cases he'
        exact Or.inl ⟨hd, hle⟩
      · rw [he] at he'
        cases he'
        exact Or.inr ⟨obj, hd, hpol, ha, hm⟩
    | inr st =>
      refine Or.inr ⟨st, rfl, ?_⟩
      simp only [hloop] at h
      obtain ⟨h1, _⟩ := reconcileManifests_inr env _ _ _ _ hloop
      have hps : st.m.ProviderStatus = m.ProviderStatus := by rw [h1]; rfl
      cases hold : st.m.ProviderStatus with
      | none =>
        simp only [hold, Outcome.returned.injEq] at h
        exact Or.inr (persist st st.w h.symm)
      | some old =>
        simp only [hold] at h
        cases hcl : cleanupOrphanedResources env st.w old.ManagedResources st.objects with
        | panicked w1 => simp [hcl] at h
        | returned p =>
          obtain ⟨res, w1⟩ := p
          cases res with
          | some cause =>
            simp only [hcl, Outcome.returned.injEq] at h
            subst h
            simp only [Option.some.injEq] at he
            subst he
            exact Or.inl ⟨old, cause, w1, by rw [← hps, hold], hcl, rfl, rfl⟩
          | none =>
            simp only [hcl, Outcome.returned.injEq] at h
            exact Or.inr (persist st w1 h.symm)

/-- Every error that `CheckResourcesHealth` returns, by the step that failed: the decoding of
the persisted status, after which the receiver is unchanged; the readiness probe, which is
recorded in `LastError` under the operation `CheckResourcesHealthManifests` with its reason
and the message of the error; or the final status update, which is the last call and is
issued with `LastError` cleared. -/
theorem CheckResourcesHealth_error_paths {σ : Type} (env : Env σ) (m : Manifest) (w : World σ)
    (r : Result σ) (e : GoError)
    (h : CheckResourcesHealth env m w = .returned r) (he : r.err = some e) :
    ∃ blob, m.DeployItem.Status.ProviderStatus = some blob ∧
      ((env.DecodeStatus blob.Raw = .error e ∧ r.m = m) ∨
        (∃ status, env.DecodeStatus blob.Raw = .ok status ∧
          (((env.WaitObjectsReady w.store (status.ManagedResources.map (fun mr =>
                if mr.Policy = IgnorePolicy then none
                else some (ObjectFromTypedObjectReference mr.Resource)))).1 = some e ∧
              r.m.DeployItem.Status.LastError = some
                ⟨"CheckResourcesHealthManifests", "CheckResourcesReadiness", e.msg⟩) ∨
            ((env.WaitObjectsReady w.store (status.ManagedResources.map (fun mr =>
                if mr.Policy = IgnorePolicy then none
                else some (ObjectFromTypedObjectReference mr.Resource)))).1 = none ∧
              r.w.calls = w.calls ++ [Call.statusUpdate r.m.DeployItem (some e)] ∧
              r.m.DeployItem.Status.LastError = none)))) := by
  unfold CheckResourcesHealth at h
  cases hps : m.DeployItem.Status.ProviderStatus with
  | none => simp [hps] at h
  | some blob =>
    refine ⟨blob, rfl, ?_⟩
    simp only [hps] at h
    cases hd : env.DecodeStatus blob.Raw with
    | error err =>
      simp only [hd, Outcome.returned.injEq] at h
      subst h
      simp only [Option.some.injEq] at he
      subst he
      exact Or.inl ⟨rfl, rfl⟩
    | ok status =>
      refine Or.inr ⟨status, rfl, ?_⟩
      simp only [hd] at h
      split at h
      · simp only [Outcome.returned.injEq] at h
        subst h
        cases he
      · cases hpr : (env.WaitObjectsReady w.store (status.ManagedResources.map (fun mr =>
            if mr.Policy = IgnorePolicy then none
            else some (ObjectFromTypedObjectReference mr.Resource)))).1 with
        | some err =>
          simp only [hpr, Outcome.returned.injEq] at h
          subst h
          simp only [Option.some.injEq] at he
          subst he
          exact Or.inl ⟨rfl, rfl⟩
        | none =>
          simp only [hpr, Outcome.returned.injEq] at h
          subst h
          simp only at he
          refine Or.inr ⟨rfl, ?_, rfl⟩
          simp only [he]

/-- Every error that `Delete` returns, by the step that failed: obtaining the target client, or
a delete answered with anything but not-found, each recorded in `LastError` under the
operation `DeleteManifests` with its reason and the message of the error; or the loop ended
with a delete that succeeded, and the error is "not all items are deleted" with `LastError`
cleared; or the update of the deploy item, which is the last call, and `LastError` is as it
was. -/
theorem Delete_error_paths {σ : Type} (env : Env σ) (m : Manifest) (w : World σ)
    (e : GoError) (he : (Delete env m w).err = some e) :
    (managedOf m ≠ [] ∧ env.TargetClient = some e ∧
      (Delete env m w).m.DeployItem.Status.LastError
        = some ⟨"DeleteManifests", "TargetClusterClient", e.msg⟩) ∨
    (∃ new, (Delete env m w).w.calls = w.calls ++ new ∧
      ((some e ∈ deleteResults new ∧ IsNotFound e = false ∧
          (Delete env m w).m.DeployItem.Status.LastError
            = some ⟨"DeleteManifests", "DeleteManifest", e.msg⟩) ∨
        ((∀ res ∈ deleteResults new, res = none ∨ goneResponse res = true) ∧
          none ∈ deleteResults new ∧
          e = errorsNew "not all items are deleted" ∧
          (Delete env m w).m.DeployItem.Status.LastError = none) ∨
        ((∀ res ∈ deleteResults new, goneResponse res = true) ∧
          (∃ before, new = before ++
            [Call.updateDeployItem (Delete env m w).m.DeployItem (some e)]) ∧
          (Delete env m w).m.DeployItem.Status.LastError
            = m.DeployItem.Status.LastError))) := by
  have hrel : ∀ (w0 : World σ) (new0 : List Call), w0.calls = w.calls ++ new0 →
      (∀ res ∈ deleteResults new0, goneResponse res = true) →
      (releaseFinalizer env (m.setPhase ExecutionPhase.Deleting) w0).err = some e →
      ∃ new, (releaseFinalizer env (m.setPhase ExecutionPhase.Deleting) w0).w.calls
          = w.calls ++ new ∧
        (∀ res ∈ deleteResults new, goneResponse res = true) ∧
        (∃ before, new = before ++ [Call.updateDeployItem
          (releaseFinalizer env (m.setPhase ExecutionPhase.Deleting) w0).m.DeployItem
          (some e)]) ∧
        (releaseFinalizer env (m.setPhase ExecutionPhase.Deleting) w0).m.DeployItem.Status.LastError
          = m.DeployItem.Status.LastError := by
    intro w0 new0 hc hg hr
    simp only [releaseFinalizer] at hr ⊢
    refine ⟨new0 ++ [Call.updateDeployItem _ (some e)], ?_, ?_, ⟨new0, rfl⟩, rfl⟩
    · rw [hc, hr, List.append_assoc]
    · intro res hres
      rw [deleteResults_append] at hres
      simp only [deleteResults, List.filterMap_cons, List.filterMap_nil, List.append_nil] at hres
      exact hg res hres
  have hm : (m.setPhase ExecutionPhase.Deleting).ProviderStatus = m.ProviderStatus := rfl
  unfold Delete at he ⊢
  simp only [hm] at he ⊢
  cases hps : m.ProviderStatus with
  | none =>
    simp only [hps] at he ⊢
    obtain ⟨new, h1, h2, h3, h4⟩ := hrel w [] (by simp) (by simp [deleteResults]) he
    exact Or.inr ⟨new, h1, Or.inr (Or.inr ⟨h2, h3, h4⟩)⟩
  | some ps =>
    simp only [hps] at he ⊢
    by_cases hlen : ps.ManagedResources.length = 0
    · simp only [if_pos hlen] at he ⊢
      obtain ⟨new, h1, h2, h3, h4⟩ := hrel w [] (by simp) (by simp [deleteResults]) he
      exact Or.inr ⟨new, h1, Or.inr (Or.inr ⟨h2, h3, h4⟩)⟩
    · simp only [if_neg hlen] at he ⊢
      have hne : managedOf m ≠ [] := by
        simp only [managedOf, hps]
        intro h0
        exact hlen (by rw [h0]; rfl)
      cases htc : env.TargetClient with
      | some err =>
        simp only [htc, Option.some.injEq] at he ⊢
        subst he
        exact Or.inl ⟨hne, rfl, rfl⟩
      | none =>
        simp only [htc] at he ⊢
        cases hloop : deleteLoop env (m.setPhase ExecutionPhase.Deleting)
            ps.ManagedResources w true with
        | inl r =>
          simp only [hloop] at he ⊢
          obtain ⟨new, e', h1, h2, h3, h4, h5, _⟩ := deleteLoop_inl env _ _ _ _ _ hloop
          rw [h2] at he
          cases he
          exact Or.inr ⟨new, h1, Or.inl ⟨h5, h3, by rw [h4]; rfl⟩⟩
        | inr p =>
          obtain ⟨w', c'⟩ := p
          obtain ⟨new, h1, h2, h3, _⟩ := deleteLoop_inr env _ _ _ _ _ _ hloop
          simp only [hloop] at he ⊢
          cases c' with
          | true =>
            simp only [Bool.not_true, Bool.false_eq_true, if_false] at he ⊢
            obtain ⟨new', k1, k2, k3, k4⟩ := hrel w' new h1 (h3.mp rfl).2 he
            exact Or.inr ⟨new', k1, Or.inr (Or.inr ⟨k2, k3, k4⟩)⟩
          | false =>
            simp only [Bool.not_false, if_true, Option.some.injEq] at he ⊢
            subst he
            refine Or.inr ⟨new, h1, Or.inr (Or.inl ⟨h2, ?_, rfl, rfl⟩)⟩
            by_contra hnone
            have hall : ∀ res ∈ deleteResults new, goneResponse res = true := by
              intro res hres
              rcases h2 res hres with h0 | h0
              · subst h0; exact absurd hres hnone
              · exact h0
            have := h3.mpr ⟨rfl, hall⟩
            cases this

/-- C8, as stated, fails. With the config maps `a` and `b` recorded under `Manage`, `a` still
in the cluster and an earlier error recorded on the deploy item, `Delete` returns the error
"not all items are deleted" and `LastError` is nil at return. Four more returns record nothing:
`ApplyObject` returns the error of the merge of the required fields with `LastError` nil;
`CheckResourcesHealth` returns the error of the decoding of the status with the error of an
earlier reconcile still in `LastError`, and the error of its final status update with
`LastError` nil; `Delete` returns the error of the update of the deploy item with `LastError`
nil. -/
theorem Delete_incomplete_clears_LastError :
    ((Delete (memEnv Fixture.plain) managesAandBAfterError (worldOf [objA])).err
        = some (errorsNew "not all items are deleted") ∧
      (Delete (memEnv Fixture.plain) managesAandBAfterError
        (worldOf [objA])).m.DeployItem.Status.LastError = none) ∧
    ((ApplyObject (memEnv mergeOfCmFails) (sampleManifest UpdateStrategyUpdate [] none)
        (worldOf [liveOwned]) ManagePolicy desiredPlain).err
        = some ⟨"merge rejected", false⟩ ∧
      (ApplyObject (memEnv mergeOfCmFails) (sampleManifest UpdateStrategyUpdate [] none)
        (worldOf [liveOwned]) ManagePolicy desiredPlain).m.DeployItem.Status.LastError
        = none) ∧
    (∃ r, CheckResourcesHealth (memEnv Fixture.plain) (progressingWith "garbled") (worldOf [])
        = .returned r ∧
      r.err = some ⟨"status does not decode", false⟩ ∧
      r.m.DeployItem.Status.LastError
        = some ⟨"ReconcileManifests", "UpdateStatus", "conflict"⟩) ∧
    (∃ r, CheckResourcesHealth (memEnv hostUpdateFails) (progressingWith "one-resource")
        (worldOf [objA]) = .returned r ∧
      r.err = some ⟨"conflict", false⟩ ∧
      r.m.DeployItem.Status.LastError = none) ∧
    ((Delete (memEnv hostUpdateFails) (sampleManifest UpdateStrategyUpdate [] none)
        (worldOf [])).err = some ⟨"conflict", false⟩ ∧
      (Delete (memEnv hostUpdateFails) (sampleManifest UpdateStrategyUpdate [] none)
        (worldOf [])).m.DeployItem.Status.LastError = none) :=
  ⟨by decide, by decide, ⟨_, rfl, by decide, by decide⟩, ⟨_, rfl, by decide, by decide⟩,
    by decide⟩

/-- C8, amended: every error that one of the four operations returns, by the step that failed.
`ApplyObject`: a get that fails with anything but not-found, a create, an update or a patch that
fails, or an invalid update strategy is recorded in `LastError` as operation `ApplyObjects`,
with the reason of the step and the message of the returned error; otherwise the merge of the
required fields failed and the receiver is unchanged. `Reconcile`: a failure to obtain the
target client, a manifest that does not decode, a failed orphan cleanup, a status that cannot
be encoded and a failed status update are recorded as operation `ReconcileManifests` with the
reason of the step, the message being the one of the returned error, but for the manifest
(the same message after its index) and the cleanup (the message of the cleanup error, which is
returned wrapped); otherwise `ApplyObject` failed on a manifest and `Reconcile` returns what it
left. `CheckResourcesHealth`: a failed readiness probe is recorded as operation
`CheckResourcesHealthManifests`; otherwise the status did not decode and the receiver is
unchanged, or the final status update failed, with `LastError` cleared. `Delete`: a failure to
obtain the target client and a delete answered with anything but not-found are recorded as
operation `DeleteManifests`; otherwise the error is "not all items are deleted" with
`LastError` cleared, or the update of the deploy item failed and `LastError` is as it was. -/
theorem error_paths_record_LastError {σ : Type} (env : Env σ) (m : Manifest) (w : World σ) :
    (∀ (policy : ManifestPolicy) (obj : Unstructured) (e : GoError),
      (ApplyObject env m w policy obj).err = some e →
      (env.Get w.store (keyOf obj) (currObjOf obj) = .error e ∧ IsNotFound e = false ∧
        (ApplyObject env m w policy obj).m.DeployItem.Status.LastError
          = some ⟨"ApplyObjects", "GetObject", e.msg⟩) ∨
      (∃ nf cause, env.Get w.store (keyOf obj) (currObjOf obj) = .error nf ∧
        IsNotFound nf = true ∧
        (env.Create w.store (stamped m obj)).1 = .error cause ∧
        e = Errorf ("unable to create resource " ++ (keyOf obj).String ++ ": ") cause ∧
        (ApplyObject env m w policy obj).m.DeployItem.Status.LastError
          = some ⟨"ApplyObjects", "CreateObject", e.msg⟩) ∨
      (∃ live merged, env.Get w.store (keyOf obj) (currObjOf obj) = .ok live ∧
        env.SetRequiredNestedFieldsFromObj live (stamped m obj) = .ok merged ∧
        ((m.ProviderConfiguration.UpdateStrategy = UpdateStrategyUpdate ∧
            ∃ cause, (env.Update w.store merged).1 = .error cause ∧
              e = Errorf ("unable to update resource " ++ (keyOf obj).String ++ ": ") cause) ∨
          (m.ProviderConfiguration.UpdateStrategy = UpdateStrategyPatch ∧
            ∃ cause, (env.Patch w.store live merged).1 = .error cause ∧
              e = Errorf ("unable to patch resource " ++ (keyOf obj).String ++ ": ") cause) ∨
          (m.ProviderConfiguration.UpdateStrategy ≠ UpdateStrategyUpdate ∧
            m.ProviderConfiguration.UpdateStrategy ≠ UpdateStrategyPatch ∧
            e = errorsNew (m.ProviderConfiguration.UpdateStrategy
              ++ " is not a valid update strategy"))) ∧
        (ApplyObject env m w policy obj).m.DeployItem.Status.LastError
          = some ⟨"ApplyObjects", "ApplyObject", e.msg⟩) ∨
      (∃ live, env.Get w.store (keyOf obj) (currObjOf obj) = .ok live ∧
        env.SetRequiredNestedFieldsFromObj live (stamped m obj) = .error e ∧
        (ApplyObject env m w policy obj).m = m)) ∧
    (∀ (r : Result σ) (e : GoError), Reconcile env m w = .returned r → r.err = some e →
      (env.TargetClient = some e ∧
        r.m.DeployItem.Status.LastError
          = some ⟨"ReconcileManifests", "TargetClusterClient", e.msg⟩) ∨
      (env.TargetClient = none ∧
        ((∃ k md st, m.ProviderConfiguration.Manifests[k]? = some md ∧
            reconcileManifests env 0 (m.ProviderConfiguration.Manifests.take k)
              (reconcileStart m w) = .inr st ∧
            ((env.DecodeManifest md.Raw = .error e ∧
                r.m.DeployItem.Status.LastError = some ⟨"ReconcileManifests", "DecodeManifest",
                  "error while decoding manifest at index " ++ toString k ++ ": " ++ e.msg⟩) ∨
              (∃ obj, env.DecodeManifest md.Raw = .ok obj ∧ md.Policy ≠ IgnorePolicy ∧
                (ApplyObject env st.m st.w md.Policy obj).err = some e ∧
                r.m = (ApplyObject env st.m st.w md.Policy obj).m))) ∨
          (∃ st, reconcileManifests env 0 m.ProviderConfiguration.Manifests
              (reconcileStart m w) = .inr st ∧
            ((∃ old cause w', m.ProviderStatus = some old ∧
                cleanupOrphanedResources env st.w old.ManagedResources st.objects
                  = .returned (some cause, w') ∧
                e = Errorf "unable to cleanup orphaned resources: " cause ∧
                r.m.DeployItem.Status.LastError
                  = some ⟨"ReconcileManifests", "CleanupOrphanedResources", cause.msg⟩) ∨
              (encodeStatus env ⟨⟨env.SchemeGroupVersion, "ProviderStatus"⟩, st.ManagedResources⟩
                  = .error e ∧
                r.m.DeployItem.Status.LastError
                  = some ⟨"ReconcileManifests", "ProviderStatus", e.msg⟩) ∨
              (∃ blob di calls,
                encodeStatus env ⟨⟨env.SchemeGroupVersion, "ProviderStatus"⟩, st.ManagedResources⟩
                  = .ok blob ∧
                di.Status.ProviderStatus = some blob ∧
                r.w.calls = calls ++ [Call.statusUpdate di (some e)] ∧
                r.m.DeployItem.Status.LastError
                  = some ⟨"ReconcileManifests", "UpdateStatus", e.msg⟩)))))) ∧
    (∀ (r : Result σ) (e : GoError),
      CheckResourcesHealth env m w = .returned r → r.err = some e →
      ∃ blob, m.DeployItem.Status.ProviderStatus = some blob ∧
        ((env.DecodeStatus blob.Raw = .error e ∧ r.m = m) ∨
          (∃ status, env.DecodeStatus blob.Raw = .ok status ∧
            (((env.WaitObjectsReady w.store (status.ManagedResources.map (fun mr =>
                  if mr.Policy = IgnorePolicy then none
                  else some (ObjectFromTypedObjectReference mr.Resource)))).1 = some e ∧
                r.m.DeployItem.Status.LastError = some
                  ⟨"CheckResourcesHealthManifests", "CheckResourcesReadiness", e.msg⟩) ∨
              ((env.WaitObjectsReady w.store (status.ManagedResources.map (fun mr =>
                  if mr.Policy = IgnorePolicy then none
                  else some (ObjectFromTypedObjectReference mr.Resource)))).1 = none ∧
                r.w.calls = w.calls ++ [Call.statusUpdate r.m.DeployItem (some e)] ∧
                r.m.DeployItem.Status.LastError = none))))) ∧
    (∀ e : GoError, (Delete env m w).err = some e →
      (managedOf m ≠ [] ∧ env.TargetClient = some e ∧
        (Delete env m w).m.DeployItem.Status.LastError
          = some ⟨"DeleteManifests", "TargetClusterClient", e.msg⟩) ∨
      (∃ new, (Delete env m w).w.calls = w.calls ++ new ∧
        ((some e ∈ deleteResults new ∧ IsNotFound e = false ∧
            (Delete env m w).m.DeployItem.Status.LastError
              = some ⟨"DeleteManifests", "DeleteManifest", e.msg⟩) ∨
          ((∀ res ∈ deleteResults new, res = none ∨ goneResponse res = true) ∧
            none ∈ deleteResults new ∧
            e = errorsNew "not all items are deleted" ∧
            (Delete env m w).m.DeployItem.Status.LastError = none) ∨
          ((∀ res ∈ deleteResults new, goneResponse res = true) ∧
            (∃ before, new = before ++
              [Call.updateDeployItem (Delete env m w).m.DeployItem (some e)]) ∧
            (Delete env m w).m.DeployItem.Status.LastError
              = m.DeployItem.Status.LastError)))) :=
  ⟨fun policy obj e herr => ApplyObject_error_paths env m w policy obj e herr,
   fun r e h he => Reconcile_error_paths env m w r e h he,
   fun r e h he => CheckResourcesHealth_error_paths env m w r e h he,
   fun e he => Delete_error_paths env m w e he⟩

/-- Witness for C8, amended: a cluster in which the create of `cm` and the delete of `b` are
rejected and the readiness probe fails; the errors that `ApplyObject`, `CheckResourcesHealth`
and `Delete` return are recorded under their operations, with their reasons and messages. -/
theorem error_paths_record_LastError_witness :
    (ApplyObject (memEnv failingCluster) progressingManagesAandB (worldOf [objA, objB])
        KeepPolicy desiredPlain).m.DeployItem.Status.LastError
      = some ⟨"ApplyObjects", "CreateObject",
          "unable to create resource default/cm: create rejected"⟩ ∧
    (∃ r, CheckResourcesHealth (memEnv failingCluster) progressingManagesAandB
        (worldOf [objA, objB]) = .returned r ∧ r.err = some ⟨"not ready", false⟩ ∧
      r.m.DeployItem.Status.LastError
        = some ⟨"CheckResourcesHealthManifests", "CheckResourcesReadiness", "not ready"⟩) ∧
    (Delete (memEnv failingCluster) progressingManagesAandB
        (worldOf [objA, objB])).m.DeployItem.Status.LastError
      = some ⟨"DeleteManifests", "DeleteManifest", "delete rejected"⟩ := by
  have h := error_paths_record_LastError (memEnv failingCluster) progressingManagesAandB
    (worldOf [objA, objB])
  refine ⟨?_, ?_, ?_⟩
  · have hg : (memEnv failingCluster).Get (worldOf [objA, objB]).store (keyOf desiredPlain)
        (currObjOf desiredPlain) = .error ⟨"not found", true⟩ := by decide
    rcases h.1 KeepPolicy desiredPlain
        ⟨"unable to create resource default/cm: create rejected", false⟩ (by decide) with
      h1 | ⟨_, _, _, _, _, _, h2⟩ | ⟨live, _, h3, _⟩ | ⟨live, h4, _⟩
    · rw [hg] at h1
      exact absurd h1.1 (by decide)
    · exact h2
    · rw [hg] at h3
      cases h3
    · rw [hg] at h4
      cases h4
  · have hrun : ∃ r, CheckResourcesHealth (memEnv failingCluster) progressingManagesAandB
        (worldOf [objA, objB]) = .returned r ∧ r.err = some ⟨"not ready", false⟩ ∧
        r.m.DeployItem.Status.LastError ≠ none ∧ r.m ≠ progressingManagesAandB :=
      ⟨_, rfl, by decide, by decide, by decide⟩
    obtain ⟨r, hr, he, hsome, hne⟩ := hrun
    obtain ⟨blob, _, hc⟩ := h.2.2.1 r _ hr he
    rcases hc with ⟨_, h1⟩ | ⟨status, _, ⟨_, h2⟩ | ⟨_, _, h3⟩⟩
    · exact absurd h1 hne
    · exact ⟨r, hr, he, h2⟩
    · exact absurd h3 hsome
  · rcases h.2.2.2 ⟨"delete rejected", false⟩ (by decide) with
      ⟨_, h1, _⟩ | ⟨new, _, ⟨_, _, h2⟩ | ⟨_, _, h3, _⟩ | ⟨_, _, h4⟩⟩
    · exact absurd h1 (by decide)
    · exact h2
    · exact absurd h3 (by decide)
    · exact absurd h4 (by decide)

end Landscaper
